import Mathlib

/-!
Camera localizer driver and view-volume geometry (AliceVision).

A shallow embedding of `src/software/localization/main_cameraLocalizer.cpp`
(the threshold check `checkRobustEstimator`, the start-up section of `main`,
its per-frame loop and what follows the loop), together with models of the
collaborators whose implementation files are missing: the localizer and its
result type, the frame source, the exporter, and the half-space and frustum
geometry, of which only the tests are present.  Three headers are embedded
as well: the graph builder (`graph/graph_builder.hpp`), the pair and index
sets of the relative motions (`multiview/translation_averaging_common.hpp`)
and the masked histogram (`color_harmonization/selection_interface.hpp`),
and so are the two predicates of the fundamental-matrix tests
(`multiview/solver_fundamental_kernel_test.cpp`).

Conventions.
* A C++ `double` is the type `Double64` below: NaN, the two infinities, or a
  finite value given by its exact rational value.  The driver only compares
  and assigns doubles, it never does arithmetic on them, so rounding plays
  no role; `-0.0` and `+0.0` compare equal in IEEE 754 and are both
  `finite 0`.
* `std::size_t` counters are `Nat`: each of them is bounded by the length of
  `vec_localizationResults`, a vector held in memory, so they stay far below
  `2^64`.
* A `std::set` is the ascending sequence of its elements, a `std::map` a
  partial function on its keys; an exception is an `Except.error`.
-/

namespace AliceVision

/-! ## IEEE 754 doubles, as far as comparison is concerned -/

/-- A C++ `double` up to what `==` and `<=` can observe. -/
inductive Double64 where
  | nan
  | negInf
  | posInf
  | finite (q : ℚ)
  deriving DecidableEq

namespace Double64

/-- The literal `0` converted to `double`. -/
def zero : Double64 := finite 0

/-- IEEE 754 `a == b`: false as soon as one operand is NaN. -/
def eq : Double64 → Double64 → Bool
  | nan, _ => false
  | _, nan => false
  | negInf, negInf => true
  | posInf, posInf => true
  | finite a, finite b => decide (a = b)
  | _, _ => false

/-- IEEE 754 `a <= b`: false as soon as one operand is NaN. -/
def le : Double64 → Double64 → Bool
  | nan, _ => false
  | _, nan => false
  | negInf, _ => true
  | _, posInf => true
  | posInf, _ => false
  | _, negInf => false
  | finite a, finite b => decide (a ≤ b)

/-- IEEE 754 `a > b`, that is `b < a`: false as soon as one operand is NaN. -/
def gt : Double64 → Double64 → Bool
  | nan, _ => false
  | _, nan => false
  | negInf, _ => false
  | _, posInf => false
  | posInf, _ => true
  | _, negInf => true
  | finite a, finite b => decide (b < a)

/-- The value is not a NaN. -/
def isNumber : Double64 → Bool
  | nan => false
  | _ => true

end Double64

/-- The rational `q` is the value of a finite binary64 number: an integer
significand below `2⁵³` in absolute value times a power of two (the range
of the exponent is left open, which only admits more values). -/
def isBinary64 (q : ℚ) : Prop := ∃ m e : ℤ, |m| < 2 ^ 53 ∧ q = m * (2 : ℚ) ^ e

/-! ## `checkRobustEstimator` -/

/-- Modelled from the spec: `robust::EROBUST_ESTIMATOR`, whose declaration
(`robust_estimation/robust_estimators.hpp`) is missing.  The driver names
two enumerators, the AC-style and the LO-style policy; every other value
of the enumeration is `other tag`. -/
inductive EROBUST_ESTIMATOR where
  | ROBUST_ESTIMATOR_ACRANSAC
  | ROBUST_ESTIMATOR_LORANSAC
  | other (tag : Nat)
  deriving DecidableEq

open EROBUST_ESTIMATOR

/-- The constant `const double minThreshold = 1e-6;`: the binary64 number
nearest to `10⁻⁶`, which is `4722366482869645 · 2⁻⁷²`. -/
def minThreshold : Double64 := Double64.finite (4722366482869645 / 2 ^ 72)

/-- The function `bool checkRobustEstimator(robust::EROBUST_ESTIMATOR e, double &value)`.
The reference parameter is returned next to the result: the pair is
(return value, `value` after the call).  Log output is not modelled. -/
def checkRobustEstimator (e : EROBUST_ESTIMATOR) (value : Double64) : Bool × Double64 :=
  if e ≠ ROBUST_ESTIMATOR_LORANSAC ∧ e ≠ ROBUST_ESTIMATOR_ACRANSAC then
    (false, value)
  else
    -- for acransac set it to infinity
    let value :=
      if Double64.eq value Double64.zero ∧ e = ROBUST_ESTIMATOR_ACRANSAC then
        Double64.posInf
      else value
    -- for loransac we need thresholds > 0
    if e = ROBUST_ESTIMATOR_LORANSAC then
      if Double64.le value minThreshold then (false, value) else (true, value)
    else
      (true, value)


/-! ## `main`: from the parsed command line to the localizer parameters -/

/-- Modelled from the spec: `features::EImageDescriberType`
(`features/ImageDescriberCommon.hpp` is missing).  The driver tells the two
fiducial-marker describers apart from all the others. -/
inductive EImageDescriberType where
  | CCTAG3
  | CCTAG4
  | other (tag : Nat)
  deriving DecidableEq

/-- The two preprocessor switches read through `OPENMVG_IS_DEFINED`
(`config.hpp` is missing, so they are inputs). -/
structure BuildConfig where
  OPENMVG_HAVE_CCTAG : Bool
  OPENMVG_HAVE_ALEMBIC : Bool
  deriving DecidableEq

/-- The local variables of `main` that the command line fills in, as they
are after `po::notify(vm)` has succeeded (lines 98-165); `matchDescTypes`
is the list that line 306 decodes from `matchDescTypeNames`. -/
structure Options where
  sfmFilePath : String
  descriptorsFolder : String
  mediaFilepath : String
  calibFile : String
  matchDescTypes : List EImageDescriberType
  featurePreset : Nat
  resectionEstimator : EROBUST_ESTIMATOR
  matchingEstimator : EROBUST_ESTIMATOR
  refineIntrinsics : Bool
  resectionErrorMax : Double64
  matchingErrorMax : Double64
  numResults : Nat
  maxResults : Nat
  numCommonViews : Nat
  nbFrameBufferMatching : Nat
  robustMatching : Bool
  nNearestKeyFrames : Nat
  globalBundle : Bool
  noDistortion : Bool
  noBArefineIntrinsics : Bool
  minPointVisibility : Nat
  visualDebug : String
  exportAlembicFile : String
  exportBinaryFile : String

/-- The fields that only `VoctreeLocalizer::Parameters` has and that `main`
assigns (lines 412-418; `_algorithm`, computed by the missing
`initFromString`, is left out). -/
structure VoctreeFields where
  _numResults : Nat
  _maxResults : Nat
  _numCommonViews : Nat
  _ccTagUseCuda : Bool
  _matchingError : Double64
  _nbFrameBufferMatching : Nat
  _useRobustMatching : Bool
  deriving DecidableEq

/-- The object behind `std::unique_ptr<localization::LocalizerParameters> param`
once line 430 is reached.  `voctree` is `some` for the vocabulary-tree
localizer and `none` for the marker localizer, whose only own field is
`_nNearestKeyFrames`. -/
structure LocalizerParameters where
  _featurePreset : Nat
  _refineIntrinsics : Bool
  _visualDebug : String
  _errorMax : Double64
  _resectionEstimator : EROBUST_ESTIMATOR
  _matchingEstimator : EROBUST_ESTIMATOR
  _nNearestKeyFrames : Option Nat
  voctree : Option VoctreeFields
  deriving DecidableEq

/-- Lines 309-313: the marker localizer is chosen only in a build with CCTag
support and only when the single describer type is a CCTag one. -/
def useVoctreeLocalizer (cfg : BuildConfig) (matchDescTypes : List EImageDescriberType) : Bool :=
  if cfg.OPENMVG_HAVE_CCTAG then
    !(matchDescTypes.length == 1 &&
      (matchDescTypes.head? == some EImageDescriberType.CCTAG3 ||
       matchDescTypes.head? == some EImageDescriberType.CCTAG4))
  else true

/-- What `main` has in hand at line 431, when it did not leave earlier. -/
structure Configured where
  useVoctreeLocalizer : Bool
  globalBundle : Bool
  matchingErrorMax : Double64
  resectionErrorMax : Double64
  param : LocalizerParameters
  deriving DecidableEq

/-- Lines 299-430 of `main`.  `none` is the `return EXIT_FAILURE;` of line
302, taken before the localizer (lines 391, 401) and the feed (line 440)
are constructed.  The `||` of line 299 short-circuits: the resection pair
is only checked when the matching pair was accepted. -/
def configure (cfg : BuildConfig) (o : Options) : Option Configured :=
  let c1 := checkRobustEstimator o.matchingEstimator o.matchingErrorMax
  if !c1.1 then none
  else
    let c2 := checkRobustEstimator o.resectionEstimator o.resectionErrorMax
    if !c2.1 then none
    else
      let matchingErrorMax := c1.2
      let resectionErrorMax := c2.2
      let useVoctree := useVoctreeLocalizer cfg o.matchDescTypes
      let globalBundle := o.globalBundle && !o.refineIntrinsics
      some
        { useVoctreeLocalizer := useVoctree
          globalBundle := globalBundle
          matchingErrorMax := matchingErrorMax
          resectionErrorMax := resectionErrorMax
          param :=
            { _featurePreset := o.featurePreset
              _refineIntrinsics := o.refineIntrinsics
              _visualDebug := o.visualDebug
              _errorMax := resectionErrorMax
              _resectionEstimator := o.resectionEstimator
              _matchingEstimator := o.matchingEstimator
              _nNearestKeyFrames := if useVoctree then none else some o.nNearestKeyFrames
              voctree :=
                if useVoctree then
                  some
                    { _numResults := o.numResults
                      _maxResults := o.maxResults
                      _numCommonViews := o.numCommonViews
                      _ccTagUseCuda := false
                      _matchingError := matchingErrorMax
                      _nbFrameBufferMatching := o.nbFrameBufferMatching
                      _useRobustMatching := o.robustMatching }
                else none } }

/-- The values the declarations of lines 98-165 give when an option is not
on the command line, the two required paths being supplied. -/
def defaultOptions (sfmFilePath mediaFilepath : String) : Options :=
  { sfmFilePath := sfmFilePath
    descriptorsFolder := ""
    mediaFilepath := mediaFilepath
    calibFile := ""
    matchDescTypes := [EImageDescriberType.other 0]
    featurePreset := 0
    resectionEstimator := ROBUST_ESTIMATOR_ACRANSAC
    matchingEstimator := ROBUST_ESTIMATOR_ACRANSAC
    refineIntrinsics := false
    resectionErrorMax := Double64.finite 4
    matchingErrorMax := Double64.finite 4
    numResults := 4
    maxResults := 10
    numCommonViews := 3
    nbFrameBufferMatching := 10
    robustMatching := true
    nNearestKeyFrames := 5
    globalBundle := false
    noDistortion := false
    noBArefineIntrinsics := false
    minPointVisibility := 0
    visualDebug := ""
    exportAlembicFile := "trackedcameras.abc"
    exportBinaryFile := "" }

/-! ## `main`: the per-frame loop -/

/-- Modelled from the spec: `localization::LocalizationResult`
(`localization/LocalizationResult.hpp` is missing): the validity flag read
by `isValid()`, the pose of `getPose()`, the intrinsics of `getIntrinsics()`
and the 2D-3D inlier associations of `getIndMatch3D2D()`. -/
structure LocalizationResult (Pose Intr : Type) where
  isValid : Bool
  pose : Pose
  intrinsics : Intr
  indMatch3D2D : List (Nat × Nat)

/-- Modelled from the spec: one item of the frame source
(`dataio/FeedProvider.hpp` is missing): the grayscale image, the optional
known intrinsics and the image identifier that one successful
`feed.readImage` hands over. -/
structure Frame (Img Intr : Type) where
  imageGrey : Img
  intrinsics : Option Intr
  imgName : String

/-- Modelled from the spec: `localization::ILocalizer`
(`localization/ILocalizer.hpp` is missing), the capability
`localize(frame, params) → result`.  The localizer keeps state between
frames (`σ`), and the query intrinsics are passed by reference, so both
come back next to the result. -/
structure ILocalizer (σ Img Intr Pose : Type) where
  localize : σ → Img → LocalizerParameters → Bool → Intr → String →
    σ × Intr × LocalizationResult Pose Intr

/-- The two calls `main` makes on the `sfm::AlembicExporter` inside the
loop, with their arguments. -/
inductive ExportEvent (Pose Intr : Type) where
  | addCameraKeyframe (pose : Pose) (cam : Intr) (imagePath : String)
      (id_view : Nat) (id_intrinsic : Nat)
  | jumpKeyframe (imagePath : String)

/-- The variables of `main` that the loop of lines 472-511 reads or writes.
`feed` is what the frame source still has to deliver, `exporter` the calls
received so far by the exporter of line 449 (it stays empty in a build
without Alembic).  The timing statistics are left out. -/
structure LoopState (σ Img Intr Pose : Type) where
  feed : List (Frame Img Intr)
  localizer : σ
  queryIntrinsics : Intr
  hasIntrinsics : Bool
  currentImgName : String
  frameCounter : Nat
  goodFrameCounter : Nat
  goodFrameList : List String
  vec_localizationResults : List (LocalizationResult Pose Intr)
  exporter : List (ExportEvent Pose Intr)

section Loop

variable {σ Img Intr Pose : Type}

/-- Lines 453-470: the state in which the loop is entered. -/
def initialState (feed : List (Frame Img Intr)) (localizer : σ) (queryIntrinsics : Intr) :
    LoopState σ Img Intr Pose :=
  { feed := feed
    localizer := localizer
    queryIntrinsics := queryIntrinsics
    hasIntrinsics := false
    currentImgName := ""
    frameCounter := 0
    goodFrameCounter := 0
    goodFrameList := []
    vec_localizationResults := []
    exporter := [] }

/-- Lines 472 and 479-484: what `localizer->localize` returns for frame `f`
read in state `s` (new localizer state, query intrinsics after the call,
result). -/
def localizeFrame (loc : ILocalizer σ Img Intr Pose) (param : LocalizerParameters)
    (s : LoopState σ Img Intr Pose) (f : Frame Img Intr) :
    σ × Intr × LocalizationResult Pose Intr :=
  loc.localize s.localizer f.imageGrey param f.intrinsics.isSome
    (f.intrinsics.getD s.queryIntrinsics) f.imgName

/-- One evaluation of the loop condition followed, when it holds, by one
execution of the body (lines 472-511).  `none`: `feed.readImage` returned
false and the loop is left. -/
def loopStep (cfg : BuildConfig) (loc : ILocalizer σ Img Intr Pose)
    (param : LocalizerParameters) (s : LoopState σ Img Intr Pose) :
    Option (LoopState σ Img Intr Pose) :=
  match s.feed with
  | [] => none
  | f :: rest =>
    let out := localizeFrame loc param s f
    let localizationResult := out.2.2
    let queryIntrinsics := out.2.1
    let currentImgName := f.imgName
    let vec := s.vec_localizationResults ++ [localizationResult]
    if localizationResult.isValid then
      some
        { feed := rest
          localizer := out.1
          queryIntrinsics := queryIntrinsics
          hasIntrinsics := f.intrinsics.isSome
          currentImgName := currentImgName
          frameCounter := s.frameCounter + 1
          goodFrameCounter := s.goodFrameCounter + 1
          goodFrameList := s.goodFrameList ++
            [currentImgName ++ " : " ++ toString localizationResult.indMatch3D2D.length]
          vec_localizationResults := vec
          exporter :=
            if cfg.OPENMVG_HAVE_ALEMBIC then
              s.exporter ++ [ExportEvent.addCameraKeyframe localizationResult.pose
                queryIntrinsics currentImgName s.frameCounter s.frameCounter]
            else s.exporter }
    else
      some
        { feed := rest
          localizer := out.1
          queryIntrinsics := queryIntrinsics
          hasIntrinsics := f.intrinsics.isSome
          currentImgName := currentImgName
          frameCounter := s.frameCounter + 1
          goodFrameCounter := s.goodFrameCounter
          goodFrameList := s.goodFrameList
          vec_localizationResults := vec
          exporter :=
            if cfg.OPENMVG_HAVE_ALEMBIC then
              s.exporter ++ [ExportEvent.jumpKeyframe currentImgName]
            else s.exporter }

/-- The loop run for at most `n` iterations. -/
def runLoop (cfg : BuildConfig) (loc : ILocalizer σ Img Intr Pose)
    (param : LocalizerParameters) : Nat → LoopState σ Img Intr Pose → LoopState σ Img Intr Pose
  | 0, s => s
  | n + 1, s =>
    match loopStep cfg loc param s with
    | none => s
    | some s1 => runLoop cfg loc param n s1

/-- The whole `while` loop: every iteration consumes one frame of the feed,
so as many iterations as the feed has frames run it to its exit. -/
def mainLoop (cfg : BuildConfig) (loc : ILocalizer σ Img Intr Pose)
    (param : LocalizerParameters) (s : LoopState σ Img Intr Pose) : LoopState σ Img Intr Pose :=
  runLoop cfg loc param s.feed.length s

end Loop

/-! ## The per-frame localization state machine -/

/-- One 2D-3D association: (query feature index, map landmark index). -/
abbrev Correspondence := Nat × Nat

/-- The minimal sample size of the six-point resection solver, the
`assert(6 <= pt2D.cols())` of `l1SixPointResectionSolver::Solve`
(`resection_kernel.cpp`, line 30). -/
def minimalSampleSize : Nat := 6

/-- Modelled from the spec: the external collaborators of the per-frame
state machine (sections 4.3-4.5; `VoctreeLocalizer` and the estimators are
missing).  `matchBuffer` matches a frame against the temporal buffer,
`retrieve` is the candidate retrieval (`none`: retrieval unavailable),
`matchMap` the descriptor matching against the retrieved views, `fit` the
hypothesis search of the robust estimator, returning the best model with
its inlier set (`none`: every candidate model was discarded). -/
structure Collaborators (Img Intr Pose : Type) where
  matchBuffer : List (List Correspondence) → Img → List Correspondence
  retrieve : Img → Option (List Nat)
  matchMap : Img → List Nat → List Correspondence
  fit : LocalizerParameters → Bool → Intr → List Correspondence →
    Option (Pose × Intr × List Correspondence)
  defaultPose : Pose

section StateMachine

variable {Img Intr Pose : Type}

/-- Modelled from the spec: the robust pose estimator of section 4.5.  It
fails on fewer correspondences than the minimal sample size, when no model
is returned, and when the best hypothesis does not clear the minimum-inlier
floor, which section 3 puts at the minimal sample size. -/
def estimate (c : Collaborators Img Intr Pose) (param : LocalizerParameters)
    (hasIntrinsics : Bool) (queryIntrinsics : Intr) (correspondences : List Correspondence) :
    Option (Pose × Intr × List Correspondence) :=
  if correspondences.length < minimalSampleSize then none
  else
    match c.fit param hasIntrinsics queryIntrinsics correspondences with
    | none => none
    | some (pose, intr, inliers) =>
      if inliers.length < minimalSampleSize then none else some (pose, intr, inliers)

/-- Modelled from the spec: the correspondences of a frame (section 4.6):
matching against the temporal buffer first and, only if that yields too
few correspondences, retrieval plus matching against the map. -/
def correspondencesFor (c : Collaborators Img Intr Pose) (buffer : List (List Correspondence))
    (img : Img) : Option (List Correspondence) :=
  let fromBuffer := if buffer.isEmpty then [] else c.matchBuffer buffer img
  if minimalSampleSize ≤ fromBuffer.length then some fromBuffer
  else (c.retrieve img).map (c.matchMap img)

/-- Modelled from the spec: pushing a frame into the temporal buffer of
capacity `n`, first in first out. -/
def pushBuffer (n : Nat) (buffer : List (List Correspondence)) (entry : List Correspondence) :
    List (List Correspondence) :=
  let b := buffer ++ [entry]
  b.drop (b.length - n)

/-- Modelled from the spec: the per-frame state machine of section 4.6 as an
`ILocalizer` whose state is the temporal buffer.  On `PoseValid` the result
is valid, carries the inlier set and the frame enters the buffer; on
`PoseInvalid` the result is invalid and the buffer is left untouched. -/
def stateMachineLocalizer (c : Collaborators Img Intr Pose) :
    ILocalizer (List (List Correspondence)) Img Intr Pose :=
  { localize := fun buffer img param hasIntrinsics queryIntrinsics _ =>
      match (correspondencesFor c buffer img).bind
          (estimate c param hasIntrinsics queryIntrinsics) with
      | some (pose, intr, inliers) =>
        let capacity := (param.voctree.map (fun v => v._nbFrameBufferMatching)).getD 0
        (pushBuffer capacity buffer inliers, intr,
          { isValid := true, pose := pose, intrinsics := intr, indMatch3D2D := inliers })
      | none =>
        (buffer, queryIntrinsics,
          { isValid := false, pose := c.defaultPose, intrinsics := queryIntrinsics,
            indMatch3D2D := [] }) }

end StateMachine

/-! ## A small run, used to exercise the definitions -/

/-- Collaborators over numbers: an image `n` has `n` correspondences with the
map, all of them inliers of the fitted model; nothing is matched against
the buffer. -/
def sampleCollaborators : Collaborators Nat Nat Nat :=
  { matchBuffer := fun _ _ => []
    retrieve := fun _ => some [0]
    matchMap := fun img _ => (List.range img).map (fun i => (i, i))
    fit := fun _ _ q corr => some (corr.length, q, corr)
    defaultPose := 0 }

/-- Three frames: 7 correspondences, 2 correspondences, 9 correspondences. -/
def sampleFeed : List (Frame Nat Nat) :=
  [⟨7, none, "a.png"⟩, ⟨2, some 1, "b.png"⟩, ⟨9, none, "c.png"⟩]

/-- The parameters `main` builds from the default command line. -/
def sampleParam : LocalizerParameters :=
  { _featurePreset := 0
    _refineIntrinsics := false
    _visualDebug := ""
    _errorMax := Double64.finite 4
    _resectionEstimator := ROBUST_ESTIMATOR_ACRANSAC
    _matchingEstimator := ROBUST_ESTIMATOR_ACRANSAC
    _nNearestKeyFrames := none
    voctree := some
      { _numResults := 4
        _maxResults := 10
        _numCommonViews := 3
        _ccTagUseCuda := false
        _matchingError := Double64.finite 4
        _nbFrameBufferMatching := 10
        _useRobustMatching := true } }

/-! ## Half-space geometry

The geometry headers (`geometry/half_space_intersection.hpp`,
`geometry/frustum.hpp`) are missing; only their two test files are
present.  Coordinates are exact rationals: the rounding of `double`
arithmetic and the tolerances of a numerical solver are not modelled. -/

/-- A point or a direction of space, the `Vec3` of the tests. -/
structure Vec3 where
  x : ℚ
  y : ℚ
  z : ℚ
  deriving DecidableEq

namespace Vec3

/-- Scalar product. -/
def dot (a b : Vec3) : ℚ := a.x * b.x + a.y * b.y + a.z * b.z

/-- Sum. -/
def add (a b : Vec3) : Vec3 := ⟨a.x + b.x, a.y + b.y, a.z + b.z⟩

/-- Difference. -/
def sub (a b : Vec3) : Vec3 := ⟨a.x - b.x, a.y - b.y, a.z - b.z⟩

/-- Product by a scalar. -/
def smul (k : ℚ) (a : Vec3) : Vec3 := ⟨k * a.x, k * a.y, k * a.z⟩

/-- Vector product. -/
def cross (a b : Vec3) : Vec3 :=
  ⟨a.y * b.z - a.z * b.y, a.z * b.x - a.x * b.z, a.x * b.y - a.y * b.x⟩

end Vec3

/-- Modelled from the spec: a half-plane (section 3), that is a plane with
a side: the points `p` with `normal · p + offset ≥ 0`, which for a point
`q` of the plane reads `(p − q) · normal ≥ 0` with `offset = −normal · q`.
The test `EmptyIntersection` changes `normal()` alone, so the stored form is
normal and offset.  The normal is not scaled to unit length here: scaling
by a positive number does not change the half-space. -/
structure Half_plane where
  normal : Vec3
  offset : ℚ
  deriving DecidableEq

/-- The point `p` satisfies the (inclusive) inequality of the half-plane. -/
def Half_plane.contains (h : Half_plane) (p : Vec3) : Prop :=
  0 ≤ h.normal.dot p + h.offset

/-- Modelled from the spec: `Half_plane_p(p, q, r)`, the plane through three
points, oriented as the test drawings show: `p, q, r` turn counterclockwise
when seen from the side the half-space is on. -/
def Half_plane_p (p q r : Vec3) : Half_plane :=
  let n := (q.sub p).cross (r.sub p)
  ⟨n, -(n.dot p)⟩

/-- The statement `hp.normal() *= -1` of the test `EmptyIntersection`. -/
def Half_plane.flipNormal (h : Half_plane) : Half_plane :=
  { h with normal := h.normal.smul (-1) }

/-! ### Exact linear feasibility -/

/-- Scalar product of a coefficient list with a valuation of the variables;
a missing entry counts as 0. -/
def dotList : List ℚ → List ℚ → ℚ
  | a :: as, x :: xs => a * x + dotList as xs
  | _, _ => 0

/-- Sum of two coefficient lists. -/
def addCoeffs : List ℚ → List ℚ → List ℚ
  | [], bs => bs
  | a :: as, [] => a :: as
  | a :: as, b :: bs => (a + b) :: addCoeffs as bs

/-- The linear constraint `coeffs · v + const ≥ 0` on a valuation `v`. -/
structure LinearConstraint where
  coeffs : List ℚ
  const : ℚ

/-- The valuation `v` satisfies the constraint. -/
def LinearConstraint.holds (c : LinearConstraint) (v : List ℚ) : Prop :=
  0 ≤ dotList c.coeffs v + c.const

/-- Coefficient of the first variable. -/
def LinearConstraint.lead (c : LinearConstraint) : ℚ := c.coeffs.headD 0

/-- The constraint without its first variable. -/
def LinearConstraint.rest (c : LinearConstraint) : LinearConstraint :=
  ⟨c.coeffs.tail, c.const⟩

/-- The positive combination of a lower bound `lo` (positive leading
coefficient) and an upper bound `up` (negative leading coefficient) of the
first variable in which that variable cancels. -/
def LinearConstraint.cancel (lo up : LinearConstraint) : LinearConstraint :=
  ⟨addCoeffs (lo.coeffs.tail.map (fun a => (-up.lead) * a))
      (up.coeffs.tail.map (fun a => lo.lead * a)),
    (-up.lead) * lo.const + lo.lead * up.const⟩

/-- One step of Fourier-Motzkin elimination: the first variable is
eliminated from the system. -/
def eliminate (cs : List LinearConstraint) : List LinearConstraint :=
  (cs.filter (fun c => decide (c.lead = 0))).map LinearConstraint.rest ++
  (cs.filter (fun c => decide (0 < c.lead))).flatMap (fun lo =>
    (cs.filter (fun c => decide (c.lead < 0))).map (fun up => LinearConstraint.cancel lo up))

/-- Feasibility of a system in `n` variables: eliminate them one after the
other, then check the constants that are left. -/
def feasible : Nat → List LinearConstraint → Bool
  | 0, cs => cs.all (fun c => decide (0 ≤ c.const))
  | n + 1, cs => feasible n (eliminate cs)

/-- The constraint `(x − pᵢ) · nᵢ ≥ s` of section 4.1 on the variables
`x, y, z, s`. -/
def Half_plane.slackConstraint (h : Half_plane) : LinearConstraint :=
  ⟨[h.normal.x, h.normal.y, h.normal.z, -1], h.offset⟩

/-- The constraint `s ≥ 0` on the variables `x, y, z, s`. -/
def slackNonneg : LinearConstraint := ⟨[0, 0, 0, 1], 0⟩

/-- Modelled from the spec: `isNotEmpty(hplanes)` of
`geometry/half_space_intersection.hpp`, which is missing.  Section 4.1
states it as a linear feasibility problem: a point `x` and a non-negative
slack `s` with `(x − pᵢ) · nᵢ ≥ s` for every half-plane, the region being
non-empty iff the optimal `s` is non-negative, which is the case iff some
`s ≥ 0` is feasible.  Section 9 leaves the solving method open; here the
problem is decided exactly by eliminating `x, y, z, s`.  The bounding box,
which only keeps the maximisation of `s` finite, and the "indeterminate"
outcome of a numerical failure have no counterpart in exact arithmetic. -/
def isNotEmpty (hplanes : List Half_plane) : Bool :=
  feasible 4 (slackNonneg :: hplanes.map Half_plane.slackConstraint)

/-! ### The two half-plane tests -/

/-- The point `a` of both tests. -/
def test_a : Vec3 := ⟨0, 0, 0⟩

/-- The point `b` of both tests. -/
def test_b : Vec3 := ⟨1, 0, 0⟩

/-- The point `c` of both tests. -/
def test_c : Vec3 := ⟨0, 1, 0⟩

/-- The vector `offset` of both tests. -/
def test_offset : Vec3 := ⟨0, 0, 2⟩

/-- The `vec_hplanes` of `TEST(HALF_PLANE, ExistingSubspace)`: the
half-spaces `z ≥ 0` and `z ≥ 2`. -/
def test_ExistingSubspace : List Half_plane :=
  [Half_plane_p test_a test_b test_c,
   Half_plane_p (test_a.add test_offset) (test_b.add test_offset) (test_c.add test_offset)]

/-- The `vec_hplanes` of `TEST(HALF_PLANE, EmptyIntersection)`: the normal of
the second half-plane is inverted, which gives `z ≥ 0` and `z ≤ −2`. -/
def test_EmptyIntersection : List Half_plane :=
  [Half_plane_p test_a test_b test_c,
   (Half_plane_p (test_a.add test_offset) (test_b.add test_offset)
      (test_c.add test_offset)).flipNormal]

/-! ## View volumes -/

/-- A 3×3 matrix by its rows, the `Mat3` of the tests. -/
structure Mat3 where
  r0 : Vec3
  r1 : Vec3
  r2 : Vec3
  deriving DecidableEq

/-- Row `i` of the product `A * B`, given row `i` of `A`. -/
def Mat3.rowMul (a : Vec3) (B : Mat3) : Vec3 :=
  ((B.r0.smul a.x).add (B.r1.smul a.y)).add (B.r2.smul a.z)

/-- The matrix product. -/
def Mat3.mul (A B : Mat3) : Mat3 :=
  ⟨Mat3.rowMul A.r0 B, Mat3.rowMul A.r1 B, Mat3.rowMul A.r2 B⟩

/-- The half-space `n · (p − C) ≥ 0`, whose plane passes through `C`. -/
def planeThrough (C n : Vec3) : Half_plane := ⟨n, -(n.dot C)⟩

/-- Modelled from the spec: the `Frustum` of `geometry/frustum.hpp`, which
is missing: a set of half-planes (4 lateral, optionally near and far) and
the flag that tells a truncated frustum from an infinite one (section 3). -/
structure Frustum where
  planes : List Half_plane
  truncated : Bool
  deriving DecidableEq

namespace Frustum

/-- Modelled from the spec: `Frustum(w, h, K, R, C)` (section 4.2): the 4
lateral half-planes of the infinite viewing pyramid of the camera with
intrinsics `K`, rotation `R` and centre `C`.  With `m = K R (p − C)` the
point `p` projects to the pixel `(m₁ / m₃, m₂ / m₃)`; the pyramid is where
that pixel is in the image, `0 ≤ m₁ ≤ w m₃` and `0 ≤ m₂ ≤ h m₃`.  All four
planes pass through the apex `C`. -/
def infinite (w h : Int) (K R : Mat3) (C : Vec3) : Frustum :=
  let P := K.mul R
  { planes :=
      [planeThrough C P.r0,
       planeThrough C ((P.r2.smul (w : ℚ)).sub P.r0),
       planeThrough C P.r1,
       planeThrough C ((P.r2.smul (h : ℚ)).sub P.r1)]
    truncated := false }

/-- Modelled from the spec: `Frustum(w, h, K, R, C, zNear, zFar)`
(section 4.2): two more half-planes, near and far, bound the depth
`R₃ · (p − C)` along the viewing axis by `zNear ≤ depth ≤ zFar`, and the
frustum is marked truncated. -/
def truncatedBy (w h : Int) (K R : Mat3) (C : Vec3) (zNear zFar : ℚ) : Frustum :=
  { planes := (infinite w h K R C).planes ++
      [⟨R.r2, -zNear - R.r2.dot C⟩, ⟨R.r2.smul (-1), zFar + R.r2.dot C⟩]
    truncated := true }

/-- The accessor `isInfinite()`. -/
def isInfinite (f : Frustum) : Bool := !f.truncated

/-- The accessor `isTruncated()`. -/
def isTruncated (f : Frustum) : Bool := f.truncated

/-- Modelled from the spec: `intersect(A, B)` concatenates the half-planes of
`A` and `B` and delegates to `isNotEmpty` (section 4.2). -/
def intersect (A B : Frustum) : Bool := isNotEmpty (A.planes ++ B.planes)

end Frustum

/-- The calibration matrix of the frustum tests: focal length 1000,
principal point (500, 500). -/
def test_K : Mat3 := ⟨⟨1000, 0, 500⟩, ⟨0, 1000, 500⟩, ⟨0, 0, 1⟩⟩

/-- The identity rotation. -/
def Mat3.identity : Mat3 := ⟨⟨1, 0, 0⟩, ⟨0, 1, 0⟩, ⟨0, 0, 1⟩⟩

/-- The `flipMatrix` of the frustum tests, `RotationAroundY(D2R(180))` (lines
103, 142), in exact arithmetic: the half turn about the vertical axis. -/
def flipMatrix : Mat3 := ⟨⟨-1, 0, 0⟩, ⟨0, 1, 0⟩, ⟨0, 0, -1⟩⟩

/-! ## `main`: after the loop, and the whole run -/

/-- The calls with an effect outside the process that `main` makes after the
loop: `localization::save(results, filename)`, the call of
`localization::refineSequence` with its eight arguments (the sixth,
`outputFilename`, names the scene file the refinement works with), and the
second Alembic exporter, given by its file name and the calls it receives. -/
inductive OutputAction (Pose Intr : Type) where
  | save (results : List (LocalizationResult Pose Intr)) (filename : String)
  | refineSequence (results : List (LocalizationResult Pose Intr))
      (allTheSame : Bool) (refineIntrinsics : Bool) (noDistortion : Bool)
      (refinePose : Bool) (refineStructure : Bool) (outputFilename : String)
      (minPointVisibility : Nat)
  | exporterBA (filename : String) (events : List (ExportEvent Pose Intr))

/-- The action is a call of `refineSequence`. -/
def OutputAction.isRefineSequence {Pose Intr : Type} : OutputAction Pose Intr → Bool
  | OutputAction.refineSequence _ _ _ _ _ _ _ _ => true
  | _ => false

/-- The action is a call of `localization::save`. -/
def OutputAction.isSave {Pose Intr : Type} : OutputAction Pose Intr → Bool
  | OutputAction.save _ _ => true
  | _ => false

/-- The action writes a refined output: the second Alembic exporter. -/
def OutputAction.isExporterBA {Pose Intr : Type} : OutputAction Pose Intr → Bool
  | OutputAction.exporterBA _ _ => true
  | _ => false

/-- What `main` takes from outside the file: the path expression
`(bfs::path(f).parent_path() / bfs::path(f).stem()).string()` of
Boost.Filesystem, and `localization::refineSequence`
(`localization/optimization.hpp` is missing), which receives the results by
reference and returns whether the bundle adjustment succeeded. -/
structure Environment (Pose Intr : Type) where
  basenameOf : String → String
  refineSequence : List (LocalizationResult Pose Intr) → Bool → Bool → Bool → Bool → Bool →
    String → Nat → Bool × List (LocalizationResult Pose Intr)

section AfterLoop

variable {σ Img Intr Pose : Type}

/-- Line 367: `const bool wantsBinaryOutput = exportBinaryFile.empty();`. -/
def wantsBinaryOutput (o : Options) : Bool := o.exportBinaryFile.isEmpty

/-- Lines 371-375: `basenameBinary` is computed only under
`wantsBinaryOutput` and is the empty string otherwise. -/
def basenameBinary (env : Environment Pose Intr) (o : Options) : String :=
  if wantsBinaryOutput o then env.basenameOf o.exportBinaryFile else ""

/-- Line 369: `basenameAlembic`, computed from `exportBinaryFile`. -/
def basenameAlembic (env : Environment Pose Intr) (o : Options) : String :=
  env.basenameOf o.exportBinaryFile

/-- Lines 549-562: the calls the exporter of the refined sequence receives,
one per result, `idx` counting from its first argument; every call carries
the image name that was current when the loop ended. -/
def exportBundle (currentImgName : String) :
    Nat → List (LocalizationResult Pose Intr) → List (ExportEvent Pose Intr)
  | _, [] => []
  | idx, res :: rest =>
    (if res.isValid then
      ExportEvent.addCameraKeyframe res.pose res.intrinsics currentImgName idx idx
     else ExportEvent.jumpKeyframe currentImgName) :: exportBundle currentImgName (idx + 1) rest

/-- Lines 531-538: the call of `refineSequence` that `main` makes on the
results `vec`. -/
def refineCall (env : Environment Pose Intr) (o : Options)
    (vec : List (LocalizationResult Pose Intr)) :
    Bool × List (LocalizationResult Pose Intr) :=
  env.refineSequence vec true (!o.noBArefineIntrinsics) o.noDistortion true false
    (basenameBinary env o ++ ".sfmdata.BUNDLE") o.minPointVisibility

/-- The same call as an entry of the output trace. -/
def refineAction (env : Environment Pose Intr) (o : Options)
    (vec : List (LocalizationResult Pose Intr)) : OutputAction Pose Intr :=
  OutputAction.refineSequence vec true (!o.noBArefineIntrinsics) o.noDistortion true false
    (basenameBinary env o ++ ".sfmdata.BUNDLE") o.minPointVisibility

/-- Lines 513-571 of `main`: the output calls made after the loop, in
order.  `globalBundle` is the variable as line 318 left it, `s` the state
in which the loop ended. -/
def afterLoop (cfg : BuildConfig) (env : Environment Pose Intr) (o : Options)
    (globalBundle : Bool) (s : LoopState σ Img Intr Pose) : List (OutputAction Pose Intr) :=
  let saved :=
    if wantsBinaryOutput o then
      [OutputAction.save s.vec_localizationResults (basenameBinary env o ++ ".bin")]
    else []
  if globalBundle then
    let r := refineCall env o s.vec_localizationResults
    let called := saved ++ [refineAction env o s.vec_localizationResults]
    if !r.1 then called
    else
      called ++
        (if cfg.OPENMVG_HAVE_ALEMBIC then
          [OutputAction.exporterBA (basenameAlembic env o ++ ".BUNDLE.abc")
            (exportBundle s.currentImgName 0 r.2)]
         else []) ++
        (if wantsBinaryOutput o then
          [OutputAction.save r.2 (basenameBinary env o ++ ".BUNDLE.bin")]
         else [])
  else saved

/-- How a run of `main` ends: the exit code (`0` at the end of `main`, `1`
for `EXIT_FAILURE`), the calls received by the exporter of the loop, and
the output calls made after the loop. -/
structure MainOutcome (Pose Intr : Type) where
  exitCode : Nat
  exporter : List (ExportEvent Pose Intr)
  actions : List (OutputAction Pose Intr)

/-- The function `main` from line 299 on, for a command line that was
parsed into `o`.  `localizerIsInit` and `feedIsInit` are the answers of
`localizer->isInit()` and `feed.isInit()` (lines 433, 441), `feed` is what
the frame source delivers, `localizer` the state of the localizer and
`queryIntrinsics` the default-constructed intrinsics (line 454). -/
def mainRun (cfg : BuildConfig) (env : Environment Pose Intr)
    (loc : ILocalizer σ Img Intr Pose) (localizerIsInit feedIsInit : Bool) (o : Options)
    (feed : List (Frame Img Intr)) (localizer : σ) (queryIntrinsics : Intr) :
    MainOutcome Pose Intr :=
  match configure cfg o with
  | none => ⟨1, [], []⟩
  | some c =>
    if !localizerIsInit then ⟨1, [], []⟩
    else if !feedIsInit then ⟨1, [], []⟩
    else
      let s := mainLoop cfg loc c.param (initialState feed localizer queryIntrinsics)
      ⟨0, s.exporter, afterLoop cfg env o c.globalBundle s⟩

end AfterLoop

/-- An environment for the sample run: the base name of a file name is the
name without its last four characters, and the bundle adjustment fails
exactly on an empty sequence. -/
def sampleEnvironment : Environment Nat Nat :=
  { basenameOf := fun f => f.dropRight 4
    refineSequence := fun vec _ _ _ _ _ _ _ => (!vec.isEmpty, vec) }

/-! ## Ordered sets, index pairs and relative motions -/

/-- Modelled from the spec: the type `IndexT`, whose declaration (`types.hpp`)
is missing: an identifier, an unsigned integer that is only stored and
compared here. -/
abbrev IndexT := Nat

/-- Modelled from the spec: the type `Pair`, whose declaration (`types.hpp`)
is missing: a `std::pair` of two indices, with the members `first` and
`second` that the sources read.  `Pair_Set`, declared in the same file, is
the `std::set` of such pairs. -/
structure Pair where
  first : IndexT
  second : IndexT
  deriving DecidableEq

/-- The key of the order of `std::pair`: first components, then second ones. -/
def Pair.key (p : Pair) : Lex (IndexT × IndexT) := toLex (p.first, p.second)

/-- The lexicographic order of `std::pair`, by which a `Pair_Set` is sorted. -/
instance : LinearOrder Pair :=
  LinearOrder.lift' Pair.key (fun a b h => by
    cases a
    cases b
    simp only [Pair.key, EmbeddingLike.apply_eq_iff_eq, Prod.mk.injEq] at h
    simp [h.1, h.2])

/-- The operation `std::set<T>::insert(a)`, on the ascending sequence of the
elements of the set: `a` goes to its place unless it is there already. -/
def stdSetInsert {α : Type} [LinearOrder α] (a : α) : List α → List α
  | [] => [a]
  | b :: l =>
    if a < b then a :: b :: l
    else if a = b then b :: l
    else b :: stdSetInsert a l

/-- The type `relativeInfo`: `std::pair< Pair, std::pair<Mat3, Vec3> >`. -/
abbrev relativeInfo := Pair × (Mat3 × Vec3)

/-- The function `getPairs`: the `Pair_Set` of the pairs used by the relative
motions, as its ascending sequence. -/
def getPairs (vec_relative : List relativeInfo) : List Pair :=
  vec_relative.foldl
    (fun pair_set rel => stdSetInsert (Pair.mk rel.1.first rel.1.second) pair_set) []

/-- The function `getIndexT`: the `std::set<IndexT>` of the indices used by
the relative motions, as its ascending sequence. -/
def getIndexT (vec_relative : List relativeInfo) : List IndexT :=
  vec_relative.foldl
    (fun indexT_set rel => stdSetInsert rel.1.second (stdSetInsert rel.1.first indexT_set)) []

/-! ## The graph builder -/

/-- The graph type `lemon::ListGraph` (an external library) as far as the
builder uses it: `addNode` creates a node, which is identified here by the
number of nodes created before it, and `addEdge` adds an edge between two
nodes; parallel edges and loops are allowed. -/
structure GraphT where
  nodeCount : Nat
  edges : List (Nat × Nat)
  deriving DecidableEq

/-- The call `g.addNode()`: the graph with one more node, and that node. -/
def GraphT.addNode (g : GraphT) : GraphT × Nat :=
  ({ g with nodeCount := g.nodeCount + 1 }, g.nodeCount)

/-- The call `g.addEdge(u, v)`. -/
def GraphT.addEdge (g : GraphT) (u v : Nat) : GraphT :=
  { g with edges := g.edges ++ [(u, v)] }

/-- The exception thrown by `std::map::at` on a missing key. -/
inductive Exception where
  | out_of_range
  deriving DecidableEq

/-- The struct `indexedGraph`: the graph, the `std::map` from image index to
node (`none`: the key is absent) and the node map from node to image
index. -/
structure indexedGraph where
  g : GraphT
  map_size_t_to_node : IndexT → Option Nat
  map_nodeMapIndex : Nat → IndexT

namespace indexedGraph

/-- The members as the constructors find them: an empty graph, an empty
map, a node map that holds the default value. -/
def empty : indexedGraph := ⟨⟨0, []⟩, fun _ => none, fun _ => 0⟩

/-- The body of the node loops (lines 46-47 and 73-74):
`map_size_t_to_node[idx] = g.addNode();` then
`(*map_nodeMapIndex)[map_size_t_to_node.at(idx)] = idx;`. -/
def addNodeFor (G : indexedGraph) (idx : IndexT) : Except Exception indexedGraph :=
  let r := G.g.addNode
  let m := Function.update G.map_size_t_to_node idx (some r.2)
  match m idx with
  | none => Except.error Exception.out_of_range
  | some node => Except.ok ⟨r.1, m, Function.update G.map_nodeMapIndex node idx⟩

/-- The node loop over a sequence of indices. -/
def addNodes : List IndexT → indexedGraph → Except Exception indexedGraph
  | [], G => Except.ok G
  | idx :: rest, G =>
    match addNodeFor G idx with
    | Except.error e => Except.error e
    | Except.ok G1 => addNodes rest G1

/-- The edge loop (lines 51-58 and 78-85):
`g.addEdge(map_size_t_to_node.at(i), map_size_t_to_node.at(j));` for every
pair, `at` throwing on a missing key. -/
def addEdges : List Pair → indexedGraph → Except Exception indexedGraph
  | [], G => Except.ok G
  | p :: rest, G =>
    match G.map_size_t_to_node p.first with
    | none => Except.error Exception.out_of_range
    | some u =>
      match G.map_size_t_to_node p.second with
      | none => Except.error Exception.out_of_range
      | some v => addEdges rest { G with g := G.g.addEdge u v }

/-- Step A of the first constructor (lines 32-39): the `std::set` of the
indices of the pairs, as its ascending sequence. -/
def setNodes (pairs : List Pair) : List IndexT :=
  pairs.foldl (fun s p => stdSetInsert p.second (stdSetInsert p.first s)) []

/-- The constructor `indexedGraph(const IterablePairs & pairs)`. -/
def fromPairs (pairs : List Pair) : Except Exception indexedGraph :=
  match addNodes (setNodes pairs) empty with
  | Except.error e => Except.error e
  | Except.ok G => addEdges pairs G

/-- The constructor `indexedGraph(const IterableNodes & nodes, const
IterablePairs & pairs)`. -/
def fromNodesAndPairs (nodes : List IndexT) (pairs : List Pair) :
    Except Exception indexedGraph :=
  match addNodes nodes empty with
  | Except.error e => Except.error e
  | Except.ok G => addEdges pairs G

end indexedGraph

/-! ## Histogram of masked data -/

/-- Modelled from the spec: the class template `image::Image<T>`, whose
declaration (`image/image.hpp`) is missing, as far as `computeHisto` uses
it: `Height()`, `Width()` and the element access `(row, column)`. -/
structure Image (T : Type) where
  Height : Nat
  Width : Nat
  data : Nat → Nat → T

/-- The element access `image(j, i)`: it has a value inside the image only. -/
def Image.at? {T : Type} (image : Image T) (j i : Nat) : Option T :=
  if j < image.Height ∧ i < image.Width then some (image.data j i) else none

section ComputeHisto

variable {H P V : Type}

/-- The inner loop of `computeHisto` (lines 54-60) for row `j`, over the
columns still to visit.  `Add` is `Histogram<double>::Add`
(`third_party/histogram` is missing), `channel` the access
`pixel(channelIndex)`; `none` stands for a read outside the image. -/
def computeHistoRow (Add : H → V → H) (channel : P → Nat → V) (mask : Image Nat)
    (channelIndex : Nat) (image : Image P) (j : Nat) : List Nat → H → Option H
  | [], histo => some histo
  | i :: rest, histo =>
    if mask.data j i ≠ 0 then
      match image.at? j i with
      | none => none
      | some pixel =>
        computeHistoRow Add channel mask channelIndex image j rest
          (Add histo (channel pixel channelIndex))
    else computeHistoRow Add channel mask channelIndex image j rest histo

/-- The outer loop of `computeHisto` (lines 52-61), over the rows still to
visit. -/
def computeHistoRows (Add : H → V → H) (channel : P → Nat → V) (mask : Image Nat)
    (channelIndex : Nat) (image : Image P) : List Nat → H → Option H
  | [], histo => some histo
  | j :: rest, histo =>
    match computeHistoRow Add channel mask channelIndex image j (List.range mask.Width) histo with
    | none => none
    | some histo1 => computeHistoRows Add channel mask channelIndex image rest histo1

/-- The function `commonDataByPair::computeHisto`: the histogram after the
call, or `none` when a pixel outside the image is read. -/
def computeHisto (Add : H → V → H) (channel : P → Nat → V) (histo : H) (mask : Image Nat)
    (channelIndex : Nat) (image : Image P) : Option H :=
  computeHistoRows Add channel mask channelIndex image (List.range mask.Height) histo

/-- What the histogram is to receive: the channel `channelIndex` values of
the image at the pixels whose mask value is non-zero, in row-major order. -/
def maskedSamples (channel : P → Nat → V) (mask : Image Nat) (channelIndex : Nat)
    (image : Image P) : List V :=
  (List.range mask.Height).flatMap (fun j =>
    (List.range mask.Width).filterMap (fun i =>
      if mask.data j i ≠ 0 then some (channel (image.data j i) channelIndex) else none))

end ComputeHisto

/-- The number of pixels of the mask whose value is non-zero. -/
def nonZeroPixels (mask : Image Nat) : Nat :=
  ((List.range mask.Height).map (fun j =>
    ((List.range mask.Width).filter (fun i => decide (mask.data j i ≠ 0))).length)).sum

/-- A mask of 2 rows and 3 columns: `1 0 1 / 0 0 255`. -/
def sampleMask : Image Nat :=
  ⟨2, 3, fun j i => if j = 0 then (if i = 1 then 0 else 1) else (if i = 2 then 255 else 0)⟩

/-- An image of 2 rows and 3 columns whose pixel at `(j, i)` has the three
channel values `100 + 10 j + i`, `200 + 10 j + i` and `300 + 10 j + i`. -/
def sampleImage : Image (List Nat) :=
  ⟨2, 3, fun j i => [100 + 10 * j + i, 200 + 10 * j + i, 300 + 10 * j + i]⟩

/-! ## Checks of the fundamental-matrix tests

The two predicates of `multiview/solver_fundamental_kernel_test.cpp`.  They
compute with `double`; here the values are exact rationals and `+`, `-`,
`*`, `/` are exact, so that rounding is not modelled.  On the small integer
inputs used in the theorems below every one of these operations is exact in
binary64 as well.  The function `sqrt` of `<cmath>` maps a double to a
double and is a parameter. -/

/-- The call `F.determinant()` on a 3×3 matrix. -/
def Mat3.determinant (F : Mat3) : ℚ := F.r0.dot (F.r1.cross F.r2)

/-- The product `F * v` of a 3×3 matrix and a column. -/
def Mat3.mulVec (F : Mat3) (v : Vec3) : Vec3 := ⟨F.r0.dot v, F.r1.dot v, F.r2.dot v⟩

/-- Modelled from the spec: `EuclideanToHomogeneous` (`multiview/projection.hpp`
is missing), which turns the 2×n matrix of the image points, given here by
its columns, into the 3×n matrix of their homogeneous coordinates by adding
the coordinate 1. -/
def EuclideanToHomogeneous (pts : List (ℚ × ℚ)) : List Vec3 :=
  pts.map (fun p => ⟨p.1, p.2, 1⟩)

/-- The loop of lines 42-45 over the columns of `hptsA` and `hptsB`:
`residual = hptsB.col(i).dot(F * hptsA.col(i)); bOk &= residual < precision;`. -/
def expectResiduals (F : Mat3) (precision : ℚ) : List Vec3 → List Vec3 → Bool → Bool
  | a :: hptsA, b :: hptsB, bOk =>
    expectResiduals F precision hptsA hptsB (bOk && decide (b.dot (F.mulVec a) < precision))
  | _, _, bOk => bOk

/-- The function `ExpectFundamentalProperties(F, ptsA, ptsB, precision)`.
`none` stands for the failure of `assert(ptsA.cols() == ptsB.cols())`. -/
def ExpectFundamentalProperties (F : Mat3) (ptsA ptsB : List (ℚ × ℚ)) (precision : ℚ) :
    Option Bool :=
  let bOk := true && decide (F.determinant < precision)
  if ptsA.length ≠ ptsB.length then none
  else
    some (expectResiduals F precision (EuclideanToHomogeneous ptsA)
      (EuclideanToHomogeneous ptsB) bOk)

/-- What the comment of lines 26-30 asks for: the determinant is 0 and the
condition `x'ᵀ F x = 0` holds for every correspondence, both to precision,
that is in absolute value. -/
def fundamentalPropertiesHold (F : Mat3) (ptsA ptsB : List (ℚ × ℚ)) (precision : ℚ) : Bool :=
  decide (|F.determinant| < precision) &&
    ((EuclideanToHomogeneous ptsA).zip (EuclideanToHomogeneous ptsB)).all
      (fun ab => decide (|ab.2.dot (F.mulVec ab.1)| < precision))

/-- The matrix `x1` of `TEST(SevenPointTest, EasyCase)`, by its columns. -/
def test_x1 : List (ℚ × ℚ) := [(0, 0), (0, 1), (0, 2), (1, 0), (1, 1), (1, 2), (2, 0)]

/-- The matrix `x2` of `TEST(SevenPointTest, EasyCase)`, by its columns. -/
def test_x2 : List (ℚ × ℚ) := [(0, 1), (0, 2), (0, 3), (1, 1), (1, 2), (1, 3), (2, 1)]

/-- A matrix of rank 1 for which `x'ᵀ F x = -1` whatever the two points. -/
def test_F_residual : Mat3 := ⟨⟨0, 0, 0⟩, ⟨0, 0, 0⟩, ⟨0, 0, -1⟩⟩

/-- A matrix of full rank, of determinant `-1`. -/
def test_F_determinant : Mat3 := ⟨⟨-1, 0, 0⟩, ⟨0, 1, 0⟩, ⟨0, 0, 1⟩⟩

/-- A matrix of dynamic size, the `Mat` of the tests: `rows()`, `cols()` and
the coefficients. -/
structure Mat where
  rows : Nat
  cols : Nat
  coeff : Nat → Nat → ℚ

/-- The expression `(a.array() * b.array()).sum()`: the sum of the products
of the coefficients at the same place. -/
def Mat.sumProd (a b : Mat) : ℚ :=
  ((List.range a.rows).map (fun i =>
    ((List.range a.cols).map (fun j => a.coeff i j * b.coeff i j)).sum)).sum

/-- The product `k * a` of a matrix by a scalar. -/
def Mat.smul (k : ℚ) (a : Mat) : Mat := ⟨a.rows, a.cols, fun i j => k * a.coeff i j⟩

/-- Modelled from the spec: `FrobeniusNorm` (`numeric/numeric.h` is missing),
the square root of the sum of the squares of the coefficients. -/
def FrobeniusNorm (sqrt : ℚ → ℚ) (a : Mat) : ℚ := sqrt (a.sumProd a)

/-- Modelled from the spec: `CosinusBetweenMatrices` (`numeric/numeric.h` is
missing), the cosine similarity of two matrices of the same size: the sum
of the products of their coefficients, divided by the two Frobenius norms.
When one of the norms is 0 the quotient of doubles is `NaN` or an infinity,
not a number with a rational value: the result is then `none`. -/
def CosinusBetweenMatrices (sqrt : ℚ → ℚ) (a b : Mat) : Option ℚ :=
  if FrobeniusNorm sqrt a = 0 ∨ FrobeniusNorm sqrt b = 0 then none
  else some (a.sumProd b / FrobeniusNorm sqrt a / FrobeniusNorm sqrt b)

/-- The function `Colinear(a, b, tolerance)`.  When `c` is `NaN` or an
infinity, `c * c` is `NaN` or `+∞` and the comparison `c * c < 1` of line 19
is false. -/
def Colinear (sqrt : ℚ → ℚ) (a b : Mat) (tolerance : ℚ) : Bool :=
  let dims_match := (a.rows == b.rows) && (a.cols == b.cols)
  if !dims_match then false
  else
    match CosinusBetweenMatrices sqrt a b with
    | none => false
    | some c =>
      if c * c < 1 then
        let s := sqrt (1 - c * c)
        decide (|s| < tolerance)
      else false

/-- The matrix `(3 4)` of one row and two columns; its Frobenius norm is 5. -/
def test_row34 : Mat := ⟨1, 2, fun _ j => if j = 0 then 3 else 4⟩

/-- The identity matrix of size 2. -/
def test_identity2 : Mat := ⟨2, 2, fun i j => if i = j then 1 else 0⟩

end AliceVision

/-! # Theorems -/

namespace AliceVision

open EROBUST_ESTIMATOR

/-! ## The threshold check -/

/-- No binary64 number lies strictly between `minThreshold` and `10⁻⁶`:
comparing a double with the constant `1e-6` of the source is comparing it
with the real number `10⁻⁶`. -/
theorem binary64_gap (q : ℚ) (hq : isBinary64 q) :
    q ≤ 4722366482869645 / 2 ^ 72 ↔ q ≤ 1 / 10 ^ 6 := by
  constructor
  · intro h
    refine le_trans h ?_
    norm_num
  · intro h
    by_contra hcon
    push_neg at hcon
    obtain ⟨m, e, hm, rfl⟩ := hq
    have hmabs := abs_lt.mp hm
    rcases le_or_lt (-72) e with he | he
    · -- the value is an integer multiple of 2⁻⁷²
      obtain ⟨k, hk⟩ : ∃ k : ℕ, e = (k : ℤ) - 72 := ⟨(e + 72).toNat, by omega⟩
      subst hk
      have h2 : (2 : ℚ) ^ ((k : ℤ) - 72) = 2 ^ k / 2 ^ 72 := by
        rw [zpow_sub₀ (by norm_num : (2 : ℚ) ≠ 0)]
        norm_cast
      rw [h2] at h hcon
      have hlow : ((4722366482869645 : ℤ) : ℚ) < ((m * 2 ^ k : ℤ) : ℚ) := by
        push_cast
        have := hcon
        rw [div_lt_iff₀ (by positivity), mul_div_assoc', div_mul_cancel₀ _ (by positivity)] at this
        exact this
      have hup : ((m * 2 ^ k : ℤ) : ℚ) < ((4722366482869646 : ℤ) : ℚ) := by
        push_cast
        have h3 : (m : ℚ) * (2 ^ k / 2 ^ 72) * 2 ^ 72 = m * 2 ^ k := by
          field_simp
        have h4 : (m : ℚ) * (2 ^ k / 2 ^ 72) * 2 ^ 72 ≤ 1 / 10 ^ 6 * 2 ^ 72 :=
          mul_le_mul_of_nonneg_right h (by positivity)
        rw [h3] at h4
        refine lt_of_le_of_lt h4 ?_
        norm_num
      have hl := Int.cast_lt.mp hlow
      have hu := Int.cast_lt.mp hup
      omega
    · -- the value is below 2⁻²⁰
      have hpow : (2 : ℚ) ^ e ≤ 2 ^ (-73 : ℤ) :=
        zpow_le_zpow_right₀ (by norm_num) (by omega)
      have hmq : (m : ℚ) < 2 ^ 53 := by exact_mod_cast hmabs.2
      have hpos : (0 : ℚ) < 2 ^ e := by positivity
      have hmpos : (0 : ℚ) < m := by
        by_contra hneg
        push_neg at hneg
        have : (m : ℚ) * 2 ^ e ≤ 0 := mul_nonpos_of_nonpos_of_nonneg hneg hpos.le
        have h0 : (0 : ℚ) < 4722366482869645 / 2 ^ 72 := by positivity
        linarith
      have : (m : ℚ) * 2 ^ e < 2 ^ 53 * 2 ^ (-73 : ℤ) :=
        mul_lt_mul hmq hpow hpos (by positivity)
      have h5 : (2 : ℚ) ^ 53 * 2 ^ (-73 : ℤ) ≤ 4722366482869645 / 2 ^ 72 := by
        norm_num
      exact lt_irrefl _ (lt_of_lt_of_le (lt_trans hcon this) h5)

/-- C1: with the ACRANSAC estimator and a threshold of exactly 0 the check
returns true and leaves +infinity in the threshold, which is also the
outcome (return value and final threshold) of the call with ACRANSAC and
+infinity. -/
theorem checkRobustEstimator_acransac_zero :
    checkRobustEstimator ROBUST_ESTIMATOR_ACRANSAC Double64.zero = (true, Double64.posInf) ∧
    checkRobustEstimator ROBUST_ESTIMATOR_ACRANSAC Double64.zero =
      checkRobustEstimator ROBUST_ESTIMATOR_ACRANSAC Double64.posInf := by
  constructor <;> decide

/-- C2: with the LORANSAC estimator the check returns true exactly when the
threshold is greater than `minThreshold` or is a NaN.  On a NaN the
comparison `value <= minThreshold` is false, so the NaN is accepted although
it is not greater than `1e-6`; on every number the check returns true if
and only if the value is strictly greater than `1e-6` (for a finite double
that is: greater than the real number `10⁻⁶`), and the threshold is never
rewritten. -/
theorem checkRobustEstimator_loransac_nan :
    checkRobustEstimator ROBUST_ESTIMATOR_LORANSAC Double64.nan = (true, Double64.nan) ∧
    Double64.gt Double64.nan minThreshold = false ∧
    (∀ v : Double64,
      checkRobustEstimator ROBUST_ESTIMATOR_LORANSAC v =
        (Double64.gt v minThreshold || !v.isNumber, v)) ∧
    (∀ q : ℚ, isBinary64 q →
      ((checkRobustEstimator ROBUST_ESTIMATOR_LORANSAC (Double64.finite q)).1 = true ↔
        1 / 10 ^ 6 < q)) := by
  refine ⟨by decide, by decide, ?_, ?_⟩
  · intro v
    cases v <;>
      simp [checkRobustEstimator, Double64.gt, Double64.le, Double64.isNumber, minThreshold]
    rename_i q
    by_cases h : q ≤ 4722366482869645 / 2 ^ 72
    · simp [h]
    · simp [h, not_le.mp h]
  · intro q hq
    have hgap := binary64_gap q hq
    simp only [checkRobustEstimator, Double64.le, Double64.eq, Double64.zero, minThreshold]
    by_cases h : q ≤ 4722366482869645 / 2 ^ 72
    · have h2 := hgap.mp h
      simp only [one_div] at h2
      simp [h, h2]
    · have h2 : ¬ q ≤ 1 / 10 ^ 6 := fun hh => h (hgap.mpr hh)
      simp only [one_div, not_le] at h2
      simp [h, h2]

/-- C3: an estimator that is neither ACRANSAC nor LORANSAC is rejected
whatever the threshold, and the threshold is left as it was. -/
theorem checkRobustEstimator_unsupported (tag : Nat) (value : Double64) :
    checkRobustEstimator (other tag) value = (false, value) := by
  simp [checkRobustEstimator]

/-! ## Start-up validation in `main` -/

section LoopFacts

variable {σ Img Intr Pose : Type}

/-- Unrolling the bounded loop at its last iteration. -/
theorem runLoop_succ_right (cfg : BuildConfig) (loc : ILocalizer σ Img Intr Pose)
    (param : LocalizerParameters) (k : Nat) (s : LoopState σ Img Intr Pose) :
    runLoop cfg loc param (k + 1) s =
      (loopStep cfg loc param (runLoop cfg loc param k s)).getD (runLoop cfg loc param k s) := by
  induction k generalizing s with
  | zero =>
    cases h : loopStep cfg loc param s <;> simp [runLoop, h]
  | succ k ih =>
    cases h : loopStep cfg loc param s with
    | none => simp [runLoop, h]
    | some s1 =>
      have e1 : runLoop cfg loc param (k + 1 + 1) s = runLoop cfg loc param (k + 1) s1 := by
        simp [runLoop, h]
      have e2 : runLoop cfg loc param (k + 1) s = runLoop cfg loc param k s1 := by
        simp [runLoop, h]
      rw [e1, e2, ih]

/-- The loop is left exactly when the feed is exhausted. -/
theorem loopStep_eq_none_iff (cfg : BuildConfig) (loc : ILocalizer σ Img Intr Pose)
    (param : LocalizerParameters) (s : LoopState σ Img Intr Pose) :
    loopStep cfg loc param s = none ↔ s.feed = [] := by
  unfold loopStep
  cases h : s.feed with
  | nil => simp
  | cons f rest =>
    simp only
    split <;> simp

/-- The state after one more frame, spelled out. -/
theorem loopStep_cons (cfg : BuildConfig) (loc : ILocalizer σ Img Intr Pose)
    (param : LocalizerParameters) (s : LoopState σ Img Intr Pose) (f : Frame Img Intr)
    (rest : List (Frame Img Intr)) (h : s.feed = f :: rest) :
    ∃ s1, loopStep cfg loc param s = some s1 ∧
      s1.feed = rest ∧
      s1.localizer = (localizeFrame loc param s f).1 ∧
      s1.frameCounter = s.frameCounter + 1 ∧
      s1.vec_localizationResults =
        s.vec_localizationResults ++ [(localizeFrame loc param s f).2.2] ∧
      s1.goodFrameCounter =
        s.goodFrameCounter + (if (localizeFrame loc param s f).2.2.isValid then 1 else 0) ∧
      s1.goodFrameList.length =
        s.goodFrameList.length + (if (localizeFrame loc param s f).2.2.isValid then 1 else 0) ∧
      s1.exporter =
        (if cfg.OPENMVG_HAVE_ALEMBIC then
          s.exporter ++
            [if (localizeFrame loc param s f).2.2.isValid then
              ExportEvent.addCameraKeyframe (localizeFrame loc param s f).2.2.pose
                (localizeFrame loc param s f).2.1 f.imgName s.frameCounter s.frameCounter
             else ExportEvent.jumpKeyframe f.imgName]
        else s.exporter) := by
  unfold loopStep
  rw [h]
  simp only
  cases hv : (localizeFrame loc param s f).2.2.isValid
  · simp
  · simp

end LoopFacts

section LoopInvariant

variable {σ Img Intr Pose : Type}

/-- While frames remain, the state after `k + 1` iterations is one step
after the state after `k` iterations, and that step consumes frame `k`. -/
theorem runLoop_step (cfg : BuildConfig) (loc : ILocalizer σ Img Intr Pose)
    (param : LocalizerParameters) (s0 : LoopState σ Img Intr Pose) (k : Nat)
    (f : Frame Img Intr)
    (hfeed : (runLoop cfg loc param k s0).feed = f :: s0.feed.drop (k + 1)) :
    loopStep cfg loc param (runLoop cfg loc param k s0) =
      some (runLoop cfg loc param (k + 1) s0) := by
  obtain ⟨s1, h1, -⟩ := loopStep_cons cfg loc param _ f _ hfeed
  rw [runLoop_succ_right, h1]
  rfl

/-- After `k` iterations the feed has lost its first `k` frames. -/
theorem runLoop_feed (cfg : BuildConfig) (loc : ILocalizer σ Img Intr Pose)
    (param : LocalizerParameters) (s0 : LoopState σ Img Intr Pose) (k : Nat)
    (hk : k ≤ s0.feed.length) :
    (runLoop cfg loc param k s0).feed = s0.feed.drop k := by
  induction k with
  | zero => simp [runLoop]
  | succ k ih =>
    have hlt : k < s0.feed.length := hk
    have hfeed := ih (Nat.le_of_lt hlt)
    rw [List.drop_eq_getElem_cons hlt] at hfeed
    have hs := runLoop_step cfg loc param s0 k _ hfeed
    obtain ⟨s1, h1, h2, -⟩ := loopStep_cons cfg loc param _ _ _ hfeed
    rw [hs] at h1
    cases h1
    exact h2

/-- The counters and lists after `k` iterations, `k` within the feed. -/
theorem runLoop_inv (cfg : BuildConfig) (loc : ILocalizer σ Img Intr Pose)
    (param : LocalizerParameters) (feed : List (Frame Img Intr)) (l0 : σ) (q0 : Intr)
    (k : Nat) (hk : k ≤ feed.length) :
    (runLoop cfg loc param k (initialState feed l0 q0)).vec_localizationResults.length = k ∧
    (runLoop cfg loc param k (initialState feed l0 q0)).frameCounter = k ∧
    (runLoop cfg loc param k (initialState feed l0 q0)).goodFrameCounter =
      (runLoop cfg loc param k (initialState feed l0 q0)).goodFrameList.length ∧
    (runLoop cfg loc param k (initialState feed l0 q0)).goodFrameCounter =
      (runLoop cfg loc param k (initialState feed l0 q0)).vec_localizationResults.countP
        (fun r => r.isValid) ∧
    (runLoop cfg loc param k (initialState feed l0 q0)).exporter.length =
      (if cfg.OPENMVG_HAVE_ALEMBIC then k else 0) := by
  induction k with
  | zero => simp [runLoop, initialState]
  | succ k ih =>
    have hlt : k < feed.length := hk
    obtain ⟨i1, i2, i3, i4, i5⟩ := ih (Nat.le_of_lt hlt)
    have hfeed := runLoop_feed cfg loc param (initialState feed l0 q0) k (Nat.le_of_lt hlt)
    have hlt2 : k < (initialState feed l0 q0 : LoopState σ Img Intr Pose).feed.length := hlt
    rw [List.drop_eq_getElem_cons hlt2] at hfeed
    have hs := runLoop_step cfg loc param _ k _ hfeed
    obtain ⟨s1, h1, -, -, h3, h4, h5, h6, h7⟩ := loopStep_cons cfg loc param _ _ _ hfeed
    rw [hs] at h1
    cases h1
    refine ⟨?_, ?_, ?_, ?_, ?_⟩
    · rw [h4]; simp [i1]
    · rw [h3, i2]
    · rw [h5, h6, i3]
    · rw [h5, h4, List.countP_append, i4]
      split <;> simp_all
    · rw [h7]
      cases hA : cfg.OPENMVG_HAVE_ALEMBIC
      · simpa [hA] using i5
      · simp [hA] at i5 ⊢
        exact i5

end LoopInvariant

section LoopPointwise

variable {σ Img Intr Pose : Type}

/-- What iteration `k` appends to the result vector and to the exporter. -/
theorem runLoop_succ_fields (cfg : BuildConfig) (loc : ILocalizer σ Img Intr Pose)
    (param : LocalizerParameters) (feed : List (Frame Img Intr)) (l0 : σ) (q0 : Intr)
    (k : Nat) (f : Frame Img Intr) (hf : feed[k]? = some f) :
    loopStep cfg loc param (runLoop cfg loc param k (initialState feed l0 q0)) =
      some (runLoop cfg loc param (k + 1) (initialState feed l0 q0)) ∧
    (runLoop cfg loc param (k + 1) (initialState feed l0 q0)).vec_localizationResults =
      (runLoop cfg loc param k (initialState feed l0 q0)).vec_localizationResults ++
        [(localizeFrame loc param (runLoop cfg loc param k (initialState feed l0 q0)) f).2.2] ∧
    (runLoop cfg loc param (k + 1) (initialState feed l0 q0)).exporter =
      (if cfg.OPENMVG_HAVE_ALEMBIC then
        (runLoop cfg loc param k (initialState feed l0 q0)).exporter ++
          [if (localizeFrame loc param
                (runLoop cfg loc param k (initialState feed l0 q0)) f).2.2.isValid then
            ExportEvent.addCameraKeyframe
              (localizeFrame loc param
                (runLoop cfg loc param k (initialState feed l0 q0)) f).2.2.pose
              (localizeFrame loc param
                (runLoop cfg loc param k (initialState feed l0 q0)) f).2.1
              f.imgName k k
           else ExportEvent.jumpKeyframe f.imgName]
      else (runLoop cfg loc param k (initialState feed l0 q0)).exporter) := by
  obtain ⟨hlt, hfk⟩ := List.getElem?_eq_some_iff.mp hf
  have hlt2 : k < (initialState feed l0 q0 : LoopState σ Img Intr Pose).feed.length := hlt
  have hfeed := runLoop_feed cfg loc param (initialState feed l0 q0) k (Nat.le_of_lt hlt2)
  rw [List.drop_eq_getElem_cons hlt2] at hfeed
  have hs := runLoop_step cfg loc param _ k _ hfeed
  obtain ⟨s1, h1, -, -, -, h4, -, -, h7⟩ := loopStep_cons cfg loc param _ _ _ hfeed
  rw [hs] at h1
  cases h1
  have hfr : (initialState feed l0 q0 : LoopState σ Img Intr Pose).feed[k] = f := hfk
  have hc := (runLoop_inv cfg loc param feed l0 q0 k (Nat.le_of_lt hlt)).2.1
  rw [hfr] at h4 h7
  rw [hc] at h7
  exact ⟨hs, h4, h7⟩

/-- The `i`-th recorded result is the one computed for frame `i`. -/
theorem runLoop_results_get (cfg : BuildConfig) (loc : ILocalizer σ Img Intr Pose)
    (param : LocalizerParameters) (feed : List (Frame Img Intr)) (l0 : σ) (q0 : Intr)
    (k : Nat) (hk : k ≤ feed.length) (i : Nat) (f : Frame Img Intr) (hi : i < k)
    (hf : feed[i]? = some f) :
    (runLoop cfg loc param k (initialState feed l0 q0)).vec_localizationResults[i]? =
      some (localizeFrame loc param (runLoop cfg loc param i (initialState feed l0 q0)) f).2.2 := by
  induction k with
  | zero => omega
  | succ k ih =>
    have hlt : k < feed.length := hk
    obtain ⟨g, hg⟩ : ∃ g, feed[k]? = some g := ⟨feed[k], List.getElem?_eq_getElem hlt⟩
    obtain ⟨-, h4, -⟩ := runLoop_succ_fields cfg loc param feed l0 q0 k g hg
    have hlen := (runLoop_inv cfg loc param feed l0 q0 k (Nat.le_of_lt hlt)).1
    rw [h4]
    rcases Nat.lt_succ_iff_lt_or_eq.mp hi with h | h
    · rw [List.getElem?_append_left (by omega)]
      exact ih (Nat.le_of_lt hlt) h
    · subst h
      rw [hg] at hf
      cases hf
      rw [List.getElem?_append_right (by omega)]
      simp [hlen]

/-- With the exporter compiled in, the `i`-th call it received is the one
made for frame `i`. -/
theorem runLoop_exporter_get (cfg : BuildConfig) (loc : ILocalizer σ Img Intr Pose)
    (param : LocalizerParameters) (feed : List (Frame Img Intr)) (l0 : σ) (q0 : Intr)
    (hA : cfg.OPENMVG_HAVE_ALEMBIC = true)
    (k : Nat) (hk : k ≤ feed.length) (i : Nat) (f : Frame Img Intr) (hi : i < k)
    (hf : feed[i]? = some f) :
    (runLoop cfg loc param k (initialState feed l0 q0)).exporter[i]? =
      some
        (if (localizeFrame loc param
              (runLoop cfg loc param i (initialState feed l0 q0)) f).2.2.isValid then
          ExportEvent.addCameraKeyframe
            (localizeFrame loc param
              (runLoop cfg loc param i (initialState feed l0 q0)) f).2.2.pose
            (localizeFrame loc param
              (runLoop cfg loc param i (initialState feed l0 q0)) f).2.1
            f.imgName i i
         else ExportEvent.jumpKeyframe f.imgName) := by
  induction k with
  | zero => omega
  | succ k ih =>
    have hlt : k < feed.length := hk
    obtain ⟨g, hg⟩ : ∃ g, feed[k]? = some g := ⟨feed[k], List.getElem?_eq_getElem hlt⟩
    obtain ⟨-, -, h7⟩ := runLoop_succ_fields cfg loc param feed l0 q0 k g hg
    have hlen := (runLoop_inv cfg loc param feed l0 q0 k (Nat.le_of_lt hlt)).2.2.2.2
    rw [hA] at hlen
    simp only [if_true] at hlen
    rw [h7, hA]
    simp only [if_true]
    rcases Nat.lt_succ_iff_lt_or_eq.mp hi with h | h
    · rw [List.getElem?_append_left (by omega)]
      exact ih (Nat.le_of_lt hlt) h
    · subst h
      rw [hg] at hf
      cases hf
      rw [List.getElem?_append_right (by omega)]
      simp [hlen]

end LoopPointwise

section LoopClaims

variable {σ Img Intr Pose : Type}

/-- The whole loop is the bounded loop run once per frame of the feed, and
it is then at its exit. -/
theorem mainLoop_exit (cfg : BuildConfig) (loc : ILocalizer σ Img Intr Pose)
    (param : LocalizerParameters) (feed : List (Frame Img Intr)) (l0 : σ) (q0 : Intr) :
    mainLoop cfg loc param (initialState feed l0 q0) =
      runLoop cfg loc param feed.length (initialState feed l0 q0) ∧
    loopStep cfg loc param (mainLoop cfg loc param (initialState feed l0 q0)) = none := by
  refine ⟨rfl, ?_⟩
  rw [loopStep_eq_none_iff]
  have h := runLoop_feed cfg loc param (initialState feed l0 q0 : LoopState σ Img Intr Pose) feed.length
    (Nat.le_refl _)
  have e : (initialState feed l0 q0 : LoopState σ Img Intr Pose).feed = feed := rfl
  rw [e] at h
  unfold mainLoop
  rw [e, h]
  simp

/-- C9: loop invariant of the main loop.  After `k` frames have been read
from the feed, the feed has advanced by exactly `k` frames, exactly `k`
results are recorded, the `i`-th of them being the result of localizing
frame `i` (valid or not), `frameCounter = k`, and `goodFrameCounter` is the
length of `goodFrameList` and the number of recorded results that are
valid, hence at most `frameCounter`.  Whatever the validity of the results
so far, the loop goes on to the next frame while one is left, and it is
left only once all frames have been processed. -/
theorem mainLoop_invariant (cfg : BuildConfig) (loc : ILocalizer σ Img Intr Pose)
    (param : LocalizerParameters) (feed : List (Frame Img Intr)) (l0 : σ) (q0 : Intr)
    (k : Nat) (hk : k ≤ feed.length) :
    (runLoop cfg loc param k (initialState feed l0 q0)).feed = feed.drop k ∧
    (runLoop cfg loc param k (initialState feed l0 q0)).vec_localizationResults.length = k ∧
    (∀ i f, i < k → feed[i]? = some f →
      (runLoop cfg loc param k (initialState feed l0 q0)).vec_localizationResults[i]? =
        some (localizeFrame loc param
          (runLoop cfg loc param i (initialState feed l0 q0)) f).2.2) ∧
    (runLoop cfg loc param k (initialState feed l0 q0)).frameCounter = k ∧
    (runLoop cfg loc param k (initialState feed l0 q0)).goodFrameCounter =
      (runLoop cfg loc param k (initialState feed l0 q0)).goodFrameList.length ∧
    (runLoop cfg loc param k (initialState feed l0 q0)).goodFrameCounter =
      (runLoop cfg loc param k (initialState feed l0 q0)).vec_localizationResults.countP
        (fun r => r.isValid) ∧
    (runLoop cfg loc param k (initialState feed l0 q0)).goodFrameCounter ≤
      (runLoop cfg loc param k (initialState feed l0 q0)).frameCounter ∧
    (k < feed.length →
      loopStep cfg loc param (runLoop cfg loc param k (initialState feed l0 q0)) =
        some (runLoop cfg loc param (k + 1) (initialState feed l0 q0))) ∧
    (loopStep cfg loc param (runLoop cfg loc param k (initialState feed l0 q0)) = none ↔
      k = feed.length) ∧
    mainLoop cfg loc param (initialState feed l0 q0) =
      runLoop cfg loc param feed.length (initialState feed l0 q0) := by
  obtain ⟨i1, i2, i3, i4, -⟩ := runLoop_inv cfg loc param feed l0 q0 k hk
  have hfeed : (runLoop cfg loc param k (initialState feed l0 q0)).feed = feed.drop k :=
    runLoop_feed cfg loc param (initialState feed l0 q0) k hk
  refine ⟨hfeed, i1, ?_, i2, i3, i4, ?_, ?_, ?_, rfl⟩
  · intro i f hi hf
    exact runLoop_results_get cfg loc param feed l0 q0 k hk i f hi hf
  · rw [i4, i2]
    calc List.countP (fun r => r.isValid)
          (runLoop cfg loc param k (initialState feed l0 q0)).vec_localizationResults
        ≤ (runLoop cfg loc param k (initialState feed l0 q0)).vec_localizationResults.length :=
          List.countP_le_length _
      _ = k := i1
  · intro hlt
    exact (runLoop_succ_fields cfg loc param feed l0 q0 k feed[k]
      (List.getElem?_eq_getElem hlt)).1
  · rw [loopStep_eq_none_iff, hfeed, List.drop_eq_nil_iff]
    omega

/-- Witness for C9: the sample feed of three frames after two iterations. -/
theorem mainLoop_invariant_witness :
    2 ≤ sampleFeed.length ∧
    (runLoop ⟨false, true⟩ (stateMachineLocalizer sampleCollaborators) sampleParam 2
      (initialState sampleFeed [] 0)).frameCounter = 2 ∧
    (runLoop ⟨false, true⟩ (stateMachineLocalizer sampleCollaborators) sampleParam 2
      (initialState sampleFeed [] 0)).goodFrameCounter =
      (runLoop ⟨false, true⟩ (stateMachineLocalizer sampleCollaborators) sampleParam 2
        (initialState sampleFeed [] 0)).goodFrameList.length :=
  ⟨by decide,
   (mainLoop_invariant ⟨false, true⟩ (stateMachineLocalizer sampleCollaborators) sampleParam
      sampleFeed [] 0 2 (by decide)).2.2.2.1,
   (mainLoop_invariant ⟨false, true⟩ (stateMachineLocalizer sampleCollaborators) sampleParam
      sampleFeed [] 0 2 (by decide)).2.2.2.2.1⟩

/-- C10: in a build with the Alembic exporter, after `k` frames the exporter
has received exactly `k` calls, and the `i`-th call is the one for frame
`i`: `addCameraKeyframe` with the pose of the frame's result, the frame's
image name and the frame index `i` when that result is valid, and
`jumpKeyframe` with the frame's image name when it is invalid.  At the end
of the loop there is one call per frame of the feed. -/
theorem export_one_event_per_frame (cfg : BuildConfig) (loc : ILocalizer σ Img Intr Pose)
    (param : LocalizerParameters) (feed : List (Frame Img Intr)) (l0 : σ) (q0 : Intr)
    (hA : cfg.OPENMVG_HAVE_ALEMBIC = true) (k : Nat) (hk : k ≤ feed.length) :
    (runLoop cfg loc param k (initialState feed l0 q0)).exporter.length = k ∧
    (∀ i f, i < k → feed[i]? = some f →
      (runLoop cfg loc param k (initialState feed l0 q0)).vec_localizationResults[i]? =
        some (localizeFrame loc param
          (runLoop cfg loc param i (initialState feed l0 q0)) f).2.2 ∧
      ((localizeFrame loc param
          (runLoop cfg loc param i (initialState feed l0 q0)) f).2.2.isValid = true →
        (runLoop cfg loc param k (initialState feed l0 q0)).exporter[i]? =
          some (ExportEvent.addCameraKeyframe
            (localizeFrame loc param
              (runLoop cfg loc param i (initialState feed l0 q0)) f).2.2.pose
            (localizeFrame loc param
              (runLoop cfg loc param i (initialState feed l0 q0)) f).2.1
            f.imgName i i)) ∧
      ((localizeFrame loc param
          (runLoop cfg loc param i (initialState feed l0 q0)) f).2.2.isValid = false →
        (runLoop cfg loc param k (initialState feed l0 q0)).exporter[i]? =
          some (ExportEvent.jumpKeyframe f.imgName))) ∧
    (mainLoop cfg loc param (initialState feed l0 q0)).exporter.length = feed.length := by
  have hlen := (runLoop_inv cfg loc param feed l0 q0 k hk).2.2.2.2
  have hlenf := (runLoop_inv cfg loc param feed l0 q0 feed.length (Nat.le_refl _)).2.2.2.2
  rw [hA] at hlen hlenf
  simp only [if_true] at hlen hlenf
  refine ⟨hlen, ?_, ?_⟩
  · intro i f hi hf
    have he := runLoop_exporter_get cfg loc param feed l0 q0 hA k hk i f hi hf
    refine ⟨runLoop_results_get cfg loc param feed l0 q0 k hk i f hi hf, ?_, ?_⟩
    · intro hv
      rw [he, hv]
      simp
    · intro hv
      rw [he, hv]
      simp
  · rw [(mainLoop_exit cfg loc param feed l0 q0).1]
    exact hlenf

/-- Witness for C10: the sample feed run to its end; the three calls are a
keyframe for `a.png`, a jump for `b.png` and a keyframe for `c.png`. -/
theorem export_one_event_per_frame_witness :
    (3 ≤ sampleFeed.length ∧
      (runLoop ⟨false, true⟩ (stateMachineLocalizer sampleCollaborators) sampleParam 3
        (initialState sampleFeed [] 0)).exporter.length = 3) ∧
    (runLoop ⟨false, true⟩ (stateMachineLocalizer sampleCollaborators) sampleParam 3
        (initialState sampleFeed [] 0)).exporter =
      [ExportEvent.addCameraKeyframe 7 0 "a.png" 0 0, ExportEvent.jumpKeyframe "b.png",
       ExportEvent.addCameraKeyframe 9 1 "c.png" 2 2] :=
  ⟨⟨by decide,
    (export_one_event_per_frame ⟨false, true⟩ (stateMachineLocalizer sampleCollaborators)
      sampleParam sampleFeed [] 0 rfl 3 (by decide)).1⟩, rfl⟩

end LoopClaims

/-! ## Valid results and the minimal sample size -/

section ValidResults

variable {Img Intr Pose : Type}

/-- A successful estimation returns at least `minimalSampleSize` inliers. -/
theorem estimate_inliers (c : Collaborators Img Intr Pose) (param : LocalizerParameters)
    (hasIntrinsics : Bool) (q : Intr) (corr : List Correspondence)
    (pose : Pose) (intr : Intr) (inliers : List Correspondence)
    (h : estimate c param hasIntrinsics q corr = some (pose, intr, inliers)) :
    minimalSampleSize ≤ inliers.length := by
  unfold estimate at h
  split at h
  · cases h
  · split at h
    · cases h
    · split at h
      · cases h
      · rename_i hge
        cases h
        exact Nat.le_of_not_lt hge

/-- The state machine marks a result valid only with at least
`minimalSampleSize` inliers. -/
theorem stateMachine_valid_inliers (c : Collaborators Img Intr Pose)
    (buffer : List (List Correspondence)) (img : Img) (param : LocalizerParameters)
    (hasIntrinsics : Bool) (q : Intr) (name : String)
    (h : ((stateMachineLocalizer c).localize buffer img param hasIntrinsics q name).2.2.isValid
      = true) :
    minimalSampleSize ≤
      ((stateMachineLocalizer c).localize buffer img param hasIntrinsics q
        name).2.2.indMatch3D2D.length := by
  unfold stateMachineLocalizer at h ⊢
  simp only at h ⊢
  cases he : (correspondencesFor c buffer img).bind (estimate c param hasIntrinsics q) with
  | none =>
    rw [he] at h
    simp at h
  | some t =>
    obtain ⟨pose, intr, inliers⟩ := t
    simp only
    cases hc : correspondencesFor c buffer img with
    | none => rw [hc] at he; simp at he
    | some corr =>
      rw [hc] at he
      exact estimate_inliers c param hasIntrinsics q corr pose intr inliers he

/-- C8: with the per-frame state machine of the spec as localizer, every
result that the loop of `main` records as valid carries at least 6 inlier
correspondences, the minimal sample size of the six-point resection
solver; `goodFrameCounter` counts exactly such results, and every camera
keyframe handed to the exporter belongs to such a result. -/
theorem valid_result_has_six_inliers (cfg : BuildConfig) (c : Collaborators Img Intr Pose)
    (param : LocalizerParameters) (feed : List (Frame Img Intr))
    (buffer0 : List (List Correspondence)) (q0 : Intr) :
    (∀ r ∈ (mainLoop cfg (stateMachineLocalizer c) param
        (initialState feed buffer0 q0)).vec_localizationResults,
      r.isValid = true → 6 ≤ r.indMatch3D2D.length) ∧
    (mainLoop cfg (stateMachineLocalizer c) param (initialState feed buffer0 q0)).goodFrameCounter =
      (mainLoop cfg (stateMachineLocalizer c) param
        (initialState feed buffer0 q0)).vec_localizationResults.countP
        (fun r => r.isValid && decide (6 ≤ r.indMatch3D2D.length)) ∧
    (∀ (i : Nat) (pose : Pose) (cam : Intr) (name : String) (a b : Nat),
      (mainLoop cfg (stateMachineLocalizer c) param (initialState feed buffer0 q0)).exporter[i]? =
        some (ExportEvent.addCameraKeyframe pose cam name a b) →
      ∃ r : LocalizationResult Pose Intr, (mainLoop cfg (stateMachineLocalizer c) param
          (initialState feed buffer0 q0)).vec_localizationResults[i]? = some r ∧
        r.isValid = true ∧ r.pose = pose ∧ 6 ≤ r.indMatch3D2D.length) := by
  rw [(mainLoop_exit cfg (stateMachineLocalizer c) param feed buffer0 q0).1]
  have hinv := runLoop_inv cfg (stateMachineLocalizer c) param feed buffer0 q0 feed.length
    (Nat.le_refl _)
  have hall : ∀ r ∈ (runLoop cfg (stateMachineLocalizer c) param feed.length
        (initialState feed buffer0 q0)).vec_localizationResults,
      r.isValid = true → 6 ≤ r.indMatch3D2D.length := by
    intro r hr hv
    obtain ⟨i, hi, hri⟩ := List.getElem_of_mem hr
    rw [hinv.1] at hi
    have hg := runLoop_results_get cfg (stateMachineLocalizer c) param feed buffer0 q0
      feed.length (Nat.le_refl _) i feed[i] hi (List.getElem?_eq_getElem hi)
    rw [List.getElem?_eq_getElem (by rw [hinv.1]; exact hi)] at hg
    have hr2 := Option.some.inj hg
    rw [hri] at hr2
    subst hr2
    exact stateMachine_valid_inliers c _ _ _ _ _ _ hv
  refine ⟨hall, ?_, ?_⟩
  · rw [hinv.2.2.2.1]
    apply List.countP_congr
    intro r hr
    constructor
    · intro hv
      simp only [Bool.and_eq_true, decide_eq_true_eq]
      exact ⟨hv, hall r hr hv⟩
    · intro hv
      simp only [Bool.and_eq_true, decide_eq_true_eq] at hv
      exact hv.1
  · intro i pose cam name a b he
    have hilt : i < (runLoop cfg (stateMachineLocalizer c) param feed.length
        (initialState feed buffer0 q0)).exporter.length := by
      by_contra hcon
      rw [List.getElem?_eq_none (Nat.le_of_not_lt hcon)] at he
      cases he
    have hlen := hinv.2.2.2.2
    cases hA : cfg.OPENMVG_HAVE_ALEMBIC with
    | false =>
      rw [hA] at hlen
      simp at hlen
      rw [hlen] at hilt
      simp at hilt
    | true =>
      rw [hA] at hlen
      simp only [if_true] at hlen
      rw [hlen] at hilt
      have hf : feed[i]? = some feed[i] := List.getElem?_eq_getElem hilt
      have hx := runLoop_exporter_get cfg (stateMachineLocalizer c) param feed buffer0 q0 hA
        feed.length (Nat.le_refl _) i feed[i] hilt hf
      have hg := runLoop_results_get cfg (stateMachineLocalizer c) param feed buffer0 q0
        feed.length (Nat.le_refl _) i feed[i] hilt hf
      rw [hx] at he
      refine ⟨_, hg, ?_⟩
      cases hv : (localizeFrame (stateMachineLocalizer c) param
          (runLoop cfg (stateMachineLocalizer c) param i (initialState feed buffer0 q0))
          feed[i]).2.2.isValid with
      | false =>
        rw [hv] at he
        simp at he
      | true =>
        rw [hv] at he
        simp at he
        refine ⟨rfl, he.1, ?_⟩
        exact stateMachine_valid_inliers c _ _ _ _ _ _ hv

end ValidResults

/-! ## Exact linear feasibility -/

/-- On the empty valuation every coefficient list evaluates to 0. -/
theorem dotList_nil_right (c : List ℚ) : dotList c [] = 0 := by
  cases c <;> rfl

/-- Splitting off the first variable of a valuation. -/
theorem dotList_cons_right (c : List ℚ) (x : ℚ) (v : List ℚ) :
    dotList c (x :: v) = c.headD 0 * x + dotList c.tail v := by
  cases c with
  | nil => simp [dotList]
  | cons a as => simp [dotList]

/-- The scalar product is additive in the coefficients. -/
theorem dotList_addCoeffs (a b v : List ℚ) :
    dotList (addCoeffs a b) v = dotList a v + dotList b v := by
  induction a generalizing b v with
  | nil => simp [addCoeffs, dotList]
  | cons a as ih =>
    cases b with
    | nil => cases v <;> simp [addCoeffs, dotList]
    | cons b bs =>
      cases v with
      | nil => simp [addCoeffs, dotList]
      | cons x xs =>
        simp only [addCoeffs, dotList, ih]
        ring

/-- The scalar product is homogeneous in the coefficients. -/
theorem dotList_map_mul (k : ℚ) (a v : List ℚ) :
    dotList (a.map (fun t => k * t)) v = k * dotList a v := by
  induction a generalizing v with
  | nil => simp [dotList]
  | cons a as ih =>
    cases v with
    | nil => simp [dotList]
    | cons x xs =>
      simp only [List.map, dotList, ih]
      ring

/-- Finitely many lower bounds that lie below finitely many upper bounds leave
room for a number in between. -/
theorem exists_between (L U : List ℚ) (h : ∀ l ∈ L, ∀ u ∈ U, l ≤ u) :
    ∃ x : ℚ, (∀ l ∈ L, l ≤ x) ∧ (∀ u ∈ U, x ≤ u) := by
  induction L with
  | nil =>
    clear h
    induction U with
    | nil => exact ⟨0, by simp, by simp⟩
    | cons u U ih =>
      obtain ⟨x, -, hx⟩ := ih
      refine ⟨min x u, by simp, ?_⟩
      intro t ht
      rcases List.mem_cons.mp ht with rfl | ht
      · exact min_le_right _ _
      · exact le_trans (min_le_left _ _) (hx t ht)
  | cons l L ih =>
    obtain ⟨x, hL, hU⟩ := ih (fun a ha u hu => h a (List.mem_cons_of_mem _ ha) u hu)
    refine ⟨max l x, ?_, ?_⟩
    · intro t ht
      rcases List.mem_cons.mp ht with rfl | ht
      · exact le_max_left _ _
      · exact le_trans (hL t ht) (le_max_right _ _)
    · intro u hu
      exact max_le (h l (List.mem_cons_self _ _) u hu) (hU u hu)


/-- A constraint read on a valuation whose first variable is `x`. -/
theorem holds_cons (c : LinearConstraint) (x : ℚ) (v : List ℚ) :
    c.holds (x :: v) ↔ 0 ≤ c.lead * x + (dotList c.coeffs.tail v + c.const) := by
  unfold LinearConstraint.holds LinearConstraint.lead
  rw [dotList_cons_right, add_assoc]

/-- A constraint without its first variable, read on the other variables. -/
theorem rest_holds (c : LinearConstraint) (v : List ℚ) :
    c.rest.holds v ↔ 0 ≤ dotList c.coeffs.tail v + c.const := Iff.rfl

/-- The combination of a lower and an upper bound, read on the other
variables. -/
theorem cancel_holds (lo up : LinearConstraint) (v : List ℚ) :
    (LinearConstraint.cancel lo up).holds v ↔
      0 ≤ (-up.lead) * (dotList lo.coeffs.tail v + lo.const) +
        lo.lead * (dotList up.coeffs.tail v + up.const) := by
  unfold LinearConstraint.holds LinearConstraint.cancel
  simp only [dotList_addCoeffs, dotList_map_mul]
  constructor <;> intro h <;> linarith

/-- The members of the eliminated system. -/
theorem mem_eliminate (cs : List LinearConstraint) (d : LinearConstraint) :
    d ∈ eliminate cs ↔
      (∃ c ∈ cs, c.lead = 0 ∧ c.rest = d) ∨
      (∃ lo ∈ cs, 0 < lo.lead ∧ ∃ up ∈ cs, up.lead < 0 ∧ LinearConstraint.cancel lo up = d) := by
  unfold eliminate
  simp only [List.mem_append, List.mem_map, List.mem_filter, List.mem_flatMap,
    decide_eq_true_eq]
  constructor
  · rintro (⟨c, ⟨hc, h0⟩, rfl⟩ | ⟨lo, ⟨hlo, hpos⟩, up, ⟨hup, hneg⟩, rfl⟩)
    · exact Or.inl ⟨c, hc, h0, rfl⟩
    · exact Or.inr ⟨lo, hlo, hpos, up, hup, hneg, rfl⟩
  · rintro (⟨c, hc, h0, rfl⟩ | ⟨lo, hlo, hpos, up, hup, hneg, rfl⟩)
    · exact Or.inl ⟨c, ⟨hc, h0⟩, rfl⟩
    · exact Or.inr ⟨lo, ⟨hlo, hpos⟩, up, ⟨hup, hneg⟩, rfl⟩

/-- One elimination step is exact: the other variables satisfy the eliminated
system if and only if some value of the first variable completes them to a
solution of the original system. -/
theorem eliminate_holds (cs : List LinearConstraint) (v : List ℚ) :
    (∀ d ∈ eliminate cs, d.holds v) ↔ ∃ x : ℚ, ∀ c ∈ cs, c.holds (x :: v) := by
  constructor
  · intro h
    -- lower bounds come from positive leading coefficients, upper bounds from negative ones
    obtain ⟨x, hL, hU⟩ := exists_between
      ((cs.filter (fun c => decide (0 < c.lead))).map
        (fun c => -(dotList c.coeffs.tail v + c.const) / c.lead))
      ((cs.filter (fun c => decide (c.lead < 0))).map
        (fun c => (dotList c.coeffs.tail v + c.const) / (-c.lead)))
      (by
        intro l hl u hu
        simp only [List.mem_map, List.mem_filter, decide_eq_true_eq] at hl hu
        obtain ⟨lo, ⟨hlo, hpos⟩, rfl⟩ := hl
        obtain ⟨up, ⟨hup, hneg⟩, rfl⟩ := hu
        have hc := (cancel_holds lo up v).mp
          (h _ ((mem_eliminate cs _).mpr (Or.inr ⟨lo, hlo, hpos, up, hup, hneg, rfl⟩)))
        have hneg2 : 0 < -up.lead := by linarith
        rw [div_le_div_iff₀ hpos hneg2]
        linarith)
    refine ⟨x, fun c hc => ?_⟩
    rw [holds_cons]
    rcases lt_trichotomy c.lead 0 with hneg | hzero | hpos
    · have hx := hU ((dotList c.coeffs.tail v + c.const) / (-c.lead))
        (by
          simp only [List.mem_map, List.mem_filter, decide_eq_true_eq]
          exact ⟨c, ⟨hc, hneg⟩, rfl⟩)
      have hneg2 : 0 < -c.lead := by linarith
      rw [le_div_iff₀ hneg2] at hx
      linarith
    · have h0 := (rest_holds c v).mp
        (h _ ((mem_eliminate cs _).mpr (Or.inl ⟨c, hc, hzero, rfl⟩)))
      rw [hzero]
      linarith
    · have hx := hL (-(dotList c.coeffs.tail v + c.const) / c.lead)
        (by
          simp only [List.mem_map, List.mem_filter, decide_eq_true_eq]
          exact ⟨c, ⟨hc, hpos⟩, rfl⟩)
      rw [div_le_iff₀ hpos] at hx
      linarith
  · rintro ⟨x, hx⟩ d hd
    rcases (mem_eliminate cs d).mp hd with ⟨c, hc, h0, rfl⟩ | ⟨lo, hlo, hpos, up, hup, hneg, rfl⟩
    · have := (holds_cons c x v).mp (hx c hc)
      rw [h0] at this
      rw [rest_holds]
      linarith
    · have h1 := (holds_cons lo x v).mp (hx lo hlo)
      have h2 := (holds_cons up x v).mp (hx up hup)
      rw [cancel_holds]
      have hneg2 : 0 < -up.lead := by linarith
      nlinarith [mul_nonneg hneg2.le h1, mul_nonneg hpos.le h2]

/-- The feasibility test is exact: it answers true if and only if the system
has a solution in `n` variables. -/
theorem feasible_iff (n : Nat) (cs : List LinearConstraint) :
    feasible n cs = true ↔ ∃ v : List ℚ, v.length = n ∧ ∀ c ∈ cs, c.holds v := by
  induction n generalizing cs with
  | zero =>
    simp only [feasible, List.all_eq_true, decide_eq_true_eq]
    constructor
    · intro h
      refine ⟨[], rfl, fun c hc => ?_⟩
      unfold LinearConstraint.holds
      rw [dotList_nil_right]
      simpa using h c hc
    · rintro ⟨v, hv, h⟩ c hc
      have hv0 : v = [] := List.length_eq_zero.mp hv
      subst hv0
      have := h c hc
      unfold LinearConstraint.holds at this
      rw [dotList_nil_right] at this
      simpa using this
  | succ n ih =>
    simp only [feasible]
    rw [ih (eliminate cs)]
    constructor
    · rintro ⟨v, hv, h⟩
      obtain ⟨x, hx⟩ := (eliminate_holds cs v).mp h
      exact ⟨x :: v, by simp [hv], hx⟩
    · rintro ⟨v, hv, h⟩
      cases v with
      | nil => simp at hv
      | cons x v =>
        refine ⟨v, by simpa using hv, (eliminate_holds cs v).mpr ⟨x, h⟩⟩


/-! ## Half-space intersection -/

/-- The slack constraint of a half-plane, read on the valuation
`[x, y, z, s]`. -/
theorem slackConstraint_holds (h : Half_plane) (x y z t : ℚ) :
    h.slackConstraint.holds [x, y, z, t] ↔ t ≤ h.normal.dot ⟨x, y, z⟩ + h.offset := by
  unfold Half_plane.slackConstraint LinearConstraint.holds Vec3.dot
  simp only [dotList]
  constructor <;> intro hh <;> linarith

/-- The constraint `s ≥ 0`, read on the valuation `[x, y, z, s]`. -/
theorem slackNonneg_holds (x y z t : ℚ) : slackNonneg.holds [x, y, z, t] ↔ 0 ≤ t := by
  unfold slackNonneg LinearConstraint.holds
  simp only [dotList]
  constructor <;> intro hh <;> linarith

/-- The feasibility test answers true exactly when some point satisfies all
the half-planes. -/
theorem isNotEmpty_iff_exists (hplanes : List Half_plane) :
    isNotEmpty hplanes = true ↔ ∃ p : Vec3, ∀ h ∈ hplanes, h.contains p := by
  unfold isNotEmpty
  rw [feasible_iff]
  constructor
  · rintro ⟨v, hv, hall⟩
    match v, hv with
    | [x, y, z, t], _ =>
      have ht : 0 ≤ t := (slackNonneg_holds x y z t).mp (hall _ (List.mem_cons_self _ _))
      refine ⟨⟨x, y, z⟩, fun h hh => ?_⟩
      have := (slackConstraint_holds h x y z t).mp
        (hall _ (List.mem_cons_of_mem _ (List.mem_map_of_mem _ hh)))
      exact le_trans ht this
  · rintro ⟨p, hp⟩
    refine ⟨[p.x, p.y, p.z, 0], rfl, fun c hc => ?_⟩
    rcases List.mem_cons.mp hc with rfl | hc
    · exact (slackNonneg_holds _ _ _ _).mpr (le_refl _)
    · obtain ⟨h, hh, rfl⟩ := List.mem_map.mp hc
      exact (slackConstraint_holds h _ _ _ _).mpr (hp h hh)

/-- The answer does not depend on the order of the half-planes, nor on
repetitions: only on which half-planes occur. -/
theorem isNotEmpty_congr (hs1 hs2 : List Half_plane) (h : ∀ x, x ∈ hs1 ↔ x ∈ hs2) :
    isNotEmpty hs1 = isNotEmpty hs2 := by
  rw [Bool.eq_iff_iff, isNotEmpty_iff_exists, isNotEmpty_iff_exists]
  constructor
  · rintro ⟨p, hp⟩
    exact ⟨p, fun x hx => hp x ((h x).mpr hx)⟩
  · rintro ⟨p, hp⟩
    exact ⟨p, fun x hx => hp x ((h x).mp hx)⟩

/-- C5: for every finite list of half-planes, `isNotEmpty` returns true if
and only if some point of space satisfies the inclusive inequality of every
half-plane.  On the list of the test `ExistingSubspace` (`z ≥ 0` and
`z ≥ 2`) it returns true, on that of the test `EmptyIntersection` (`z ≥ 0`
and `z ≤ −2`) it returns false, and two half-spaces that only share their
boundary plane (`z ≥ 0` and `z ≤ 0`) give true. -/
theorem isNotEmpty_contract :
    (∀ hplanes : List Half_plane,
      isNotEmpty hplanes = true ↔ ∃ p : Vec3, ∀ h ∈ hplanes, h.contains p) ∧
    test_ExistingSubspace =
      [⟨⟨0, 0, 1⟩, 0⟩, ⟨⟨0, 0, 1⟩, -2⟩] ∧
    isNotEmpty test_ExistingSubspace = true ∧
    test_EmptyIntersection =
      [⟨⟨0, 0, 1⟩, 0⟩, ⟨⟨0, 0, -1⟩, -2⟩] ∧
    isNotEmpty test_EmptyIntersection = false ∧
    isNotEmpty [⟨⟨0, 0, 1⟩, 0⟩, ⟨⟨0, 0, -1⟩, 0⟩] = true := by
  have e1 : test_ExistingSubspace = [⟨⟨0, 0, 1⟩, 0⟩, ⟨⟨0, 0, 1⟩, -2⟩] := by
    simp [test_ExistingSubspace, Half_plane_p, Vec3.add, Vec3.sub, Vec3.cross, Vec3.dot,
      test_a, test_b, test_c, test_offset]
  have e2 : test_EmptyIntersection = [⟨⟨0, 0, 1⟩, 0⟩, ⟨⟨0, 0, -1⟩, -2⟩] := by
    simp [test_EmptyIntersection, Half_plane_p, Half_plane.flipNormal, Vec3.add, Vec3.sub,
      Vec3.cross, Vec3.dot, Vec3.smul, test_a, test_b, test_c, test_offset]
  refine ⟨isNotEmpty_iff_exists, e1, ?_, e2, ?_, ?_⟩
  · rw [isNotEmpty_iff_exists, e1]
    refine ⟨⟨0, 0, 2⟩, fun h hh => ?_⟩
    simp only [List.mem_cons, List.mem_singleton, List.not_mem_nil, or_false] at hh
    rcases hh with rfl | rfl <;> simp [Half_plane.contains, Vec3.dot]
  · rw [Bool.eq_false_iff, Ne, isNotEmpty_iff_exists, e2]
    rintro ⟨p, hp⟩
    have h1 := hp ⟨⟨0, 0, 1⟩, 0⟩ (by simp)
    have h2 := hp ⟨⟨0, 0, -1⟩, -2⟩ (by simp)
    simp only [Half_plane.contains, Vec3.dot] at h1 h2
    linarith
  · rw [isNotEmpty_iff_exists]
    refine ⟨⟨0, 0, 0⟩, fun h hh => ?_⟩
    simp only [List.mem_cons, List.mem_singleton, List.not_mem_nil, or_false] at hh
    rcases hh with rfl | rfl <;> simp [Half_plane.contains, Vec3.dot]

/-! ## Frustum intersection -/

/-- Intersecting a frustum with itself asks whether the frustum has a point. -/
theorem intersect_self_iff (F : Frustum) :
    F.intersect F = true ↔ ∃ p : Vec3, ∀ h ∈ F.planes, h.contains p := by
  unfold Frustum.intersect
  rw [isNotEmpty_iff_exists]
  constructor
  · rintro ⟨p, hp⟩
    exact ⟨p, fun h hh => hp h (List.mem_append_left _ hh)⟩
  · rintro ⟨p, hp⟩
    exact ⟨p, fun h hh => (List.mem_append.mp hh).elim (hp h) (hp h)⟩

/-- The apex of the viewing pyramid lies on each of its lateral planes. -/
theorem planeThrough_contains_apex (C n : Vec3) : (planeThrough C n).contains C := by
  unfold planeThrough Half_plane.contains
  simp

/-- The two depths have to come in order: a frustum built with a near depth
above its far depth has no point, so the condition `zNear ≤ zFar` on a
truncated frustum cannot be dropped. -/
theorem truncatedBy_empty (w h : Int) (K R : Mat3) (C : Vec3) (zNear zFar : ℚ)
    (hz : zFar < zNear) :
    (Frustum.truncatedBy w h K R C zNear zFar).intersect
      (Frustum.truncatedBy w h K R C zNear zFar) = false := by
  rw [Bool.eq_false_iff, Ne, intersect_self_iff]
  rintro ⟨p, hp⟩
  have h1 := hp ⟨R.r2, -zNear - R.r2.dot C⟩ (by simp [Frustum.truncatedBy])
  have h2 := hp ⟨R.r2.smul (-1), zFar + R.r2.dot C⟩ (by simp [Frustum.truncatedBy])
  simp only [Half_plane.contains, Vec3.dot, Vec3.smul] at h1 h2
  linarith

/-- A lateral plane of a viewing pyramid, read at the point `C + v`. -/
theorem planeThrough_contains_add (C n v : Vec3) :
    (planeThrough C n).contains (C.add v) ↔ 0 ≤ n.dot v := by
  simp only [planeThrough, Half_plane.contains, Vec3.add, Vec3.dot]
  constructor <;> intro h <;> linarith

/-- A row of `K R` applied to `v` is the row of `K` applied to `R v`. -/
theorem rowMul_dot (a : Vec3) (B : Mat3) (v : Vec3) :
    (Mat3.rowMul a B).dot v = a.dot ⟨B.r0.dot v, B.r1.dot v, B.r2.dot v⟩ := by
  simp only [Mat3.rowMul, Vec3.add, Vec3.smul, Vec3.dot]
  ring

/-- The point at the offset `v` from the camera centre lies in the truncated
frustum as soon as `m = K R v` is in the image cone and the depth `R₃ · v` is
between the two bounds. -/
theorem truncatedBy_contains (w h : Int) (K R : Mat3) (C v : Vec3) (zNear zFar : ℚ)
    (h0 : 0 ≤ K.r0.dot ⟨R.r0.dot v, R.r1.dot v, R.r2.dot v⟩)
    (h1 : K.r0.dot ⟨R.r0.dot v, R.r1.dot v, R.r2.dot v⟩ ≤
      (w : ℚ) * K.r2.dot ⟨R.r0.dot v, R.r1.dot v, R.r2.dot v⟩)
    (h2 : 0 ≤ K.r1.dot ⟨R.r0.dot v, R.r1.dot v, R.r2.dot v⟩)
    (h3 : K.r1.dot ⟨R.r0.dot v, R.r1.dot v, R.r2.dot v⟩ ≤
      (h : ℚ) * K.r2.dot ⟨R.r0.dot v, R.r1.dot v, R.r2.dot v⟩)
    (h4 : zNear ≤ R.r2.dot v) (h5 : R.r2.dot v ≤ zFar) :
    (Frustum.truncatedBy w h K R C zNear zFar).intersect
      (Frustum.truncatedBy w h K R C zNear zFar) = true := by
  rw [intersect_self_iff]
  refine ⟨C.add v, fun hp hh => ?_⟩
  simp only [Frustum.truncatedBy, Frustum.infinite, List.cons_append, List.nil_append,
    List.mem_cons, List.mem_singleton, List.not_mem_nil, or_false] at hh
  have e0 := rowMul_dot K.r0 R v
  have e1 := rowMul_dot K.r1 R v
  have e2 := rowMul_dot K.r2 R v
  rcases hh with rfl | rfl | rfl | rfl | rfl | rfl
  · rw [planeThrough_contains_add]
    simp only [Mat3.mul]
    rw [e0]
    exact h0
  · rw [planeThrough_contains_add]
    simp only [Mat3.mul]
    have : (((Mat3.rowMul K.r2 R).smul (w : ℚ)).sub (Mat3.rowMul K.r0 R)).dot v =
        (w : ℚ) * (Mat3.rowMul K.r2 R).dot v - (Mat3.rowMul K.r0 R).dot v := by
      simp only [Vec3.sub, Vec3.smul, Vec3.dot]
      ring
    rw [this, e0, e2]
    linarith
  · rw [planeThrough_contains_add]
    simp only [Mat3.mul]
    rw [e1]
    exact h2
  · rw [planeThrough_contains_add]
    simp only [Mat3.mul]
    have : (((Mat3.rowMul K.r2 R).smul (h : ℚ)).sub (Mat3.rowMul K.r1 R)).dot v =
        (h : ℚ) * (Mat3.rowMul K.r2 R).dot v - (Mat3.rowMul K.r1 R).dot v := by
      simp only [Vec3.sub, Vec3.smul, Vec3.dot]
      ring
    rw [this, e1, e2]
    linarith
  · simp only [Half_plane.contains, Vec3.dot, Vec3.add] at h4 ⊢
    linarith
  · simp only [Half_plane.contains, Vec3.dot, Vec3.add, Vec3.smul] at h5 ⊢
    linarith


/-- For a matrix `R` with orthonormal rows, `R (Rᵀ q) = q`. -/
theorem orthonormal_rowMul (R : Mat3) (q : Vec3)
    (h00 : R.r0.dot R.r0 = 1) (h11 : R.r1.dot R.r1 = 1) (h22 : R.r2.dot R.r2 = 1)
    (h01 : R.r0.dot R.r1 = 0) (h02 : R.r0.dot R.r2 = 0) (h12 : R.r1.dot R.r2 = 0) :
    R.r0.dot (Mat3.rowMul q R) = q.x ∧ R.r1.dot (Mat3.rowMul q R) = q.y ∧
      R.r2.dot (Mat3.rowMul q R) = q.z := by
  simp only [Mat3.rowMul, Vec3.add, Vec3.smul, Vec3.dot] at *
  refine ⟨?_, ?_, ?_⟩
  · linear_combination q.x * h00 + q.y * h01 + q.z * h02
  · linear_combination q.x * h01 + q.y * h11 + q.z * h12
  · linear_combination q.x * h02 + q.y * h12 + q.z * h22

/-- The determinant of a matrix whose last row is `(0, 0, 1)`. -/
theorem determinant_calibration (K : Mat3) (hK : K.r2 = ⟨0, 0, 1⟩) :
    K.determinant = K.r0.x * K.r1.y - K.r0.y * K.r1.x := by
  simp only [Mat3.determinant, Vec3.dot, Vec3.cross, hK]
  ring

/-- The point whose coordinates in the camera frame are `q` lies in the
truncated frustum as soon as `K q` is in the image cone and the depth `q.z`
is between the two bounds. -/
theorem truncatedBy_contains_camera (w h : Int) (K R : Mat3) (C q : Vec3) (zNear zFar : ℚ)
    (h00 : R.r0.dot R.r0 = 1) (h11 : R.r1.dot R.r1 = 1) (h22 : R.r2.dot R.r2 = 1)
    (h01 : R.r0.dot R.r1 = 0) (h02 : R.r0.dot R.r2 = 0) (h12 : R.r1.dot R.r2 = 0)
    (h0 : 0 ≤ K.r0.dot q) (h1 : K.r0.dot q ≤ (w : ℚ) * K.r2.dot q)
    (h2 : 0 ≤ K.r1.dot q) (h3 : K.r1.dot q ≤ (h : ℚ) * K.r2.dot q)
    (h4 : zNear ≤ q.z) (h5 : q.z ≤ zFar) :
    (Frustum.truncatedBy w h K R C zNear zFar).intersect
      (Frustum.truncatedBy w h K R C zNear zFar) = true := by
  obtain ⟨e0, e1, e2⟩ := orthonormal_rowMul R q h00 h11 h22 h01 h02 h12
  apply truncatedBy_contains w h K R C (Mat3.rowMul q R) zNear zFar <;>
    simp only [e0, e1, e2]
  · exact h0
  · exact h1
  · exact h2
  · exact h3
  · exact h4
  · exact h5

/-- A truncated frustum of a calibrated camera has a point. -/
theorem truncatedBy_self_calibrated (w h : Int) (K R : Mat3) (C : Vec3) (zNear zFar : ℚ)
    (hK : K.r2 = ⟨0, 0, 1⟩) (hdet : K.determinant ≠ 0)
    (h00 : R.r0.dot R.r0 = 1) (h11 : R.r1.dot R.r1 = 1) (h22 : R.r2.dot R.r2 = 1)
    (h01 : R.r0.dot R.r1 = 0) (h02 : R.r0.dot R.r2 = 0) (h12 : R.r1.dot R.r2 = 0)
    (hw : 0 ≤ w) (hh : 0 ≤ h) (hz : zNear ≤ zFar) (hf : 0 ≤ zFar) :
    (Frustum.truncatedBy w h K R C zNear zFar).intersect
      (Frustum.truncatedBy w h K R C zNear zFar) = true := by
  rw [determinant_calibration K hK] at hdet
  have hw2 : (0 : ℚ) ≤ (w : ℚ) := by exact_mod_cast hw
  have hh2 : (0 : ℚ) ≤ (h : ℚ) := by exact_mod_cast hh
  have k0 : K.r0.dot
      ⟨(K.r0.y * K.r1.z - K.r0.z * K.r1.y) * zFar / (K.r0.x * K.r1.y - K.r0.y * K.r1.x),
       (K.r0.z * K.r1.x - K.r0.x * K.r1.z) * zFar / (K.r0.x * K.r1.y - K.r0.y * K.r1.x),
       zFar⟩ = 0 := by
    simp only [Vec3.dot]
    field_simp
    ring
  have k1 : K.r1.dot
      ⟨(K.r0.y * K.r1.z - K.r0.z * K.r1.y) * zFar / (K.r0.x * K.r1.y - K.r0.y * K.r1.x),
       (K.r0.z * K.r1.x - K.r0.x * K.r1.z) * zFar / (K.r0.x * K.r1.y - K.r0.y * K.r1.x),
       zFar⟩ = 0 := by
    simp only [Vec3.dot]
    field_simp
    ring
  have k2 : K.r2.dot
      ⟨(K.r0.y * K.r1.z - K.r0.z * K.r1.y) * zFar / (K.r0.x * K.r1.y - K.r0.y * K.r1.x),
       (K.r0.z * K.r1.x - K.r0.x * K.r1.z) * zFar / (K.r0.x * K.r1.y - K.r0.y * K.r1.x),
       zFar⟩ = zFar := by
    simp [Vec3.dot, hK]
  refine truncatedBy_contains_camera w h K R C
    ⟨(K.r0.y * K.r1.z - K.r0.z * K.r1.y) * zFar / (K.r0.x * K.r1.y - K.r0.y * K.r1.x),
     (K.r0.z * K.r1.x - K.r0.x * K.r1.z) * zFar / (K.r0.x * K.r1.y - K.r0.y * K.r1.x),
     zFar⟩ zNear zFar h00 h11 h22 h01 h02 h12 ?_ ?_ ?_ ?_ hz (le_refl _)
  · rw [k0]
  · rw [k0, k2]
    exact mul_nonneg hw2 hf
  · rw [k1]
  · rw [k1, k2]
    exact mul_nonneg hh2 hf

/-- A truncated frustum of a camera whose principal point is in the image has
a point, on the viewing axis. -/
theorem truncatedBy_self_principal (w h : Int) (K R : Mat3) (C : Vec3) (zNear zFar : ℚ)
    (hK : K.r2 = ⟨0, 0, 1⟩)
    (hx0 : 0 ≤ K.r0.z) (hx1 : K.r0.z ≤ w) (hy0 : 0 ≤ K.r1.z) (hy1 : K.r1.z ≤ h)
    (h22 : R.r2.dot R.r2 = 1) (h02 : R.r0.dot R.r2 = 0) (h12 : R.r1.dot R.r2 = 0)
    (hz : zNear ≤ zFar) (hf : 0 ≤ zFar) :
    (Frustum.truncatedBy w h K R C zNear zFar).intersect
      (Frustum.truncatedBy w h K R C zNear zFar) = true := by
  have e0 : R.r0.dot (R.r2.smul zFar) = 0 := by
    simp only [Vec3.dot, Vec3.smul] at h02 ⊢
    linear_combination zFar * h02
  have e1 : R.r1.dot (R.r2.smul zFar) = 0 := by
    simp only [Vec3.dot, Vec3.smul] at h12 ⊢
    linear_combination zFar * h12
  have e2 : R.r2.dot (R.r2.smul zFar) = zFar := by
    simp only [Vec3.dot, Vec3.smul] at h22 ⊢
    linear_combination zFar * h22
  apply truncatedBy_contains w h K R C (R.r2.smul zFar) zNear zFar <;>
    simp only [e0, e1, e2] <;>
    try simp only [hK, Vec3.dot, mul_zero, zero_mul, zero_add, one_mul, add_zero]
  · exact mul_nonneg hx0 hf
  · exact mul_le_mul_of_nonneg_right hx1 hf
  · exact mul_nonneg hy0 hf
  · exact mul_le_mul_of_nonneg_right hy1 hf
  · exact hz
  · exact le_refl _

/-- Two cameras back to back on the viewing axis see nothing in common. -/
theorem back_to_back_disjoint (zNear zFar : ℚ) :
    (Frustum.infinite 1000 1000 test_K Mat3.identity ⟨0, 0, 1⟩).intersect
      (Frustum.infinite 1000 1000 test_K flipMatrix ⟨0, 0, -1⟩) = false ∧
    (Frustum.truncatedBy 1000 1000 test_K Mat3.identity ⟨0, 0, 1⟩ zNear zFar).intersect
      (Frustum.truncatedBy 1000 1000 test_K flipMatrix ⟨0, 0, -1⟩ zNear zFar) = false := by
  constructor
  · rw [Bool.eq_false_iff, Ne, Frustum.intersect, isNotEmpty_iff_exists]
    rintro ⟨p, hp⟩
    have a0 := hp (planeThrough ⟨0, 0, 1⟩ (test_K.mul Mat3.identity).r0)
      (by simp [Frustum.infinite])
    have a1 := hp (planeThrough ⟨0, 0, 1⟩
      (((test_K.mul Mat3.identity).r2.smul ((1000 : Int) : ℚ)).sub (test_K.mul Mat3.identity).r0))
      (by simp [Frustum.infinite])
    have b0 := hp (planeThrough ⟨0, 0, -1⟩ (test_K.mul flipMatrix).r0)
      (by simp [Frustum.infinite])
    have b1 := hp (planeThrough ⟨0, 0, -1⟩
      (((test_K.mul flipMatrix).r2.smul ((1000 : Int) : ℚ)).sub (test_K.mul flipMatrix).r0))
      (by simp [Frustum.infinite])
    simp only [Half_plane.contains, planeThrough, Vec3.dot, Vec3.sub, Vec3.smul, Vec3.add,
      Mat3.mul, Mat3.rowMul, Mat3.identity, test_K, flipMatrix] at a0 a1 b0 b1
    norm_num at a0 a1 b0 b1
    linarith
  · rw [Bool.eq_false_iff, Ne, Frustum.intersect, isNotEmpty_iff_exists]
    rintro ⟨p, hp⟩
    have a0 := hp (planeThrough ⟨0, 0, 1⟩ (test_K.mul Mat3.identity).r0)
      (by simp [Frustum.truncatedBy, Frustum.infinite])
    have a1 := hp (planeThrough ⟨0, 0, 1⟩
      (((test_K.mul Mat3.identity).r2.smul ((1000 : Int) : ℚ)).sub (test_K.mul Mat3.identity).r0))
      (by simp [Frustum.truncatedBy, Frustum.infinite])
    have b0 := hp (planeThrough ⟨0, 0, -1⟩ (test_K.mul flipMatrix).r0)
      (by simp [Frustum.truncatedBy, Frustum.infinite])
    have b1 := hp (planeThrough ⟨0, 0, -1⟩
      (((test_K.mul flipMatrix).r2.smul ((1000 : Int) : ℚ)).sub (test_K.mul flipMatrix).r0))
      (by simp [Frustum.truncatedBy, Frustum.infinite])
    simp only [Half_plane.contains, planeThrough, Vec3.dot, Vec3.sub, Vec3.smul, Vec3.add,
      Mat3.mul, Mat3.rowMul, Mat3.identity, test_K, flipMatrix] at a0 a1 b0 b1
    norm_num at a0 a1 b0 b1
    linarith

/-- C6: frustum intersection is reflexive.  An infinite frustum intersects
itself whatever the image size, the matrices and the centre it is built from
(its apex lies on its four planes).  A frustum truncated by a minimum and a
maximum depth intersects itself when it is built from a camera: intrinsics
`K` with last row `(0, 0, 1)` and a non-zero determinant (non-zero focal
lengths), a matrix `R` with orthonormal rows (a rotation), an image size
that is not negative, and depths with `zNear ≤ zFar` and `0 ≤ zFar`; the
point at depth `zFar` that projects to the pixel `(0, 0)` is in it.  The
same holds without the condition on the determinant when the principal point
is in the image, the third row of `R` being a unit vector orthogonal to the
two others: the point at depth `zFar` on the viewing axis is in it.  No
other frustum is looked at: of two cameras back to back on the viewing axis
(focal 1000, principal point (500, 500), image 1000 × 1000, the second
turned by `flipMatrix`), infinite or truncated by the depths 1 and 5, each
intersects itself although it does not intersect the other. -/
theorem frustum_self_intersect :
    (∀ (w h : Int) (K R : Mat3) (C : Vec3),
      (Frustum.infinite w h K R C).isInfinite = true ∧
      (Frustum.infinite w h K R C).intersect (Frustum.infinite w h K R C) = true) ∧
    (∀ (w h : Int) (K R : Mat3) (C : Vec3) (zNear zFar : ℚ),
      K.r2 = ⟨0, 0, 1⟩ → K.determinant ≠ 0 →
      R.r0.dot R.r0 = 1 → R.r1.dot R.r1 = 1 → R.r2.dot R.r2 = 1 →
      R.r0.dot R.r1 = 0 → R.r0.dot R.r2 = 0 → R.r1.dot R.r2 = 0 →
      0 ≤ w → 0 ≤ h → zNear ≤ zFar → 0 ≤ zFar →
      (Frustum.truncatedBy w h K R C zNear zFar).isTruncated = true ∧
      (Frustum.truncatedBy w h K R C zNear zFar).intersect
        (Frustum.truncatedBy w h K R C zNear zFar) = true) ∧
    (∀ (w h : Int) (K R : Mat3) (C : Vec3) (zNear zFar : ℚ),
      K.r2 = ⟨0, 0, 1⟩ → 0 ≤ K.r0.z → K.r0.z ≤ w → 0 ≤ K.r1.z → K.r1.z ≤ h →
      R.r2.dot R.r2 = 1 → R.r0.dot R.r2 = 0 → R.r1.dot R.r2 = 0 →
      zNear ≤ zFar → 0 ≤ zFar →
      (Frustum.truncatedBy w h K R C zNear zFar).isTruncated = true ∧
      (Frustum.truncatedBy w h K R C zNear zFar).intersect
        (Frustum.truncatedBy w h K R C zNear zFar) = true) ∧
    ((Frustum.infinite 1000 1000 test_K Mat3.identity ⟨0, 0, 1⟩).intersect
        (Frustum.infinite 1000 1000 test_K flipMatrix ⟨0, 0, -1⟩) = false ∧
      (Frustum.infinite 1000 1000 test_K Mat3.identity ⟨0, 0, 1⟩).intersect
        (Frustum.infinite 1000 1000 test_K Mat3.identity ⟨0, 0, 1⟩) = true ∧
      (Frustum.infinite 1000 1000 test_K flipMatrix ⟨0, 0, -1⟩).intersect
        (Frustum.infinite 1000 1000 test_K flipMatrix ⟨0, 0, -1⟩) = true) ∧
    ((Frustum.truncatedBy 1000 1000 test_K Mat3.identity ⟨0, 0, 1⟩ 1 5).intersect
        (Frustum.truncatedBy 1000 1000 test_K flipMatrix ⟨0, 0, -1⟩ 1 5) = false ∧
      (Frustum.truncatedBy 1000 1000 test_K Mat3.identity ⟨0, 0, 1⟩ 1 5).intersect
        (Frustum.truncatedBy 1000 1000 test_K Mat3.identity ⟨0, 0, 1⟩ 1 5) = true ∧
      (Frustum.truncatedBy 1000 1000 test_K flipMatrix ⟨0, 0, -1⟩ 1 5).intersect
        (Frustum.truncatedBy 1000 1000 test_K flipMatrix ⟨0, 0, -1⟩ 1 5) = true) := by
  have hinf : ∀ (w h : Int) (K R : Mat3) (C : Vec3),
      (Frustum.infinite w h K R C).intersect (Frustum.infinite w h K R C) = true := by
    intro w h K R C
    rw [intersect_self_iff]
    refine ⟨C, fun hp hh => ?_⟩
    simp only [Frustum.infinite, List.mem_cons, List.mem_singleton, List.not_mem_nil,
      or_false] at hh
    rcases hh with rfl | rfl | rfl | rfl <;> exact planeThrough_contains_apex _ _
  have hK : test_K.r2 = ⟨0, 0, 1⟩ := rfl
  have hdet : test_K.determinant ≠ 0 := by
    rw [determinant_calibration test_K hK]
    norm_num [test_K]
  refine ⟨fun w h K R C => ⟨rfl, hinf w h K R C⟩, ?_, ?_, ?_, ?_⟩
  · intro w h K R C zNear zFar hK hdet h00 h11 h22 h01 h02 h12 hw hh hz hf
    exact ⟨rfl, truncatedBy_self_calibrated w h K R C zNear zFar hK hdet h00 h11 h22 h01 h02
      h12 hw hh hz hf⟩
  · intro w h K R C zNear zFar hK hx0 hx1 hy0 hy1 h22 h02 h12 hz hf
    exact ⟨rfl, truncatedBy_self_principal w h K R C zNear zFar hK hx0 hx1 hy0 hy1 h22 h02
      h12 hz hf⟩
  · exact ⟨(back_to_back_disjoint 1 5).1, hinf _ _ _ _ _, hinf _ _ _ _ _⟩
  · refine ⟨(back_to_back_disjoint 1 5).2, ?_, ?_⟩
    · apply truncatedBy_self_calibrated _ _ _ _ _ _ _ hK hdet <;>
        norm_num [Mat3.identity, Vec3.dot]
    · apply truncatedBy_self_calibrated _ _ _ _ _ _ _ hK hdet <;>
        norm_num [flipMatrix, Vec3.dot]

/-- Witness for C6: the camera of the tests (focal 1000, principal point
(500, 500), image 1000 × 1000) turned by `flipMatrix`, centre (1, 2, 3),
truncated by the depths 2 and 3; and the same camera, not turned, at the
origin, truncated by the depths 1 and 5, its principal point being in the
image. -/
theorem frustum_self_intersect_witness :
    (test_K.r2 = ⟨0, 0, 1⟩ ∧ test_K.determinant ≠ 0 ∧
      flipMatrix.r0.dot flipMatrix.r0 = 1 ∧ flipMatrix.r1.dot flipMatrix.r1 = 1 ∧
      flipMatrix.r2.dot flipMatrix.r2 = 1 ∧ flipMatrix.r0.dot flipMatrix.r1 = 0 ∧
      flipMatrix.r0.dot flipMatrix.r2 = 0 ∧ flipMatrix.r1.dot flipMatrix.r2 = 0 ∧
      (0 : Int) ≤ 1000 ∧ (2 : ℚ) ≤ 3 ∧ (0 : ℚ) ≤ 3) ∧
    (Frustum.truncatedBy 1000 1000 test_K flipMatrix ⟨1, 2, 3⟩ 2 3).intersect
      (Frustum.truncatedBy 1000 1000 test_K flipMatrix ⟨1, 2, 3⟩ 2 3) = true ∧
    (0 ≤ test_K.r0.z ∧ test_K.r0.z ≤ ((1000 : Int) : ℚ) ∧
      0 ≤ test_K.r1.z ∧ test_K.r1.z ≤ ((1000 : Int) : ℚ) ∧
      Mat3.identity.r2.dot Mat3.identity.r2 = 1 ∧ Mat3.identity.r0.dot Mat3.identity.r2 = 0 ∧
      Mat3.identity.r1.dot Mat3.identity.r2 = 0 ∧ (1 : ℚ) ≤ 5 ∧ (0 : ℚ) ≤ 5) ∧
    (Frustum.truncatedBy 1000 1000 test_K Mat3.identity ⟨0, 0, 0⟩ 1 5).intersect
      (Frustum.truncatedBy 1000 1000 test_K Mat3.identity ⟨0, 0, 0⟩ 1 5) = true :=
  have hdet : test_K.determinant ≠ 0 := by
    rw [determinant_calibration test_K rfl]
    norm_num [test_K]
  have h00 : flipMatrix.r0.dot flipMatrix.r0 = 1 := by norm_num [flipMatrix, Vec3.dot]
  have h11 : flipMatrix.r1.dot flipMatrix.r1 = 1 := by norm_num [flipMatrix, Vec3.dot]
  have h22 : flipMatrix.r2.dot flipMatrix.r2 = 1 := by norm_num [flipMatrix, Vec3.dot]
  have h01 : flipMatrix.r0.dot flipMatrix.r1 = 0 := by norm_num [flipMatrix, Vec3.dot]
  have h02 : flipMatrix.r0.dot flipMatrix.r2 = 0 := by norm_num [flipMatrix, Vec3.dot]
  have h12 : flipMatrix.r1.dot flipMatrix.r2 = 0 := by norm_num [flipMatrix, Vec3.dot]
  have hx0 : 0 ≤ test_K.r0.z := by norm_num [test_K]
  have hx1 : test_K.r0.z ≤ ((1000 : Int) : ℚ) := by norm_num [test_K]
  have hy0 : 0 ≤ test_K.r1.z := by norm_num [test_K]
  have hy1 : test_K.r1.z ≤ ((1000 : Int) : ℚ) := by norm_num [test_K]
  have i22 : Mat3.identity.r2.dot Mat3.identity.r2 = 1 := by norm_num [Mat3.identity, Vec3.dot]
  have i02 : Mat3.identity.r0.dot Mat3.identity.r2 = 0 := by norm_num [Mat3.identity, Vec3.dot]
  have i12 : Mat3.identity.r1.dot Mat3.identity.r2 = 0 := by norm_num [Mat3.identity, Vec3.dot]
  ⟨⟨rfl, hdet, h00, h11, h22, h01, h02, h12, by decide, by norm_num, by norm_num⟩,
   (frustum_self_intersect.2.1 1000 1000 test_K flipMatrix ⟨1, 2, 3⟩ 2 3 rfl hdet
      h00 h11 h22 h01 h02 h12 (by decide) (by decide) (by norm_num) (by norm_num)).2,
   ⟨hx0, hx1, hy0, hy1, i22, i02, i12, by norm_num, by norm_num⟩,
   (frustum_self_intersect.2.2.1 1000 1000 test_K Mat3.identity ⟨0, 0, 0⟩ 1 5 rfl hx0 hx1
      hy0 hy1 i22 i02 i12 (by norm_num) (by norm_num)).2⟩

/-- C7: frustum intersection is symmetric: for every pair of frusta `A` and
`B`, `A.intersect(B)` equals `B.intersect(A)`. -/
theorem frustum_intersect_symmetric (A B : Frustum) :
    A.intersect B = B.intersect A := by
  unfold Frustum.intersect
  apply isNotEmpty_congr
  intro x
  rw [List.mem_append, List.mem_append, or_comm]

/-! ## Frame and range of the threshold check -/

/-- The comparison `value == 0` holds for the value zero only. -/
theorem Double64_eq_zero_iff (value : Double64) :
    Double64.eq value Double64.zero = true ↔ value = Double64.zero := by
  cases value <;> simp [Double64.eq, Double64.zero]

/-- The threshold after the call, in closed form. -/
theorem checkRobustEstimator_snd (e : EROBUST_ESTIMATOR) (value : Double64) :
    (checkRobustEstimator e value).2 =
      (if e = ROBUST_ESTIMATOR_ACRANSAC ∧ value = Double64.zero then Double64.posInf
       else value) := by
  unfold checkRobustEstimator
  cases e <;> simp [Double64_eq_zero_iff]
  split <;> rfl

/-- The check with LORANSAC, in closed form. -/
theorem checkRobustEstimator_loransac_eq (value : Double64) :
    checkRobustEstimator ROBUST_ESTIMATOR_LORANSAC value =
      (!Double64.le value minThreshold, value) := by
  unfold checkRobustEstimator
  cases h : Double64.le value minThreshold <;> simp [h]

/-- The check with ACRANSAC, in closed form. -/
theorem checkRobustEstimator_acransac_eq (value : Double64) :
    checkRobustEstimator ROBUST_ESTIMATOR_ACRANSAC value =
      (true, if value = Double64.zero then Double64.posInf else value) := by
  unfold checkRobustEstimator
  simp [Double64_eq_zero_iff]

/-- C19: the check modifies the threshold only when the estimator is
ACRANSAC and the value is exactly 0 (it then leaves +infinity); in every
other case, and in particular whenever it returns false, the value after
the call equals the value before the call. -/
theorem checkRobustEstimator_frame (e : EROBUST_ESTIMATOR) (value : Double64) :
    (checkRobustEstimator e value).2 =
      (if e = ROBUST_ESTIMATOR_ACRANSAC ∧ value = Double64.zero then Double64.posInf
       else value) ∧
    (¬ (e = ROBUST_ESTIMATOR_ACRANSAC ∧ Double64.eq value Double64.zero = true) →
      (checkRobustEstimator e value).2 = value) ∧
    ((checkRobustEstimator e value).1 = false → (checkRobustEstimator e value).2 = value) := by
  refine ⟨checkRobustEstimator_snd e value, ?_, ?_⟩
  · intro h
    rw [Double64_eq_zero_iff] at h
    rw [checkRobustEstimator_snd, if_neg h]
  · intro h
    rw [checkRobustEstimator_snd]
    by_cases hc : e = ROBUST_ESTIMATOR_ACRANSAC ∧ value = Double64.zero
    · obtain ⟨he, hv⟩ := hc
      subst he hv
      exact absurd h (by decide)
    · rw [if_neg hc]

/-- Witness for C19: (LORANSAC, 0) is rejected and the 0 stays;
(ACRANSAC, 4) is accepted and the 4 stays. -/
theorem checkRobustEstimator_frame_witness :
    (checkRobustEstimator ROBUST_ESTIMATOR_LORANSAC Double64.zero).1 = false ∧
    (checkRobustEstimator ROBUST_ESTIMATOR_LORANSAC Double64.zero).2 = Double64.zero ∧
    (checkRobustEstimator ROBUST_ESTIMATOR_ACRANSAC (Double64.finite 4)).2 = Double64.finite 4 :=
  have h0 : (checkRobustEstimator ROBUST_ESTIMATOR_LORANSAC Double64.zero).1 = false := by
    rw [checkRobustEstimator_loransac_eq]
    simp only [Double64.le, Double64.zero, minThreshold]
    norm_num
  ⟨h0,
   (checkRobustEstimator_frame ROBUST_ESTIMATOR_LORANSAC Double64.zero).2.2 h0,
   (checkRobustEstimator_frame ROBUST_ESTIMATOR_ACRANSAC (Double64.finite 4)).2.1
     (by simp [Double64.eq, Double64.zero])⟩

/-- C20, as stated, fails: with ACRANSAC the threshold -5 is accepted and
is still -5, which is not strictly positive, after the call. -/
theorem checkRobustEstimator_accepts_negative :
    checkRobustEstimator ROBUST_ESTIMATOR_ACRANSAC (Double64.finite (-5)) =
      (true, Double64.finite (-5)) ∧
    Double64.gt (Double64.finite (-5)) Double64.zero = false := by
  constructor
  · simp [checkRobustEstimator, Double64.eq, Double64.zero]
  · simp [Double64.gt, Double64.zero]

/-- C20, amended: when the check returns true with LORANSAC on a threshold
that is a number, the threshold after the call is strictly positive, it is
even greater than `1e-6`.  With ACRANSAC the check returns true for every
threshold, and the threshold after the call is never 0: it is strictly
positive exactly when the value passed was positive or 0, and a negative
value stays as it is: the threshold after the call is +infinity when 0 was
passed and the value passed otherwise. -/
theorem checkRobustEstimator_positive :
    (∀ value : Double64, value.isNumber = true →
      (checkRobustEstimator ROBUST_ESTIMATOR_LORANSAC value).1 = true →
      Double64.gt (checkRobustEstimator ROBUST_ESTIMATOR_LORANSAC value).2 minThreshold = true ∧
      Double64.gt (checkRobustEstimator ROBUST_ESTIMATOR_LORANSAC value).2 Double64.zero
        = true) ∧
    (∀ value : Double64,
      (checkRobustEstimator ROBUST_ESTIMATOR_ACRANSAC value).1 = true ∧
      Double64.eq (checkRobustEstimator ROBUST_ESTIMATOR_ACRANSAC value).2 Double64.zero
        = false ∧
      Double64.gt (checkRobustEstimator ROBUST_ESTIMATOR_ACRANSAC value).2 Double64.zero =
        (Double64.gt value Double64.zero || Double64.eq value Double64.zero) ∧
      (checkRobustEstimator ROBUST_ESTIMATOR_ACRANSAC value).2 =
        (if value = Double64.zero then Double64.posInf else value)) := by
  constructor
  · intro value hn hv
    rw [checkRobustEstimator_loransac_eq] at hv ⊢
    simp only [Bool.not_eq_true'] at hv
    cases value with
    | nan => simp [Double64.isNumber] at hn
    | negInf => simp [Double64.le, minThreshold] at hv
    | posInf => simp [Double64.gt, Double64.zero, minThreshold]
    | finite q =>
      simp only [Double64.le, minThreshold, decide_eq_false_iff_not, not_le] at hv
      have h0 : (0 : ℚ) < 4722366482869645 / 2 ^ 72 := by positivity
      simp only [Double64.gt, Double64.zero, minThreshold, decide_eq_true_eq]
      exact ⟨hv, lt_trans h0 hv⟩
  · intro value
    rw [checkRobustEstimator_acransac_eq]
    refine ⟨rfl, ?_, ?_, rfl⟩
    · cases value with
      | nan => simp [Double64.eq, Double64.zero]
      | negInf => simp [Double64.eq, Double64.zero]
      | posInf => simp [Double64.eq, Double64.zero]
      | finite q =>
        by_cases hq : q = 0
        · subst hq
          simp [Double64.eq, Double64.zero]
        · simp [Double64.eq, Double64.zero, hq]
    · cases value with
      | nan => simp [Double64.eq, Double64.gt, Double64.zero]
      | negInf => simp [Double64.eq, Double64.gt, Double64.zero]
      | posInf => simp [Double64.eq, Double64.gt, Double64.zero]
      | finite q =>
        by_cases hq : q = 0
        · subst hq
          simp [Double64.eq, Double64.gt, Double64.zero]
        · simp [Double64.eq, Double64.gt, Double64.zero, hq]

/-- Witness for the amended C20: (LORANSAC, 4) is accepted and 4 is positive. -/
theorem checkRobustEstimator_positive_witness :
    (Double64.finite 4).isNumber = true ∧
    (checkRobustEstimator ROBUST_ESTIMATOR_LORANSAC (Double64.finite 4)).1 = true ∧
    Double64.gt (checkRobustEstimator ROBUST_ESTIMATOR_LORANSAC (Double64.finite 4)).2
      Double64.zero = true :=
  have h1 : (checkRobustEstimator ROBUST_ESTIMATOR_LORANSAC (Double64.finite 4)).1 = true := by
    rw [checkRobustEstimator_loransac_eq]
    simp only [Double64.le, minThreshold]
    norm_num
  ⟨rfl, h1, (checkRobustEstimator_positive.1 (Double64.finite 4) rfl h1).2⟩

/-! ## After the loop: bundle adjustment and binary output -/

section AfterLoopFacts

variable {σ Img Intr Pose : Type}

/-- The check does not look at `globalBundle`: with the switch set one way or
the other, `configure` differs in the field `globalBundle` alone. -/
theorem configure_globalBundle (cfg : BuildConfig) (o : Options) (b : Bool) :
    configure cfg { o with globalBundle := b } =
      (configure cfg o).map (fun c => { c with globalBundle := b && !o.refineIntrinsics }) := by
  unfold configure
  simp only
  cases (checkRobustEstimator o.matchingEstimator o.matchingErrorMax).1 <;>
    cases (checkRobustEstimator o.resectionEstimator o.resectionErrorMax).1 <;> simp

/-- The value of `globalBundle` after line 318. -/
theorem configure_globalBundle_eq (cfg : BuildConfig) (o : Options) (c : Configured)
    (h : configure cfg o = some c) :
    c.globalBundle = (o.globalBundle && !o.refineIntrinsics) := by
  unfold configure at h
  simp only at h
  cases h1 : (checkRobustEstimator o.matchingEstimator o.matchingErrorMax).1 <;>
    cases h2 : (checkRobustEstimator o.resectionEstimator o.resectionErrorMax).1 <;>
    simp [h1, h2] at h
  subst h
  rfl

/-- The call of `refineSequence` occurs in the output calls made after the
loop exactly when `globalBundle` holds there. -/
theorem afterLoop_refine (cfg : BuildConfig) (env : Environment Pose Intr) (o : Options)
    (globalBundle : Bool) (s : LoopState σ Img Intr Pose) :
    (afterLoop cfg env o globalBundle s).any OutputAction.isRefineSequence = globalBundle := by
  unfold afterLoop
  cases globalBundle <;> cases h1 : (refineCall env o s.vec_localizationResults).1 <;>
    cases h2 : cfg.OPENMVG_HAVE_ALEMBIC <;> cases h3 : wantsBinaryOutput o <;>
    simp [OutputAction.isRefineSequence, refineAction, h1, h2, h3]

/-- A run that got past start-up. -/
theorem mainRun_started (cfg : BuildConfig) (env : Environment Pose Intr)
    (loc : ILocalizer σ Img Intr Pose) (o : Options) (feed : List (Frame Img Intr))
    (l0 : σ) (q0 : Intr) (c : Configured) (hc : configure cfg o = some c) :
    mainRun cfg env loc true true o feed l0 q0 =
      ⟨0, (mainLoop cfg loc c.param (initialState feed l0 q0)).exporter,
        afterLoop cfg env o c.globalBundle
          (mainLoop cfg loc c.param (initialState feed l0 q0))⟩ := by
  unfold mainRun
  rw [hc]
  rfl

/-- A run that left at start-up produced nothing. -/
theorem mainRun_failed (cfg : BuildConfig) (env : Environment Pose Intr)
    (loc : ILocalizer σ Img Intr Pose) (localizerIsInit feedIsInit : Bool) (o : Options)
    (feed : List (Frame Img Intr)) (l0 : σ) (q0 : Intr)
    (h : configure cfg o = none ∨ localizerIsInit = false ∨ feedIsInit = false) :
    mainRun cfg env loc localizerIsInit feedIsInit o feed l0 q0 = ⟨1, [], []⟩ := by
  unfold mainRun
  cases hc : configure cfg o with
  | none => rfl
  | some c =>
    rcases h with h | h | h
    · rw [hc] at h
      cases h
    · subst h
      rfl
    · subst h
      cases localizerIsInit <;> rfl

/-- The output calls after the loop when no bundle adjustment is asked for:
the save of the recorded results, under `wantsBinaryOutput`. -/
theorem afterLoop_no_bundle (cfg : BuildConfig) (env : Environment Pose Intr) (o : Options)
    (s : LoopState σ Img Intr Pose) :
    afterLoop cfg env o false s =
      (if wantsBinaryOutput o then
        [OutputAction.save s.vec_localizationResults (basenameBinary env o ++ ".bin")]
       else []) := by
  unfold afterLoop
  simp

/-- Lines 531-538: the call goes to `localization::refineSequence` itself,
with the recorded results and these seven further arguments. -/
theorem refineCall_eq (env : Environment Pose Intr) (o : Options)
    (vec : List (LocalizationResult Pose Intr)) :
    refineCall env o vec =
      env.refineSequence vec true (!o.noBArefineIntrinsics) o.noDistortion true false
        (basenameBinary env o ++ ".sfmdata.BUNDLE") o.minPointVisibility :=
  rfl

/-- The output calls after the loop when the bundle adjustment is asked for,
in terms of what `refineSequence` returns. -/
theorem afterLoop_bundle (cfg : BuildConfig) (env : Environment Pose Intr) (o : Options)
    (s : LoopState σ Img Intr Pose) :
    afterLoop cfg env o true s =
      (if wantsBinaryOutput o then
        [OutputAction.save s.vec_localizationResults (basenameBinary env o ++ ".bin")]
       else []) ++
      [OutputAction.refineSequence s.vec_localizationResults true (!o.noBArefineIntrinsics)
        o.noDistortion true false (basenameBinary env o ++ ".sfmdata.BUNDLE")
        o.minPointVisibility] ++
      (if (env.refineSequence s.vec_localizationResults true (!o.noBArefineIntrinsics)
          o.noDistortion true false (basenameBinary env o ++ ".sfmdata.BUNDLE")
          o.minPointVisibility).1 then
        (if cfg.OPENMVG_HAVE_ALEMBIC then
          [OutputAction.exporterBA (basenameAlembic env o ++ ".BUNDLE.abc")
            (exportBundle s.currentImgName 0
              (env.refineSequence s.vec_localizationResults true (!o.noBArefineIntrinsics)
                o.noDistortion true false (basenameBinary env o ++ ".sfmdata.BUNDLE")
                o.minPointVisibility).2)]
         else []) ++
        (if wantsBinaryOutput o then
          [OutputAction.save
            (env.refineSequence s.vec_localizationResults true (!o.noBArefineIntrinsics)
              o.noDistortion true false (basenameBinary env o ++ ".sfmdata.BUNDLE")
              o.minPointVisibility).2 (basenameBinary env o ++ ".BUNDLE.bin")]
         else [])
       else []) := by
  unfold afterLoop
  simp only [refineCall_eq, refineAction, if_true]
  cases h1 : (env.refineSequence s.vec_localizationResults true (!o.noBArefineIntrinsics)
      o.noDistortion true false (basenameBinary env o ++ ".sfmdata.BUNDLE")
      o.minPointVisibility).1 <;> simp

/-- A run in which `globalBundle` is false at line 522 does not depend on
what `refineSequence` would do. -/
theorem mainRun_refine_irrelevant (cfg : BuildConfig) (env : Environment Pose Intr)
    (loc : ILocalizer σ Img Intr Pose) (localizerIsInit feedIsInit : Bool) (o : Options)
    (feed : List (Frame Img Intr)) (l0 : σ) (q0 : Intr)
    (refine2 : List (LocalizationResult Pose Intr) → Bool → Bool → Bool → Bool → Bool →
      String → Nat → Bool × List (LocalizationResult Pose Intr))
    (h : (o.globalBundle && !o.refineIntrinsics) = false) :
    mainRun cfg ⟨env.basenameOf, refine2⟩ loc localizerIsInit feedIsInit o feed l0 q0 =
      mainRun cfg env loc localizerIsInit feedIsInit o feed l0 q0 := by
  unfold mainRun
  cases hc : configure cfg o with
  | none => rfl
  | some c =>
    have hg := configure_globalBundle_eq cfg o c hc
    rw [h] at hg
    simp only [hg, afterLoop_no_bundle]
    rfl


/-- C11, as stated, fails: with `--globalBundle --resectionEstimator loransac
--reprojectionError 0` and without `--refineIntrinsics`, the check of line
299 rejects the threshold and `main` returns `EXIT_FAILURE` at line 302: on
the sample feed no output call is made, so `refineSequence` is not invoked.
The same happens with the default thresholds when the localizer is not
initialised (line 433). -/
theorem refineSequence_not_invoked_at_startup_failure :
    ({ defaultOptions "sfm_data.json" "frames" with
        globalBundle := true
        resectionEstimator := ROBUST_ESTIMATOR_LORANSAC
        resectionErrorMax := Double64.finite 0 } : Options).globalBundle = true ∧
    ({ defaultOptions "sfm_data.json" "frames" with
        globalBundle := true
        resectionEstimator := ROBUST_ESTIMATOR_LORANSAC
        resectionErrorMax := Double64.finite 0 } : Options).refineIntrinsics = false ∧
    (mainRun ⟨false, true⟩ sampleEnvironment (stateMachineLocalizer sampleCollaborators)
        true true
        { defaultOptions "sfm_data.json" "frames" with
          globalBundle := true
          resectionEstimator := ROBUST_ESTIMATOR_LORANSAC
          resectionErrorMax := Double64.finite 0 }
        sampleFeed [] 0).exitCode = 1 ∧
    (mainRun ⟨false, true⟩ sampleEnvironment (stateMachineLocalizer sampleCollaborators)
        true true
        { defaultOptions "sfm_data.json" "frames" with
          globalBundle := true
          resectionEstimator := ROBUST_ESTIMATOR_LORANSAC
          resectionErrorMax := Double64.finite 0 }
        sampleFeed [] 0).actions.any OutputAction.isRefineSequence = false ∧
    (mainRun ⟨false, true⟩ sampleEnvironment (stateMachineLocalizer sampleCollaborators)
        false true { defaultOptions "sfm_data.json" "frames" with globalBundle := true }
        sampleFeed [] 0).actions.any OutputAction.isRefineSequence = false := by
  have hc : configure ⟨false, true⟩
      { defaultOptions "sfm_data.json" "frames" with
        globalBundle := true
        resectionEstimator := ROBUST_ESTIMATOR_LORANSAC
        resectionErrorMax := Double64.finite 0 } = none := by
    simp only [configure, defaultOptions, checkRobustEstimator_loransac_eq,
      checkRobustEstimator_acransac_eq, Double64.le, minThreshold]
    norm_num
  refine ⟨rfl, rfl, ?_, ?_, ?_⟩
  · rw [mainRun_failed _ _ _ _ _ _ _ _ _ (Or.inl hc)]
  · rw [mainRun_failed _ _ _ _ _ _ _ _ _ (Or.inl hc)]
    rfl
  · rw [mainRun_failed _ _ _ _ _ _ _ _ _ (Or.inr (Or.inl rfl))]
    rfl

/-- C11, amended: `refineSequence` is invoked only if `--globalBundle` was
given and `--refineIntrinsics` was not.  A run that stops at start-up (a
threshold check rejects, or the localizer or the feed is not initialised)
makes no output call at all, so it does not invoke it whatever the switches
are.  In a run that gets past start-up it is invoked if and only if
`--globalBundle` was given and `--refineIntrinsics` was not; it is then
called exactly once, on the results recorded by the loop and with the
arguments of lines 531-538, and what it returns is used: its flag decides
whether the second exporter is created, and the results it leaves are the
ones exported.  When the condition on the two switches fails, the run does
not depend on what `refineSequence` would do.  With `--refineIntrinsics` set
the run is the same with and without `--globalBundle`. -/
theorem refineSequence_invoked_iff (cfg : BuildConfig) (env : Environment Pose Intr)
    (loc : ILocalizer σ Img Intr Pose) (localizerIsInit feedIsInit : Bool) (o : Options)
    (feed : List (Frame Img Intr)) (l0 : σ) (q0 : Intr) :
    ((mainRun cfg env loc localizerIsInit feedIsInit o feed l0 q0).actions.any
        OutputAction.isRefineSequence = true →
      o.globalBundle = true ∧ o.refineIntrinsics = false) ∧
    (configure cfg o = none ∨ localizerIsInit = false ∨ feedIsInit = false →
      (mainRun cfg env loc localizerIsInit feedIsInit o feed l0 q0).exitCode = 1 ∧
      (mainRun cfg env loc localizerIsInit feedIsInit o feed l0 q0).actions = []) ∧
    (configure cfg o ≠ none → localizerIsInit = true → feedIsInit = true →
      ((mainRun cfg env loc localizerIsInit feedIsInit o feed l0 q0).actions.any
          OutputAction.isRefineSequence = true ↔
        o.globalBundle = true ∧ o.refineIntrinsics = false)) ∧
    (∀ c, configure cfg o = some c → localizerIsInit = true → feedIsInit = true →
      o.globalBundle = true → o.refineIntrinsics = false →
      (mainRun cfg env loc localizerIsInit feedIsInit o feed l0 q0).actions.filter
          OutputAction.isRefineSequence =
        [OutputAction.refineSequence
          (mainLoop cfg loc c.param (initialState feed l0 q0)).vec_localizationResults
          true (!o.noBArefineIntrinsics) o.noDistortion true false
          (basenameBinary env o ++ ".sfmdata.BUNDLE") o.minPointVisibility] ∧
      (mainRun cfg env loc localizerIsInit feedIsInit o feed l0 q0).actions.any
          OutputAction.isExporterBA =
        ((env.refineSequence
            (mainLoop cfg loc c.param (initialState feed l0 q0)).vec_localizationResults
            true (!o.noBArefineIntrinsics) o.noDistortion true false
            (basenameBinary env o ++ ".sfmdata.BUNDLE") o.minPointVisibility).1 &&
          cfg.OPENMVG_HAVE_ALEMBIC) ∧
      (∀ filename events,
        OutputAction.exporterBA filename events ∈
          (mainRun cfg env loc localizerIsInit feedIsInit o feed l0 q0).actions →
        events =
          exportBundle (mainLoop cfg loc c.param (initialState feed l0 q0)).currentImgName 0
            (env.refineSequence
              (mainLoop cfg loc c.param (initialState feed l0 q0)).vec_localizationResults
              true (!o.noBArefineIntrinsics) o.noDistortion true false
              (basenameBinary env o ++ ".sfmdata.BUNDLE") o.minPointVisibility).2)) ∧
    (¬ (o.globalBundle = true ∧ o.refineIntrinsics = false) →
      ∀ refine2, mainRun cfg ⟨env.basenameOf, refine2⟩ loc localizerIsInit feedIsInit o
          feed l0 q0 =
        mainRun cfg env loc localizerIsInit feedIsInit o feed l0 q0) ∧
    (o.refineIntrinsics = true →
      mainRun cfg env loc localizerIsInit feedIsInit { o with globalBundle := true }
          feed l0 q0 =
        mainRun cfg env loc localizerIsInit feedIsInit { o with globalBundle := false }
          feed l0 q0) := by
  have key : ∀ c, configure cfg o = some c → localizerIsInit = true → feedIsInit = true →
      ((mainRun cfg env loc localizerIsInit feedIsInit o feed l0 q0).actions.any
          OutputAction.isRefineSequence = true ↔
        o.globalBundle = true ∧ o.refineIntrinsics = false) := by
    intro c hc hl hf
    subst hl hf
    rw [mainRun_started cfg env loc o feed l0 q0 c hc]
    simp only [afterLoop_refine, configure_globalBundle_eq cfg o c hc]
    cases o.globalBundle <;> cases o.refineIntrinsics <;> simp
  have fail : configure cfg o = none ∨ localizerIsInit = false ∨ feedIsInit = false →
      mainRun cfg env loc localizerIsInit feedIsInit o feed l0 q0 = ⟨1, [], []⟩ :=
    mainRun_failed cfg env loc localizerIsInit feedIsInit o feed l0 q0
  refine ⟨?_, ?_, ?_, ?_, ?_, ?_⟩
  · intro h
    cases hc : configure cfg o with
    | none =>
      rw [fail (Or.inl hc)] at h
      simp at h
    | some c =>
      cases hl : localizerIsInit with
      | false =>
        rw [fail (Or.inr (Or.inl hl))] at h
        simp at h
      | true =>
        cases hf : feedIsInit with
        | false =>
          rw [fail (Or.inr (Or.inr hf))] at h
          simp at h
        | true => exact (key c hc hl hf).mp h
  · intro h
    rw [fail h]
    exact ⟨rfl, rfl⟩
  · intro hc hl hf
    cases hcc : configure cfg o with
    | none => exact absurd hcc hc
    | some c => exact key c hcc hl hf
  · intro c hc hl hf hg hr
    subst hl hf
    have hcg : c.globalBundle = true := by
      rw [configure_globalBundle_eq cfg o c hc, hg, hr]
      rfl
    rw [mainRun_started cfg env loc o feed l0 q0 c hc]
    simp only [hcg, afterLoop_bundle]
    cases hw : wantsBinaryOutput o <;> cases hA : cfg.OPENMVG_HAVE_ALEMBIC <;>
      cases h1 : (env.refineSequence
        (mainLoop cfg loc c.param (initialState feed l0 q0)).vec_localizationResults
        true (!o.noBArefineIntrinsics) o.noDistortion true false
        (basenameBinary env o ++ ".sfmdata.BUNDLE") o.minPointVisibility).1 <;>
      simp [OutputAction.isRefineSequence, OutputAction.isExporterBA, List.filter]
  · intro h refine2
    apply mainRun_refine_irrelevant
    cases hg : o.globalBundle <;> cases hr : o.refineIntrinsics <;> simp_all
  · intro hr
    unfold mainRun
    rw [configure_globalBundle cfg o true, configure_globalBundle cfg o false]
    cases hc : configure cfg o with
    | none => rfl
    | some c =>
      simp only [Option.map_some', hr, Bool.not_true, Bool.and_false]
      rfl

/-- Witness for the amended C11.  The default command line with
`--globalBundle`, run on the sample feed: start-up succeeds, `refineSequence`
is invoked, and it is invoked once.  The same command line with a feed that
is not initialised: no output call is made.  The default command line,
without `--globalBundle`: the run is the same with a bundle adjustment that
always succeeds and returns no result.  With `--refineIntrinsics`: the run
is the same with and without `--globalBundle`. -/
theorem refineSequence_invoked_iff_witness :
    configure ⟨false, true⟩
        { defaultOptions "sfm_data.json" "frames" with globalBundle := true } ≠ none ∧
    (mainRun ⟨false, true⟩ sampleEnvironment (stateMachineLocalizer sampleCollaborators)
        true true { defaultOptions "sfm_data.json" "frames" with globalBundle := true }
        sampleFeed [] 0).actions.any OutputAction.isRefineSequence = true ∧
    ((mainRun ⟨false, true⟩ sampleEnvironment (stateMachineLocalizer sampleCollaborators)
        true true { defaultOptions "sfm_data.json" "frames" with globalBundle := true }
        sampleFeed [] 0).actions.filter OutputAction.isRefineSequence).length = 1 ∧
    (mainRun ⟨false, true⟩ sampleEnvironment (stateMachineLocalizer sampleCollaborators)
        true false { defaultOptions "sfm_data.json" "frames" with globalBundle := true }
        sampleFeed [] 0).actions = [] ∧
    ¬ ((defaultOptions "sfm_data.json" "frames").globalBundle = true ∧
        (defaultOptions "sfm_data.json" "frames").refineIntrinsics = false) ∧
    mainRun ⟨false, true⟩ ⟨sampleEnvironment.basenameOf, fun _ _ _ _ _ _ _ _ => (true, [])⟩
        (stateMachineLocalizer sampleCollaborators) true true
        (defaultOptions "sfm_data.json" "frames") sampleFeed [] 0 =
      mainRun ⟨false, true⟩ sampleEnvironment (stateMachineLocalizer sampleCollaborators)
        true true (defaultOptions "sfm_data.json" "frames") sampleFeed [] 0 ∧
    mainRun ⟨false, true⟩ sampleEnvironment (stateMachineLocalizer sampleCollaborators)
        true true
        { { defaultOptions "sfm_data.json" "frames" with refineIntrinsics := true } with
          globalBundle := true }
        sampleFeed [] 0 =
      mainRun ⟨false, true⟩ sampleEnvironment (stateMachineLocalizer sampleCollaborators)
        true true
        { { defaultOptions "sfm_data.json" "frames" with refineIntrinsics := true } with
          globalBundle := false }
        sampleFeed [] 0 := by
  have hsome : (configure ⟨false, true⟩
      { defaultOptions "sfm_data.json" "frames" with globalBundle := true }).isSome = true := by
    decide
  obtain ⟨c, hc⟩ := Option.isSome_iff_exists.mp hsome
  have hne : configure ⟨false, true⟩
      { defaultOptions "sfm_data.json" "frames" with globalBundle := true } ≠ none := by
    rw [hc]
    exact Option.some_ne_none c
  have hno : ¬ ((defaultOptions "sfm_data.json" "frames").globalBundle = true ∧
      (defaultOptions "sfm_data.json" "frames").refineIntrinsics = false) := by
    decide
  refine ⟨hne, ?_, ?_, ?_, hno, ?_, ?_⟩
  · exact ((refineSequence_invoked_iff ⟨false, true⟩ sampleEnvironment
      (stateMachineLocalizer sampleCollaborators) true true
      { defaultOptions "sfm_data.json" "frames" with globalBundle := true }
      sampleFeed [] 0).2.2.1 hne rfl rfl).mpr ⟨rfl, rfl⟩
  · rw [((refineSequence_invoked_iff ⟨false, true⟩ sampleEnvironment
      (stateMachineLocalizer sampleCollaborators) true true
      { defaultOptions "sfm_data.json" "frames" with globalBundle := true }
      sampleFeed [] 0).2.2.2.1 c hc rfl rfl rfl rfl).1]
    rfl
  · exact ((refineSequence_invoked_iff ⟨false, true⟩ sampleEnvironment
      (stateMachineLocalizer sampleCollaborators) true false
      { defaultOptions "sfm_data.json" "frames" with globalBundle := true }
      sampleFeed [] 0).2.1 (Or.inr (Or.inr rfl))).2
  · exact (refineSequence_invoked_iff ⟨false, true⟩ sampleEnvironment
      (stateMachineLocalizer sampleCollaborators) true true
      (defaultOptions "sfm_data.json" "frames") sampleFeed [] 0).2.2.2.2.1 hno
      (fun _ _ _ _ _ _ _ _ => (true, []))
  · exact (refineSequence_invoked_iff ⟨false, true⟩ sampleEnvironment
      (stateMachineLocalizer sampleCollaborators) true true
      { defaultOptions "sfm_data.json" "frames" with refineIntrinsics := true }
      sampleFeed [] 0).2.2.2.2.2 rfl

end AfterLoopFacts

section BundleOutputs

variable {σ Img Intr Pose : Type}

/-- The output calls after the loop when `refineSequence` reports failure. -/
theorem afterLoop_failure (cfg : BuildConfig) (env : Environment Pose Intr) (o : Options)
    (s : LoopState σ Img Intr Pose)
    (hfail : (refineCall env o s.vec_localizationResults).1 = false) :
    afterLoop cfg env o true s =
      afterLoop cfg env o false s ++ [refineAction env o s.vec_localizationResults] := by
  unfold afterLoop
  simp [hfail]

/-- The run without `--globalBundle`, past start-up. -/
theorem mainRun_no_bundle (cfg : BuildConfig) (env : Environment Pose Intr)
    (loc : ILocalizer σ Img Intr Pose) (o : Options) (feed : List (Frame Img Intr))
    (l0 : σ) (q0 : Intr) (c : Configured) (hc : configure cfg o = some c) :
    mainRun cfg env loc true true { o with globalBundle := false } feed l0 q0 =
      ⟨0, (mainLoop cfg loc c.param (initialState feed l0 q0)).exporter,
        afterLoop cfg env o false (mainLoop cfg loc c.param (initialState feed l0 q0))⟩ := by
  unfold mainRun
  rw [configure_globalBundle cfg o false, hc]
  rfl

/-- C12: when `refineSequence` reports failure, `main` writes no refined
output: the second Alembic exporter (`.BUNDLE.abc`) is not created, and the
only save is the one made before the refinement, of the unrefined results
to the `.bin` file (so none to `.BUNDLE.bin`).  Apart from the call of
`refineSequence` itself the outputs are those of the same run without
`--globalBundle`: the calls received by the exporter of the loop and the
saved result log are as they were. -/
theorem refine_failure_no_refined_output (cfg : BuildConfig) (env : Environment Pose Intr)
    (loc : ILocalizer σ Img Intr Pose) (o : Options) (feed : List (Frame Img Intr))
    (l0 : σ) (q0 : Intr) (c : Configured) (hc : configure cfg o = some c)
    (hfail : (refineCall env o
      (mainLoop cfg loc c.param (initialState feed l0 q0)).vec_localizationResults).1 = false) :
    (mainRun cfg env loc true true o feed l0 q0).actions.any OutputAction.isExporterBA
      = false ∧
    (∀ results filename,
      OutputAction.save results filename ∈ (mainRun cfg env loc true true o feed l0 q0).actions →
      results = (mainLoop cfg loc c.param (initialState feed l0 q0)).vec_localizationResults ∧
      filename = basenameBinary env o ++ ".bin") ∧
    (mainRun cfg env loc true true o feed l0 q0).actions.filter
        (fun a => !a.isRefineSequence) =
      (mainRun cfg env loc true true { o with globalBundle := false } feed l0 q0).actions ∧
    (mainRun cfg env loc true true o feed l0 q0).exporter =
      (mainRun cfg env loc true true { o with globalBundle := false } feed l0 q0).exporter := by
  rw [mainRun_started cfg env loc o feed l0 q0 c hc,
    mainRun_no_bundle cfg env loc o feed l0 q0 c hc]
  simp only
  cases hg : c.globalBundle with
  | false =>
    rw [afterLoop_no_bundle]
    cases hw : wantsBinaryOutput o <;>
      simp [OutputAction.isExporterBA, OutputAction.isRefineSequence]
  | true =>
    rw [afterLoop_failure cfg env o _ hfail, afterLoop_no_bundle]
    cases hw : wantsBinaryOutput o <;>
      simp [OutputAction.isExporterBA, OutputAction.isRefineSequence, refineAction]

/-- Witness for C12: the default command line with `--globalBundle` on an
empty feed, where the sample bundle adjustment fails: the only output call
is that of `refineSequence` after the save of the (empty) result log.  And
the same command line on the sample feed with a bundle adjustment that
always fails: no second exporter is created. -/
theorem refine_failure_no_refined_output_witness :
    (∃ c, configure ⟨false, true⟩
        { defaultOptions "sfm_data.json" "frames" with globalBundle := true } = some c) ∧
    (mainRun ⟨false, true⟩ sampleEnvironment (stateMachineLocalizer sampleCollaborators)
        true true { defaultOptions "sfm_data.json" "frames" with globalBundle := true }
        [] [] 0).actions.any OutputAction.isExporterBA = false ∧
    (mainRun ⟨false, true⟩ ⟨sampleEnvironment.basenameOf, fun vec _ _ _ _ _ _ _ => (false, vec)⟩
        (stateMachineLocalizer sampleCollaborators)
        true true { defaultOptions "sfm_data.json" "frames" with globalBundle := true }
        sampleFeed [] 0).actions.any OutputAction.isExporterBA = false := by
  have hsome : (configure ⟨false, true⟩
      { defaultOptions "sfm_data.json" "frames" with globalBundle := true }).isSome = true := by
    decide
  obtain ⟨c, hc⟩ := Option.isSome_iff_exists.mp hsome
  exact ⟨⟨c, hc⟩,
    (refine_failure_no_refined_output ⟨false, true⟩ sampleEnvironment
      (stateMachineLocalizer sampleCollaborators)
      { defaultOptions "sfm_data.json" "frames" with globalBundle := true } [] [] 0 c hc
      rfl).1,
    (refine_failure_no_refined_output ⟨false, true⟩
      ⟨sampleEnvironment.basenameOf, fun vec _ _ _ _ _ _ _ => (false, vec)⟩
      (stateMachineLocalizer sampleCollaborators)
      { defaultOptions "sfm_data.json" "frames" with globalBundle := true } sampleFeed [] 0 c hc
      rfl).1⟩

/-- Whether a run that gets past the initialisation of the localizer and of
the feed saves a result log. -/
theorem mainRun_saves (cfg : BuildConfig) (env : Environment Pose Intr)
    (loc : ILocalizer σ Img Intr Pose) (o : Options) (feed : List (Frame Img Intr))
    (l0 : σ) (q0 : Intr) :
    (mainRun cfg env loc true true o feed l0 q0).actions.any OutputAction.isSave =
      ((configure cfg o).isSome && o.exportBinaryFile.isEmpty) := by
  cases hc : configure cfg o with
  | none =>
    rw [mainRun_failed cfg env loc _ _ o feed l0 q0 (Or.inl hc)]
    simp
  | some c =>
    rw [mainRun_started cfg env loc o feed l0 q0 c hc]
    simp only [afterLoop, Option.isSome_some, Bool.true_and]
    cases hg : c.globalBundle <;> cases hw : wantsBinaryOutput o <;>
      cases hr : (refineCall env o
        (mainLoop cfg loc c.param (initialState feed l0 q0)).vec_localizationResults).1 <;>
      cases hA : cfg.OPENMVG_HAVE_ALEMBIC <;>
      simp [OutputAction.isSave, refineAction, wantsBinaryOutput] at hw ⊢ <;>
      simp [hw]

/-- C13, on the code: the test of line 367 is the wrong way round.  A run
past start-up saves a result log exactly when `--outputBinary` is empty.
With `--outputBinary out/results.bin` nothing is saved, whatever the feed;
with the default, the empty name, the recorded results are saved, to the
file named by the base name of the empty path followed by `.bin`. -/
theorem binary_output_inverted (cfg : BuildConfig) (env : Environment Pose Intr)
    (loc : ILocalizer σ Img Intr Pose) (feed : List (Frame Img Intr)) (l0 : σ) (q0 : Intr) :
    (∀ o : Options,
      (mainRun cfg env loc true true o feed l0 q0).actions.any OutputAction.isSave =
        ((configure cfg o).isSome && o.exportBinaryFile.isEmpty)) ∧
    (mainRun cfg env loc true true
        { defaultOptions "sfm_data.json" "frames" with exportBinaryFile := "out/results.bin" }
        feed l0 q0).actions = [] ∧
    (∃ results, (mainRun cfg env loc true true (defaultOptions "sfm_data.json" "frames")
        feed l0 q0).actions = [OutputAction.save results (env.basenameOf "" ++ ".bin")]) := by
  refine ⟨fun o => mainRun_saves cfg env loc o feed l0 q0, ?_, ?_⟩
  · have hsome : (configure cfg
        { defaultOptions "sfm_data.json" "frames" with
          exportBinaryFile := "out/results.bin" }).isSome = true := by
      cases cfg
      rfl
    obtain ⟨c, hc⟩ := Option.isSome_iff_exists.mp hsome
    have hg := configure_globalBundle_eq cfg _ c hc
    rw [mainRun_started cfg env loc _ feed l0 q0 c hc]
    simp only [hg, defaultOptions, Bool.false_and]
    rw [afterLoop_no_bundle]
    rfl
  · have hsome : (configure cfg (defaultOptions "sfm_data.json" "frames")).isSome = true := by
      cases cfg
      rfl
    obtain ⟨c, hc⟩ := Option.isSome_iff_exists.mp hsome
    have hg := configure_globalBundle_eq cfg _ c hc
    rw [mainRun_started cfg env loc _ feed l0 q0 c hc]
    simp only [hg, defaultOptions, Bool.false_and]
    rw [afterLoop_no_bundle]
    exact ⟨_, rfl⟩

end BundleOutputs

/-! ## Ordered sets -/

section StdSet

variable {α β : Type} [LinearOrder α]

/-- After `insert(a)` the set holds `a` and what it held before. -/
theorem mem_stdSetInsert (a x : α) (l : List α) :
    x ∈ stdSetInsert a l ↔ x = a ∨ x ∈ l := by
  induction l with
  | nil => simp [stdSetInsert]
  | cons b l ih =>
    unfold stdSetInsert
    by_cases h1 : a < b
    · simp [h1]
    · by_cases h2 : a = b
      · subst h2
        simp
      · simp only [h1, h2, if_false, List.mem_cons, ih]
        tauto

/-- The sequence stays strictly ascending under `insert`. -/
theorem stdSetInsert_sorted (a : α) (l : List α) (h : l.Sorted (· < ·)) :
    (stdSetInsert a l).Sorted (· < ·) := by
  induction l with
  | nil => simp [stdSetInsert]
  | cons b l ih =>
    have hb := List.sorted_cons.mp h
    unfold stdSetInsert
    by_cases h1 : a < b
    · simp only [h1, if_true]
      refine List.sorted_cons.mpr ⟨?_, h⟩
      intro x hx
      rcases List.mem_cons.mp hx with rfl | hx
      · exact h1
      · exact lt_trans h1 (hb.1 x hx)
    · by_cases h2 : a = b
      · subst h2
        simp only [lt_irrefl, if_false, if_true]
        exact h
      · simp only [h1, h2, if_false]
        have hba : b < a := lt_of_le_of_ne (not_lt.mp h1) (Ne.symm h2)
        refine List.sorted_cons.mpr ⟨?_, ih hb.2⟩
        intro x hx
        rcases (mem_stdSetInsert a x l).mp hx with rfl | hx
        · exact hba
        · exact hb.1 x hx

/-- One `insert` adds at most one element. -/
theorem length_stdSetInsert_le (a : α) (l : List α) :
    (stdSetInsert a l).length ≤ l.length + 1 := by
  induction l with
  | nil => simp [stdSetInsert]
  | cons b l ih =>
    unfold stdSetInsert
    by_cases h1 : a < b
    · simp [h1]
    · by_cases h2 : a = b
      · simp [h1, h2]
      · simp only [h1, h2, if_false, List.length_cons]
        omega

/-- A set is determined by its elements: two strictly ascending sequences
with the same members are equal. -/
theorem sorted_ext (l1 l2 : List α) (h1 : l1.Sorted (· < ·)) (h2 : l2.Sorted (· < ·))
    (h : ∀ x, x ∈ l1 ↔ x ∈ l2) : l1 = l2 :=
  List.eq_of_perm_of_sorted ((List.perm_ext_iff_of_nodup h1.nodup h2.nodup).mpr h) h1 h2

/-- Membership after a loop that inserts one key per element. -/
theorem mem_foldl_insert (f : β → α) (l : List β) (init : List α) (x : α) :
    x ∈ l.foldl (fun s b => stdSetInsert (f b) s) init ↔ x ∈ init ∨ ∃ b ∈ l, x = f b := by
  induction l generalizing init with
  | nil => simp
  | cons b l ih =>
    simp only [List.foldl_cons, ih, mem_stdSetInsert, List.mem_cons, exists_eq_or_imp]
    tauto

/-- A loop that inserts one key per element keeps the sequence ascending. -/
theorem sorted_foldl_insert (f : β → α) (l : List β) (init : List α)
    (h : init.Sorted (· < ·)) :
    (l.foldl (fun s b => stdSetInsert (f b) s) init).Sorted (· < ·) := by
  induction l generalizing init with
  | nil => exact h
  | cons b l ih => exact ih _ (stdSetInsert_sorted _ _ h)

/-- A loop that inserts one key per element adds at most one element per
iteration. -/
theorem length_foldl_insert (f : β → α) (l : List β) (init : List α) :
    (l.foldl (fun s b => stdSetInsert (f b) s) init).length ≤ init.length + l.length := by
  induction l generalizing init with
  | nil => simp
  | cons b l ih =>
    simp only [List.foldl_cons, List.length_cons]
    have h1 := ih (stdSetInsert (f b) init)
    have h2 := length_stdSetInsert_le (f b) init
    omega

/-- Membership after a loop that inserts two keys per element. -/
theorem mem_foldl_insert2 (f g : β → α) (l : List β) (init : List α) (x : α) :
    x ∈ l.foldl (fun s b => stdSetInsert (g b) (stdSetInsert (f b) s)) init ↔
      x ∈ init ∨ ∃ b ∈ l, x = f b ∨ x = g b := by
  induction l generalizing init with
  | nil => simp
  | cons b l ih =>
    simp only [List.foldl_cons, ih, mem_stdSetInsert, List.mem_cons, exists_eq_or_imp]
    constructor
    · rintro ((h | h | h) | h)
      · exact Or.inr (Or.inl (Or.inr h))
      · exact Or.inr (Or.inl (Or.inl h))
      · exact Or.inl h
      · exact Or.inr (Or.inr h)
    · rintro (h | (h | h) | h)
      · exact Or.inl (Or.inr (Or.inr h))
      · exact Or.inl (Or.inr (Or.inl h))
      · exact Or.inl (Or.inl h)
      · exact Or.inr h

/-- A loop that inserts two keys per element keeps the sequence ascending. -/
theorem sorted_foldl_insert2 (f g : β → α) (l : List β) (init : List α)
    (h : init.Sorted (· < ·)) :
    (l.foldl (fun s b => stdSetInsert (g b) (stdSetInsert (f b) s)) init).Sorted (· < ·) := by
  induction l generalizing init with
  | nil => exact h
  | cons b l ih => exact ih _ (stdSetInsert_sorted _ _ (stdSetInsert_sorted _ _ h))

end StdSet

/-! ## Pairs and indices of the relative motions -/

/-- The pairs of `getPairs` are the keys of the relative motions. -/
theorem mem_getPairs (v : List relativeInfo) (p : Pair) :
    p ∈ getPairs v ↔ ∃ rel ∈ v, rel.1 = p := by
  unfold getPairs
  rw [mem_foldl_insert (fun rel : relativeInfo => Pair.mk rel.1.first rel.1.second)]
  simp only [List.not_mem_nil, false_or]
  constructor
  · rintro ⟨rel, hrel, rfl⟩
    exact ⟨rel, hrel, rfl⟩
  · rintro ⟨rel, hrel, rfl⟩
    exact ⟨rel, hrel, rfl⟩

/-- The sequence of `getPairs` is strictly ascending. -/
theorem getPairs_sorted (v : List relativeInfo) : (getPairs v).Sorted (· < ·) :=
  sorted_foldl_insert _ v [] List.sorted_nil

/-- The indices of `getIndexT` are the components of the keys. -/
theorem mem_getIndexT (v : List relativeInfo) (k : IndexT) :
    k ∈ getIndexT v ↔ ∃ rel ∈ v, k = rel.1.first ∨ k = rel.1.second := by
  unfold getIndexT
  rw [mem_foldl_insert2 (fun rel : relativeInfo => rel.1.first)
    (fun rel : relativeInfo => rel.1.second)]
  simp

/-- The sequence of `getIndexT` is strictly ascending. -/
theorem getIndexT_sorted (v : List relativeInfo) : (getIndexT v).Sorted (· < ·) :=
  sorted_foldl_insert2 _ _ v [] List.sorted_nil

/-- C16: `getPairs(v)` is exactly the set of the pairs `(i, j)` by which some
entry of `v` is keyed: `(i, j)` is in it if and only if some entry has the
key `(i, j)` itself (the pair `(j, i)` does not count for it), every pair
occurs once, so that `|getPairs(v)| ≤ |v|`, and two lists of relative
motions with the same keys, in particular two orderings of the same list,
give the same set. -/
theorem getPairs_spec (v : List relativeInfo) :
    (∀ i j : IndexT, Pair.mk i j ∈ getPairs v ↔ ∃ rel ∈ v, rel.1.first = i ∧ rel.1.second = j) ∧
    (getPairs v).Nodup ∧
    (getPairs v).length ≤ v.length ∧
    (∀ w : List relativeInfo, v.Perm w → getPairs v = getPairs w) ∧
    (∀ w : List relativeInfo, (∀ p : Pair, (∃ rel ∈ v, rel.1 = p) ↔ (∃ rel ∈ w, rel.1 = p)) →
      getPairs v = getPairs w) := by
  have hext : ∀ w : List relativeInfo,
      (∀ p : Pair, (∃ rel ∈ v, rel.1 = p) ↔ (∃ rel ∈ w, rel.1 = p)) →
      getPairs v = getPairs w := by
    intro w h
    apply sorted_ext _ _ (getPairs_sorted v) (getPairs_sorted w)
    intro p
    rw [mem_getPairs, mem_getPairs]
    exact h p
  refine ⟨?_, (getPairs_sorted v).nodup, ?_, ?_, hext⟩
  · intro i j
    rw [mem_getPairs]
    constructor
    · rintro ⟨rel, hrel, h⟩
      exact ⟨rel, hrel, by rw [h], by rw [h]⟩
    · rintro ⟨rel, hrel, h1, h2⟩
      refine ⟨rel, hrel, ?_⟩
      cases hr : rel.1
      rw [hr] at h1 h2
      simp only at h1 h2
      rw [h1, h2]
  · have := length_foldl_insert (fun rel : relativeInfo => Pair.mk rel.1.first rel.1.second) v []
    simpa [getPairs] using this
  · intro w hp
    apply hext
    intro p
    constructor
    · rintro ⟨rel, hrel, h⟩
      exact ⟨rel, hp.mem_iff.mp hrel, h⟩
    · rintro ⟨rel, hrel, h⟩
      exact ⟨rel, hp.mem_iff.mpr hrel, h⟩

/-- C17: `getIndexT(v)` is exactly the set of the indices that occur as the
first or the second component of some pair of `getPairs(v)`, each once; it
is empty if and only if `v` is empty, and it has at most `2 · |getPairs(v)|`
elements. -/
theorem getIndexT_spec (v : List relativeInfo) :
    (∀ k : IndexT, k ∈ getIndexT v ↔ ∃ p ∈ getPairs v, k = p.first ∨ k = p.second) ∧
    (getIndexT v).Nodup ∧
    (getIndexT v = [] ↔ v = []) ∧
    (getIndexT v).length ≤ 2 * (getPairs v).length := by
  have hmem : ∀ k : IndexT,
      k ∈ getIndexT v ↔ ∃ p ∈ getPairs v, k = p.first ∨ k = p.second := by
    intro k
    rw [mem_getIndexT]
    constructor
    · rintro ⟨rel, hrel, h⟩
      exact ⟨rel.1, (mem_getPairs v rel.1).mpr ⟨rel, hrel, rfl⟩, h⟩
    · rintro ⟨p, hp, h⟩
      obtain ⟨rel, hrel, rfl⟩ := (mem_getPairs v p).mp hp
      exact ⟨rel, hrel, h⟩
  refine ⟨hmem, (getIndexT_sorted v).nodup, ?_, ?_⟩
  · constructor
    · intro h
      cases v with
      | nil => rfl
      | cons rel rest =>
        have : rel.1.first ∈ getIndexT (rel :: rest) :=
          (mem_getIndexT _ _).mpr ⟨rel, List.mem_cons_self _ _, Or.inl rfl⟩
        rw [h] at this
        cases this
    · intro h
      subst h
      rfl
  · have hsub : getIndexT v ⊆ (getPairs v).flatMap (fun p => [p.first, p.second]) := by
      intro k hk
      obtain ⟨p, hp, h⟩ := (hmem k).mp hk
      rw [List.mem_flatMap]
      refine ⟨p, hp, ?_⟩
      rcases h with h | h <;> simp [h]
    have hle := ((getIndexT_sorted v).nodup.subperm hsub).length_le
    have hlen : ((getPairs v).flatMap (fun p => [p.first, p.second])).length =
        2 * (getPairs v).length := by
      generalize getPairs v = l
      induction l with
      | nil => rfl
      | cons p l ih =>
        simp only [List.flatMap_cons, List.length_append, List.length_cons, List.length_nil, ih]
        omega
    omega

/-! ## The graph builder -/

namespace indexedGraph

/-- The body of the node loop never throws: the key was just assigned. -/
theorem addNodeFor_eq (G : indexedGraph) (idx : IndexT) :
    addNodeFor G idx =
      Except.ok ⟨⟨G.g.nodeCount + 1, G.g.edges⟩,
        Function.update G.map_size_t_to_node idx (some G.g.nodeCount),
        Function.update G.map_nodeMapIndex G.g.nodeCount idx⟩ := by
  unfold addNodeFor GraphT.addNode
  simp

/-- The node loop: it succeeds, adds one node per element of the sequence and
no edge, and the keys of the map afterwards are the old keys and the
elements of the sequence.  Every key is mapped to a node of the graph that
the node map sends back to the key; if moreover the sequence has no
repetition and none of its elements was a key, every node is the node of
some key. -/
theorem addNodes_spec (l : List IndexT) (G : indexedGraph) :
    ∃ G1, addNodes l G = Except.ok G1 ∧
      G1.g.edges = G.g.edges ∧
      G1.g.nodeCount = G.g.nodeCount + l.length ∧
      (∀ k, (G1.map_size_t_to_node k).isSome ↔ k ∈ l ∨ (G.map_size_t_to_node k).isSome) ∧
      ((∀ k n, G.map_size_t_to_node k = some n → n < G.g.nodeCount ∧ G.map_nodeMapIndex n = k) →
        (∀ k n, G1.map_size_t_to_node k = some n →
          n < G1.g.nodeCount ∧ G1.map_nodeMapIndex n = k)) ∧
      ((∀ k n, G.map_size_t_to_node k = some n → n < G.g.nodeCount) →
        (∀ n, n < G.g.nodeCount → ∃ k, G.map_size_t_to_node k = some n) →
        l.Nodup → (∀ k ∈ l, G.map_size_t_to_node k = none) →
        (∀ n, n < G1.g.nodeCount → ∃ k, G1.map_size_t_to_node k = some n)) := by
  induction l generalizing G with
  | nil =>
    refine ⟨G, rfl, rfl, rfl, ?_, fun h => h, fun _ h _ _ => h⟩
    intro k
    simp
  | cons idx rest ih =>
    obtain ⟨G1, h1, h2, h3, h4, h5, h6⟩ := ih
      ⟨⟨G.g.nodeCount + 1, G.g.edges⟩,
        Function.update G.map_size_t_to_node idx (some G.g.nodeCount),
        Function.update G.map_nodeMapIndex G.g.nodeCount idx⟩
    dsimp only at h2 h3 h4 h5 h6
    refine ⟨G1, ?_, h2, ?_, ?_, ?_, ?_⟩
    · simp only [addNodes, addNodeFor_eq]
      exact h1
    · rw [h3]
      simp only [List.length_cons]
      omega
    · intro k
      rw [h4 k]
      by_cases hk : k = idx
      · subst hk
        simp
      · simp [Function.update_noteq hk, hk]
    · intro hinv
      apply h5
      intro k n hkn
      by_cases hk : k = idx
      · subst hk
        simp only [Function.update_same, Option.some.injEq] at hkn
        subst hkn
        simp
      · rw [Function.update_noteq hk] at hkn
        obtain ⟨hlt, hback⟩ := hinv k n hkn
        refine ⟨Nat.lt_succ_of_lt hlt, ?_⟩
        rw [Function.update_noteq (Nat.ne_of_lt hlt)]
        exact hback
    · intro hlt hsurj hnd hfresh
      have hnd2 := List.nodup_cons.mp hnd
      apply h6
      · intro k n hkn
        by_cases hk : k = idx
        · subst hk
          simp only [Function.update_same, Option.some.injEq] at hkn
          subst hkn
          exact Nat.lt_succ_self _
        · rw [Function.update_noteq hk] at hkn
          exact Nat.lt_succ_of_lt (hlt k n hkn)
      · intro n hn
        rcases Nat.lt_succ_iff_lt_or_eq.mp hn with hn | hn
        · obtain ⟨k, hk⟩ := hsurj n hn
          refine ⟨k, ?_⟩
          have hne : k ≠ idx := by
            intro he
            subst he
            rw [hfresh k (List.mem_cons_self _ _)] at hk
            cases hk
          rw [Function.update_noteq hne]
          exact hk
        · subst hn
          exact ⟨idx, by simp⟩
      · exact hnd2.2
      · intro k hk
        have hne : k ≠ idx := by
          intro he
          subst he
          exact hnd2.1 hk
        rw [Function.update_noteq hne]
        exact hfresh k (List.mem_cons_of_mem _ hk)

/-- The edge loop when every index of every pair is a key: it succeeds,
leaves the nodes and the two maps as they are, and appends one edge per
pair, in order, between the nodes of the two indices of the pair. -/
theorem addEdges_ok (pairs : List Pair) (G : indexedGraph)
    (h : ∀ p ∈ pairs, (G.map_size_t_to_node p.first).isSome ∧
      (G.map_size_t_to_node p.second).isSome) :
    ∃ G1, addEdges pairs G = Except.ok G1 ∧
      G1.g.nodeCount = G.g.nodeCount ∧
      G1.map_size_t_to_node = G.map_size_t_to_node ∧
      G1.map_nodeMapIndex = G.map_nodeMapIndex ∧
      G1.g.edges.map (fun e => (some e.1, some e.2)) =
        G.g.edges.map (fun e => (some e.1, some e.2)) ++
          pairs.map (fun p => (G.map_size_t_to_node p.first, G.map_size_t_to_node p.second)) := by
  induction pairs generalizing G with
  | nil => exact ⟨G, rfl, rfl, rfl, rfl, by simp⟩
  | cons p rest ih =>
    obtain ⟨h1, h2⟩ := h p (List.mem_cons_self _ _)
    obtain ⟨u, hu⟩ := Option.isSome_iff_exists.mp h1
    obtain ⟨v, hv⟩ := Option.isSome_iff_exists.mp h2
    obtain ⟨G1, e1, e2, e3, e4, e5⟩ := ih { G with g := G.g.addEdge u v }
      (fun q hq => h q (List.mem_cons_of_mem _ hq))
    refine ⟨G1, ?_, e2, e3, e4, ?_⟩
    · simp only [addEdges, hu, hv]
      exact e1
    · rw [e5]
      simp [GraphT.addEdge, hu, hv]

/-- The edge loop when some index of some pair is not a key: it throws
`out_of_range`. -/
theorem addEdges_error (pairs : List Pair) (G : indexedGraph)
    (h : ∃ p ∈ pairs, G.map_size_t_to_node p.first = none ∨
      G.map_size_t_to_node p.second = none) :
    addEdges pairs G = Except.error Exception.out_of_range := by
  induction pairs generalizing G with
  | nil =>
    obtain ⟨p, hp, -⟩ := h
    cases hp
  | cons q rest ih =>
    unfold addEdges
    cases hu : G.map_size_t_to_node q.first with
    | none => rfl
    | some u =>
      cases hv : G.map_size_t_to_node q.second with
      | none => rfl
      | some v =>
        simp only
        apply ih
        obtain ⟨p, hp, hnone⟩ := h
        rcases List.mem_cons.mp hp with rfl | hp
        · rcases hnone with hn | hn
          · rw [hu] at hn
            cases hn
          · rw [hv] at hn
            cases hn
        · exact ⟨p, hp, hnone⟩

/-- The members of `setNodes` are the indices of the pairs. -/
theorem mem_setNodes (pairs : List Pair) (k : IndexT) :
    k ∈ setNodes pairs ↔ ∃ p ∈ pairs, k = p.first ∨ k = p.second := by
  unfold setNodes
  rw [mem_foldl_insert2 (fun p : Pair => p.first) (fun p : Pair => p.second)]
  simp

/-- The sequence `setNodes` is strictly ascending. -/
theorem setNodes_sorted (pairs : List Pair) : (setNodes pairs).Sorted (· < ·) :=
  sorted_foldl_insert2 _ _ pairs [] List.sorted_nil

/-- The length of `setNodes` is the number of distinct indices of the pairs. -/
theorem length_setNodes (pairs : List Pair) :
    (setNodes pairs).length =
      ((pairs.flatMap (fun p => [p.first, p.second])).dedup).length := by
  apply List.Perm.length_eq
  rw [List.perm_ext_iff_of_nodup (setNodes_sorted pairs).nodup (List.nodup_dedup _)]
  intro k
  rw [mem_setNodes, List.mem_dedup, List.mem_flatMap]
  constructor
  · rintro ⟨p, hp, h⟩
    exact ⟨p, hp, by rcases h with h | h <;> simp [h]⟩
  · rintro ⟨p, hp, h⟩
    refine ⟨p, hp, ?_⟩
    simpa using h

end indexedGraph

/-- C14: for every collection of index pairs the constructor
`indexedGraph(pairs)` succeeds (no node lookup fails).  The graph has as
many nodes as there are distinct indices among the components of the
pairs; the keys of `map_size_t_to_node` are exactly those indices; the map
and the node map are inverse bijections between the keys and the nodes, so
there is exactly one node per index; and the edges are, in order and with
multiplicity, one per pair of the input, joining the nodes of its two
indices (a repeated pair and a pair of equal indices each give an edge). -/
theorem indexedGraph_fromPairs_spec (pairs : List Pair) :
    ∃ G, indexedGraph.fromPairs pairs = Except.ok G ∧
      G.g.nodeCount = ((pairs.flatMap (fun p => [p.first, p.second])).dedup).length ∧
      (∀ k, (G.map_size_t_to_node k).isSome ↔ ∃ p ∈ pairs, k = p.first ∨ k = p.second) ∧
      (∀ k n, G.map_size_t_to_node k = some n →
        n < G.g.nodeCount ∧ G.map_nodeMapIndex n = k) ∧
      (∀ n, n < G.g.nodeCount → ∃ k, G.map_size_t_to_node k = some n) ∧
      G.g.edges.length = pairs.length ∧
      G.g.edges.map (fun e => (some e.1, some e.2)) =
        pairs.map (fun p => (G.map_size_t_to_node p.first, G.map_size_t_to_node p.second)) := by
  obtain ⟨G1, h1, h2, h3, h4, h5, h6⟩ :=
    indexedGraph.addNodes_spec (indexedGraph.setNodes pairs) indexedGraph.empty
  have hkeys : ∀ k, (G1.map_size_t_to_node k).isSome ↔
      ∃ p ∈ pairs, k = p.first ∨ k = p.second := by
    intro k
    rw [h4 k, indexedGraph.mem_setNodes]
    simp [indexedGraph.empty]
  obtain ⟨G2, e1, e2, e3, e4, e5⟩ := indexedGraph.addEdges_ok pairs G1 (by
    intro p hp
    exact ⟨(hkeys _).mpr ⟨p, hp, Or.inl rfl⟩, (hkeys _).mpr ⟨p, hp, Or.inr rfl⟩⟩)
  have hedges : G2.g.edges.map (fun e => (some e.1, some e.2)) =
      pairs.map (fun p => (G2.map_size_t_to_node p.first, G2.map_size_t_to_node p.second)) := by
    rw [e5, e3, h2]
    simp [indexedGraph.empty]
  refine ⟨G2, ?_, ?_, ?_, ?_, ?_, ?_, hedges⟩
  · simp only [indexedGraph.fromPairs, h1]
    exact e1
  · rw [e2, h3, ← indexedGraph.length_setNodes]
    simp [indexedGraph.empty]
  · rw [e3]
    exact hkeys
  · rw [e2, e3, e4]
    exact h5 (by intro k n hkn; simp [indexedGraph.empty] at hkn)
  · rw [e2, e3]
    exact h6 (by intro k n hkn; simp [indexedGraph.empty] at hkn)
      (by intro n hn; simp [indexedGraph.empty] at hn)
      (indexedGraph.setNodes_sorted pairs).nodup
      (by intro k _; rfl)
  · have := congrArg List.length hedges
    simpa using this

/-- C15: the constructor `indexedGraph(nodes, pairs)` succeeds if and only
if both indices of every pair occur in `nodes`; otherwise, that is as soon
as some pair names an index that is not in `nodes`, it throws
`out_of_range`.  When it succeeds the keys of the map are exactly the
elements of `nodes` and there is one edge per pair: no node and no edge is
added for an index outside `nodes`. -/
theorem indexedGraph_fromNodesAndPairs_spec (nodes : List IndexT) (pairs : List Pair) :
    ((∃ G, indexedGraph.fromNodesAndPairs nodes pairs = Except.ok G) ↔
      ∀ p ∈ pairs, p.first ∈ nodes ∧ p.second ∈ nodes) ∧
    (indexedGraph.fromNodesAndPairs nodes pairs = Except.error Exception.out_of_range ↔
      ∃ p ∈ pairs, p.first ∉ nodes ∨ p.second ∉ nodes) ∧
    (∀ G, indexedGraph.fromNodesAndPairs nodes pairs = Except.ok G →
      (∀ k, (G.map_size_t_to_node k).isSome ↔ k ∈ nodes) ∧
      G.g.nodeCount = nodes.length ∧
      G.g.edges.map (fun e => (some e.1, some e.2)) =
        pairs.map (fun p => (G.map_size_t_to_node p.first, G.map_size_t_to_node p.second))) := by
  obtain ⟨G1, h1, h2, h3, h4, -, -⟩ := indexedGraph.addNodes_spec nodes indexedGraph.empty
  have hkeys : ∀ k, (G1.map_size_t_to_node k).isSome ↔ k ∈ nodes := by
    intro k
    rw [h4 k]
    simp [indexedGraph.empty]
  have hrun : indexedGraph.fromNodesAndPairs nodes pairs = indexedGraph.addEdges pairs G1 := by
    simp only [indexedGraph.fromNodesAndPairs, h1]
  by_cases hall : ∀ p ∈ pairs, p.first ∈ nodes ∧ p.second ∈ nodes
  · obtain ⟨G2, e1, e2, e3, -, e5⟩ := indexedGraph.addEdges_ok pairs G1 (by
      intro p hp
      exact ⟨(hkeys _).mpr (hall p hp).1, (hkeys _).mpr (hall p hp).2⟩)
    rw [hrun, e1]
    refine ⟨?_, ?_, ?_⟩
    · exact ⟨fun _ => hall, fun _ => ⟨G2, rfl⟩⟩
    · constructor
      · intro h
        cases h
      · rintro ⟨p, hp, h⟩
        rcases h with h | h
        · exact absurd (hall p hp).1 h
        · exact absurd (hall p hp).2 h
    · intro G hG
      cases hG
      refine ⟨?_, ?_, ?_⟩
      · rw [e3]
        exact hkeys
      · rw [e2, h3]
        simp [indexedGraph.empty]
      · rw [e5, e3, h2]
        simp [indexedGraph.empty]
  · have hex : ∃ p ∈ pairs, p.first ∉ nodes ∨ p.second ∉ nodes := by
      by_contra hcon
      apply hall
      intro p hp
      by_contra hp2
      apply hcon
      refine ⟨p, hp, ?_⟩
      by_cases h1 : p.first ∈ nodes
      · exact Or.inr (fun h2 => hp2 ⟨h1, h2⟩)
      · exact Or.inl h1
    have herr := indexedGraph.addEdges_error pairs G1 (by
      obtain ⟨p, hp, h⟩ := hex
      refine ⟨p, hp, ?_⟩
      rcases h with h | h
      · left
        rw [← Option.not_isSome_iff_eq_none, hkeys]
        exact h
      · right
        rw [← Option.not_isSome_iff_eq_none, hkeys]
        exact h)
    rw [hrun, herr]
    refine ⟨?_, ?_, ?_⟩
    · constructor
      · rintro ⟨G, hG⟩
        cases hG
      · intro h
        exact absurd h hall
    · exact ⟨fun _ => hex, fun _ => rfl⟩
    · intro G hG
      cases hG

/-! ## Histogram of masked data -/

section ComputeHistoFacts

variable {H P V : Type}

/-- The inner loop adds the masked values of its row, in column order. -/
theorem computeHistoRow_eq (Add : H → V → H) (channel : P → Nat → V) (mask : Image Nat)
    (channelIndex : Nat) (image : Image P) (j : Nat) (hj : j < image.Height)
    (cols : List Nat) (hcols : ∀ i ∈ cols, i < image.Width) (histo : H) :
    computeHistoRow Add channel mask channelIndex image j cols histo =
      some ((cols.filterMap (fun i =>
        if mask.data j i ≠ 0 then some (channel (image.data j i) channelIndex)
        else none)).foldl Add histo) := by
  induction cols generalizing histo with
  | nil => rfl
  | cons i rest ih =>
    have hi : i < image.Width := hcols i (List.mem_cons_self _ _)
    have hrest : ∀ k ∈ rest, k < image.Width := fun k hk => hcols k (List.mem_cons_of_mem _ hk)
    unfold computeHistoRow
    by_cases hm : mask.data j i ≠ 0
    · simp only [hm, if_true, Image.at?, hj, hi, and_self, ne_eq, not_false_eq_true]
      rw [ih hrest]
      simp [List.filterMap_cons, hm]
    · simp only [hm, if_false]
      rw [ih hrest]
      simp [List.filterMap_cons, hm]

/-- The outer loop adds the masked values row after row. -/
theorem computeHistoRows_eq (Add : H → V → H) (channel : P → Nat → V) (mask : Image Nat)
    (channelIndex : Nat) (image : Image P) (hw : mask.Width ≤ image.Width)
    (rows : List Nat) (hrows : ∀ j ∈ rows, j < image.Height) (histo : H) :
    computeHistoRows Add channel mask channelIndex image rows histo =
      some ((rows.flatMap (fun j =>
        (List.range mask.Width).filterMap (fun i =>
          if mask.data j i ≠ 0 then some (channel (image.data j i) channelIndex)
          else none))).foldl Add histo) := by
  induction rows generalizing histo with
  | nil => rfl
  | cons j rest ih =>
    have hj : j < image.Height := hrows j (List.mem_cons_self _ _)
    have hrest : ∀ k ∈ rest, k < image.Height := fun k hk => hrows k (List.mem_cons_of_mem _ hk)
    unfold computeHistoRows
    rw [computeHistoRow_eq Add channel mask channelIndex image j hj (List.range mask.Width)
      (fun i hi => lt_of_lt_of_le (List.mem_range.mp hi) hw)]
    simp only
    rw [ih hrest]
    simp [List.flatMap_cons, List.foldl_append]

/-- The number of masked values is the number of non-zero pixels of the mask. -/
theorem length_maskedSamples (channel : P → Nat → V) (mask : Image Nat) (channelIndex : Nat)
    (image : Image P) :
    (maskedSamples channel mask channelIndex image).length = nonZeroPixels mask := by
  unfold maskedSamples nonZeroPixels
  generalize List.range mask.Height = rows
  induction rows with
  | nil => rfl
  | cons j rest ih =>
    simp only [List.flatMap_cons, List.length_append, List.map_cons, List.sum_cons, ih]
    congr 1
    generalize List.range mask.Width = cols
    induction cols with
    | nil => rfl
    | cons i cols ihc =>
      simp only [ne_eq, ite_not, decide_not] at ihc
      by_cases hm : mask.data j i = 0
      · simp [List.filterMap_cons, List.filter_cons, hm, ihc]
      · simp [List.filterMap_cons, List.filter_cons, hm, ihc]

/-- C18: for every mask and every image at least as large as the mask,
`computeHisto` returns, and the histogram it leaves is the one obtained by
adding, in this order, the channel `channelIndex` values of the image at
the pixels whose mask value is non-zero, taken in row-major order, once
each, and nothing else.  The number of added values is the number of
non-zero pixels of the mask, and a mask that is zero everywhere leaves the
histogram unchanged. -/
theorem computeHisto_spec (Add : H → V → H) (channel : P → Nat → V) (histo : H)
    (mask : Image Nat) (channelIndex : Nat) (image : Image P)
    (hh : mask.Height ≤ image.Height) (hw : mask.Width ≤ image.Width) :
    computeHisto Add channel histo mask channelIndex image =
      some ((maskedSamples channel mask channelIndex image).foldl Add histo) ∧
    (maskedSamples channel mask channelIndex image).length = nonZeroPixels mask ∧
    ((∀ j i, j < mask.Height → i < mask.Width → mask.data j i = 0) →
      computeHisto Add channel histo mask channelIndex image = some histo) := by
  have hmain : computeHisto Add channel histo mask channelIndex image =
      some ((maskedSamples channel mask channelIndex image).foldl Add histo) :=
    computeHistoRows_eq Add channel mask channelIndex image hw (List.range mask.Height)
      (fun j hj => lt_of_lt_of_le (List.mem_range.mp hj) hh) histo
  refine ⟨hmain, length_maskedSamples channel mask channelIndex image, ?_⟩
  intro hzero
  rw [hmain]
  have hnil : maskedSamples channel mask channelIndex image = [] := by
    unfold maskedSamples
    rw [List.flatMap_eq_nil_iff]
    intro j hj
    rw [List.filterMap_eq_nil_iff]
    intro i hi
    simp [hzero j i (List.mem_range.mp hj) (List.mem_range.mp hi)]
  rw [hnil]
  rfl

/-- Witness for C18: the sample mask on the sample image, green channel, the
histogram being the list of the values added so far: the three values at
the pixels (0,0), (0,2) and (1,2) are added to the value 7 already there. -/
theorem computeHisto_spec_witness :
    (sampleMask.Height ≤ sampleImage.Height ∧ sampleMask.Width ≤ sampleImage.Width) ∧
    computeHisto (fun (h : List Nat) (v : Nat) => h ++ [v]) (fun p c => p.getD c 0) [7]
      sampleMask 1 sampleImage = some [7, 200, 202, 212] := by
  have h := (computeHisto_spec (fun (h : List Nat) (v : Nat) => h ++ [v])
    (fun p c => p.getD c 0) [7] sampleMask 1 sampleImage (by decide) (by decide)).1
  refine ⟨⟨by decide, by decide⟩, ?_⟩
  rw [h]
  decide

end ComputeHistoFacts

/-! ## Checks of the fundamental-matrix tests -/

/-- The loop over the correspondences keeps `bOk` true exactly when every
residual is below the precision. -/
theorem expectResiduals_eq (F : Mat3) (precision : ℚ) (hptsA hptsB : List Vec3) (bOk : Bool) :
    expectResiduals F precision hptsA hptsB bOk =
      (bOk && (hptsA.zip hptsB).all (fun ab => decide (ab.2.dot (F.mulVec ab.1) < precision))) := by
  induction hptsA generalizing hptsB bOk with
  | nil => simp [expectResiduals]
  | cons a restA ih =>
    cases hptsB with
    | nil => simp [expectResiduals]
    | cons b restB =>
      simp only [expectResiduals, ih, List.zip_cons_cons, List.all_cons, Bool.and_assoc]

/-- The value of `ExpectFundamentalProperties`: the determinant and every
residual are compared with the precision as they are, with their sign. -/
theorem ExpectFundamentalProperties_eq (F : Mat3) (ptsA ptsB : List (ℚ × ℚ)) (precision : ℚ) :
    ExpectFundamentalProperties F ptsA ptsB precision =
      (if ptsA.length ≠ ptsB.length then none
       else some (decide (F.determinant < precision) &&
        ((EuclideanToHomogeneous ptsA).zip (EuclideanToHomogeneous ptsB)).all
          (fun ab => decide (ab.2.dot (F.mulVec ab.1) < precision)))) := by
  unfold ExpectFundamentalProperties
  simp only [expectResiduals_eq, Bool.true_and]

/-- The determinant of the matrix `test_F_determinant`. -/
theorem test_F_determinant_det : test_F_determinant.determinant = -1 := by
  norm_num [test_F_determinant, Mat3.determinant, Vec3.dot, Vec3.cross]

/-- The determinant of the matrix `test_F_residual`. -/
theorem test_F_residual_det : test_F_residual.determinant = 0 := by
  norm_num [test_F_residual, Mat3.determinant, Vec3.dot, Vec3.cross]

/-- The residual of the matrix `test_F_residual` is minus the product of the
last homogeneous coordinates, which is `-1` on every correspondence. -/
theorem test_F_residual_value (a b : Vec3) :
    b.dot (test_F_residual.mulVec a) = -(b.z * a.z) := by
  simp [test_F_residual, Mat3.mulVec, Vec3.dot]

/-- C21, on the code: `ExpectFundamentalProperties` compares the determinant
and the residuals with the precision without taking absolute values.  It
returns true whenever the determinant is 0 and the condition `x'ᵀ F x = 0`
holds to precision, but not only then: with the seven correspondences of
`SevenPointTest` and the precision `1e-8`, the matrix `test_F_residual`,
whose residual is `-1` on every correspondence, is accepted, and so is,
without correspondences, the matrix `test_F_determinant`, of determinant
`-1`. -/
theorem ExpectFundamentalProperties_one_sided :
    (∀ (F : Mat3) (ptsA ptsB : List (ℚ × ℚ)) (precision : ℚ),
      ExpectFundamentalProperties F ptsA ptsB precision =
        (if ptsA.length ≠ ptsB.length then none
         else some (decide (F.determinant < precision) &&
          ((EuclideanToHomogeneous ptsA).zip (EuclideanToHomogeneous ptsB)).all
            (fun ab => decide (ab.2.dot (F.mulVec ab.1) < precision))))) ∧
    (∀ (F : Mat3) (ptsA ptsB : List (ℚ × ℚ)) (precision : ℚ),
      ptsA.length = ptsB.length → fundamentalPropertiesHold F ptsA ptsB precision = true →
      ExpectFundamentalProperties F ptsA ptsB precision = some true) ∧
    (ExpectFundamentalProperties test_F_residual test_x1 test_x2 (1 / 10 ^ 8) = some true ∧
      fundamentalPropertiesHold test_F_residual test_x1 test_x2 (1 / 10 ^ 8) = false) ∧
    (ExpectFundamentalProperties test_F_determinant [] [] (1 / 10 ^ 8) = some true ∧
      fundamentalPropertiesHold test_F_determinant [] [] (1 / 10 ^ 8) = false) := by
  refine ⟨ExpectFundamentalProperties_eq, ?_, ⟨?_, ?_⟩, ⟨?_, ?_⟩⟩
  · intro F ptsA ptsB precision hlen hspec
    rw [ExpectFundamentalProperties_eq, if_neg (not_not.mpr hlen)]
    unfold fundamentalPropertiesHold at hspec
    simp only [Bool.and_eq_true, decide_eq_true_eq, List.all_eq_true] at hspec ⊢
    simp only [Option.some.injEq, Bool.and_eq_true, decide_eq_true_eq, List.all_eq_true]
    exact ⟨lt_of_le_of_lt (le_abs_self _) hspec.1,
      fun ab hab => lt_of_le_of_lt (le_abs_self _) (hspec.2 ab hab)⟩
  · rw [ExpectFundamentalProperties_eq]
    simp only [test_x1, test_x2, EuclideanToHomogeneous, List.map, List.zip_cons_cons,
      List.zip_nil_right, List.all_cons, List.all_nil, test_F_residual_value,
      test_F_residual_det, List.length_cons, List.length_nil]
    norm_num
  · unfold fundamentalPropertiesHold
    simp only [test_x1, test_x2, EuclideanToHomogeneous, List.map, List.zip_cons_cons,
      List.zip_nil_right, List.all_cons, List.all_nil, test_F_residual_value,
      test_F_residual_det]
    norm_num
  · rw [ExpectFundamentalProperties_eq]
    simp only [test_F_determinant_det]
    norm_num [EuclideanToHomogeneous]
  · unfold fundamentalPropertiesHold
    simp only [test_F_determinant_det]
    norm_num [EuclideanToHomogeneous]

/-- A scalar factor of the second matrix comes out of the sum of products. -/
theorem sumProd_smul_right (k : ℚ) (a b : Mat) :
    a.sumProd (Mat.smul k b) = k * a.sumProd b := by
  simp only [Mat.sumProd, Mat.smul, mul_left_comm (a.coeff _ _) k, List.sum_map_mul_left]

/-- A scalar factor of the first matrix comes out of the sum of products. -/
theorem sumProd_smul_left (k : ℚ) (a b : Mat) :
    (Mat.smul k a).sumProd b = k * a.sumProd b := by
  simp only [Mat.sumProd, Mat.smul, mul_assoc, List.sum_map_mul_left]

/-- The value of `Colinear`. -/
theorem Colinear_eq (sqrt : ℚ → ℚ) (a b : Mat) (tolerance : ℚ) :
    Colinear sqrt a b tolerance = true ↔
      a.rows = b.rows ∧ a.cols = b.cols ∧
        ∃ c, CosinusBetweenMatrices sqrt a b = some c ∧ c * c < 1 ∧
          |sqrt (1 - c * c)| < tolerance := by
  unfold Colinear
  cases h1 : ((a.rows == b.rows) && (a.cols == b.cols))
  · simp only [Bool.not_false, if_true, Bool.false_eq_true, false_iff]
    rintro ⟨hr, hc, _⟩
    simp [hr, hc] at h1
  · simp only [Bool.and_eq_true, beq_iff_eq] at h1
    cases h2 : CosinusBetweenMatrices sqrt a b with
    | none => simp
    | some c =>
      by_cases h3 : c * c < 1
      · simp [h1, h3]
      · simp [h1, h3]

/-- When the two Frobenius norms are computed exactly, the cosine of a
non-zero matrix and a non-zero multiple of it is a number of square 1. -/
theorem cosinus_smul_sq (sqrt : ℚ → ℚ) (a : Mat) (k : ℚ)
    (hna : FrobeniusNorm sqrt a * FrobeniusNorm sqrt a = a.sumProd a)
    (hnb : FrobeniusNorm sqrt (Mat.smul k a) * FrobeniusNorm sqrt (Mat.smul k a) =
      (Mat.smul k a).sumProd (Mat.smul k a))
    (ha : a.sumProd a ≠ 0) (hk : k ≠ 0) :
    ∃ c, CosinusBetweenMatrices sqrt a (Mat.smul k a) = some c ∧ c * c = 1 := by
  rw [sumProd_smul_right, sumProd_smul_left] at hnb
  have hna0 : FrobeniusNorm sqrt a ≠ 0 := by
    intro h
    rw [h] at hna
    exact ha (by simpa using hna.symm)
  have hnb0 : FrobeniusNorm sqrt (Mat.smul k a) ≠ 0 := by
    intro h
    rw [h] at hnb
    have : k * (k * a.sumProd a) = 0 := by simpa using hnb.symm
    rcases mul_eq_zero.mp this with h1 | h1
    · exact hk h1
    · rcases mul_eq_zero.mp h1 with h2 | h2
      · exact hk h2
      · exact ha h2
  refine ⟨a.sumProd (Mat.smul k a) / FrobeniusNorm sqrt a / FrobeniusNorm sqrt (Mat.smul k a),
    ?_, ?_⟩
  · unfold CosinusBetweenMatrices
    rw [if_neg (by simp [hna0, hnb0])]
  · rw [sumProd_smul_right]
    have e : k * a.sumProd a / FrobeniusNorm sqrt a / FrobeniusNorm sqrt (Mat.smul k a) *
        (k * a.sumProd a / FrobeniusNorm sqrt a / FrobeniusNorm sqrt (Mat.smul k a)) =
        (k * a.sumProd a) * (k * a.sumProd a) /
          ((FrobeniusNorm sqrt a * FrobeniusNorm sqrt a) *
            (FrobeniusNorm sqrt (Mat.smul k a) * FrobeniusNorm sqrt (Mat.smul k a))) := by
      field_simp
      ring
    rw [e, hna, hnb]
    field_simp
    ring

/-- The square root of 25 by `Rat.sqrt`, which is exact on squares. -/
theorem rat_sqrt_25 : Rat.sqrt 25 = 5 := by
  have h : (25 : ℚ) = 5 * 5 := by norm_num
  rw [h, Rat.sqrt_eq]
  norm_num

/-- The sum of the squares of the coefficients of `(3 4)`. -/
theorem test_row34_sumProd : test_row34.sumProd test_row34 = 25 := by
  simp [Mat.sumProd, test_row34, List.range_succ]
  norm_num

/-- The cosine of `(3 4)` with itself. -/
theorem test_row34_cosinus : CosinusBetweenMatrices Rat.sqrt test_row34 test_row34 = some 1 := by
  simp only [CosinusBetweenMatrices, FrobeniusNorm, test_row34_sumProd, rat_sqrt_25]
  norm_num

/-- C22, on the code: `Colinear` returns true exactly when the dimensions
match, the cosine is a number whose square is strictly below 1 and the value
`sqrt(1 - c²)` is below the tolerance in absolute value; matrices of
different dimensions give false, and so does a matrix of norm 0, for which
the cosine is not a number.  But the test `c * c < 1` of line 19 leaves out
the colinear matrices themselves: whenever the two Frobenius norms are
computed exactly, `Colinear(a, k*a, tolerance)` is false for every non-zero
`a`, every non-zero `k` and every tolerance.  So it is for `a = (3 4)`, of
norm 5, whose cosine with itself is `25 / 5 / 5 = 1`, with the tolerance
`1e-6`. -/
theorem Colinear_rejects_colinear :
    (∀ (sqrt : ℚ → ℚ) (a b : Mat) (tolerance : ℚ),
      Colinear sqrt a b tolerance = true ↔
        a.rows = b.rows ∧ a.cols = b.cols ∧
          ∃ c, CosinusBetweenMatrices sqrt a b = some c ∧ c * c < 1 ∧
            |sqrt (1 - c * c)| < tolerance) ∧
    (∀ (sqrt : ℚ → ℚ) (a b : Mat) (tolerance : ℚ),
      a.rows ≠ b.rows ∨ a.cols ≠ b.cols → Colinear sqrt a b tolerance = false) ∧
    (∀ (sqrt : ℚ → ℚ) (a b : Mat) (tolerance : ℚ),
      FrobeniusNorm sqrt a = 0 ∨ FrobeniusNorm sqrt b = 0 →
      Colinear sqrt a b tolerance = false) ∧
    (∀ (sqrt : ℚ → ℚ) (a : Mat) (k tolerance : ℚ),
      FrobeniusNorm sqrt a * FrobeniusNorm sqrt a = a.sumProd a →
      FrobeniusNorm sqrt (Mat.smul k a) * FrobeniusNorm sqrt (Mat.smul k a) =
        (Mat.smul k a).sumProd (Mat.smul k a) →
      a.sumProd a ≠ 0 → k ≠ 0 →
      Colinear sqrt a (Mat.smul k a) tolerance = false) ∧
    (CosinusBetweenMatrices Rat.sqrt test_row34 test_row34 = some 1 ∧
      Colinear Rat.sqrt test_row34 test_row34 (1 / 10 ^ 6) = false) := by
  refine ⟨Colinear_eq, ?_, ?_, ?_, test_row34_cosinus, ?_⟩
  · intro sqrt a b tolerance h
    rw [Bool.eq_false_iff, Ne, Colinear_eq]
    rintro ⟨hr, hc, _⟩
    rcases h with h | h
    · exact h hr
    · exact h hc
  · intro sqrt a b tolerance h
    rw [Bool.eq_false_iff, Ne, Colinear_eq]
    rintro ⟨_, _, c, hc, _⟩
    unfold CosinusBetweenMatrices at hc
    rw [if_pos h] at hc
    cases hc
  · intro sqrt a k tolerance hna hnb ha hk
    obtain ⟨c, hc, hcc⟩ := cosinus_smul_sq sqrt a k hna hnb ha hk
    rw [Bool.eq_false_iff, Ne, Colinear_eq]
    rintro ⟨_, _, c2, hc2, hlt, _⟩
    rw [hc] at hc2
    cases hc2
    rw [hcc] at hlt
    exact lt_irrefl _ hlt
  · rw [Bool.eq_false_iff, Ne, Colinear_eq]
    rintro ⟨_, _, c2, hc2, hlt, _⟩
    rw [test_row34_cosinus] at hc2
    cases hc2
    norm_num at hlt

end AliceVision
